import Mathlib

/-!
# claircore: resolution of OVAL advisories into vulnerability records

A shallow embedding of `pkg/ovalutil/rpm.go` (`RPMDefsToVulns`, `walkCriterion`), of
`oracle/parser.go` (`Updater.Parse`, `walkCriterion`, `platformToDist`), of `libindex/opts.go`
(`Opts.Parse`) and of `python/packagescanner.go` (`Scanner.Scan`).

Conventions of the embedding.

* Go pointers to `claircore.Package` and `claircore.Vulnerability` are addresses into an
  append-only `Heap`; `&T{...}` allocates a fresh cell at the end of the store.
* A run-time panic (index out of range, nil dereference) is the result `none`.
* A Go result pair `(vulns, err)` is a pair of options: `none` stands for `nil`.
* Logging and the `context.Context` argument have no effect on the results and are left out.
* The types of `github.com/quay/goval-parser/oval` are declared outside the repository; only
  the fields the two files read are kept, and the `Lookup` methods of the `Tests`, `Objects`
  and `States` collections are fields of the collections (parameters of the development).
* The functions of the Go library that `Scan` calls on paths (`filepath.Clean`, `filepath.Join`,
  `filepath.Rel`, `strings.HasSuffix`) are written out on lists of characters; the readers of
  archives and of MIME headers are data and parameters.
-/

set_option linter.dupNamespace false

namespace claircore

/-- Go `error` values: a plain message, or `fmt.Errorf` with the `%w` verb around a cause. -/
inductive Error where
  | new (msg : String)
  | wrap (msg : String) (cause : Error)
deriving DecidableEq, Repr

/-- The `Unwrap` method of an error built with `%w`. -/
def Error.unwrap : Error → Option Error
  | .new _ => none
  | .wrap _ cause => some cause

/-- Modelled from the spec: the Distribution record (`claircore.Distribution`, declared outside
the files at hand), of which only the name that tells the records apart is kept. -/
structure Distribution where
  Name : String
deriving DecidableEq, Repr

/-- Modelled from the spec: the Package record (`claircore.Package`, declared outside the
files at hand), with the fields the files at hand set; a field left out of a Go literal has its
zero value, the empty string. `RPMDefsToVulns` only ever sets `Name`. -/
structure Package where
  Name : String
  Version : String := ""
  Kind : String := ""
  PackageDB : String := ""
deriving DecidableEq, Repr

/-- Address of a `claircore.Package` cell. -/
abbrev PkgPtr := Nat

/-- Address of a `claircore.Vulnerability` cell. -/
abbrev VulnPtr := Nat

/-- Modelled from the spec: the Vulnerability record (`claircore.Vulnerability`, declared
outside the files at hand) with the fields of the output record; `Package` is a pointer, `Dist`
points to an immutable record and is kept by value. -/
structure Vulnerability where
  Updater : String
  Name : String
  Description : String
  Links : String
  Severity : String
  Package : Option PkgPtr
  Dist : Option Distribution
  FixedInVersion : String
deriving DecidableEq, Repr

/-- The store of heap-allocated records. -/
structure Heap where
  packages : List Package
  vulnerabilities : List Vulnerability
deriving DecidableEq, Repr

/-- Allocation `&claircore.Package{...}`: the new cell sits at the end of the store. -/
def Heap.newPackage (h : Heap) (p : Package) : Heap × PkgPtr :=
  ({ h with packages := h.packages ++ [p] }, h.packages.length)

/-- Allocation of a `claircore.Vulnerability` cell (`&vuln`, `&claircore.Vulnerability{...}`). -/
def Heap.newVulnerability (h : Heap) (v : Vulnerability) : Heap × VulnPtr :=
  ({ h with vulnerabilities := h.vulnerabilities ++ [v] }, h.vulnerabilities.length)

namespace oval

/-- Modelled from the spec: one `oval.Criterion`, a leaf holding a test reference. -/
structure Criterion where
  TestRef : String
deriving DecidableEq, Repr

/-- Modelled from the spec: one `oval.Criteria`, a group node with nested groups and
leaves. -/
inductive Criteria where
  | mk (Criterias : List Criteria) (Criterions : List Criterion)

/-- The nested groups of a node. -/
def Criteria.Criterias : Criteria → List Criteria
  | .mk cs _ => cs

/-- The leaves held directly by a node. -/
def Criteria.Criterions : Criteria → List Criterion
  | .mk _ ls => ls

/-- Modelled from the spec: one `oval.Affected` entry of a definition, with its platform
strings. -/
structure Affected where
  Platforms : List String
deriving DecidableEq, Repr

/-- Modelled from the spec: the `oval.Advisory` part of a definition. -/
structure Advisory where
  Severity : String
deriving DecidableEq, Repr

/-- Modelled from the spec: one `oval.Definition`, with the fields the parsers read. -/
structure Definition where
  ID : String
  Title : String
  Description : String
  Affecteds : List Affected
  Advisory : Advisory
  Criteria : Criteria

/-- Modelled from the spec: an object reference of a test. -/
structure ObjectRef where
  ObjectRef : String
deriving DecidableEq, Repr

/-- Modelled from the spec: a state reference of a test. -/
structure StateRef where
  StateRef : String
deriving DecidableEq, Repr

/-- Modelled from the spec: one `oval.RPMInfoTest`, an identifier and two lists of references
paired by position. -/
structure RPMInfoTest where
  ID : String
  ObjectRefs : List ObjectRef
  StateRefs : List StateRef
deriving DecidableEq, Repr

/-- Modelled from the spec: one `oval.RPMInfoObject`, an identifier and a package name. -/
structure RPMInfoObject where
  ID : String
  Name : String
deriving DecidableEq, Repr

/-- Modelled from the spec: the EVR element of a state, with its text. -/
structure EVR where
  Body : String
deriving DecidableEq, Repr

/-- Modelled from the spec: one `oval.RPMInfoState`, an identifier and an optional EVR (a
pointer in Go, `none` is nil). -/
structure RPMInfoState where
  ID : String
  EVR : Option EVR
deriving DecidableEq, Repr

/-- Modelled from the spec: the `oval.Definitions` collection. -/
structure Definitions where
  Definitions : List Definition

/-- Modelled from the spec: the `oval.Tests` collection, with the RPMInfo sub-collection and
the `Lookup` method, which returns the kind of the test and its index in the sub-collection of
its kind, or an error. -/
structure Tests where
  RPMInfoTests : List RPMInfoTest
  Lookup : String → Except Error (String × Nat)

/-- Modelled from the spec: the `oval.Objects` collection, likewise. -/
structure Objects where
  RPMInfoObjects : List RPMInfoObject
  Lookup : String → Except Error (String × Nat)

/-- Modelled from the spec: the `oval.States` collection, likewise. -/
structure States where
  RPMInfoStates : List RPMInfoState
  Lookup : String → Except Error (String × Nat)

/-- Modelled from the spec: the `oval.Root` of a decoded document. -/
structure Root where
  Definitions : Definitions
  Tests : Tests
  Objects : Objects
  States : States

end oval

/-- A Go `for` loop over a list whose body may panic: the state is threaded through the
iterations, and a panic ends the run. -/
def forEach {σ α : Type} (body : σ → α → Option σ) : List α → σ → Option σ
  | [], s => some s
  | a :: rest, s =>
    match body s a with
    | none => none
    | some s' => forEach body rest s'

/-- The local variables of a resolution run that change: the heap, the package cache
(`map[string]*claircore.Package`, most recent binding first) and the output slice. -/
structure State where
  heap : Heap
  pkgcache : List (String × PkgPtr)
  vulns : List VulnPtr
deriving DecidableEq, Repr

/-- The result of a parse: the final heap and the Go pair `(vulns, err)`. -/
abbrev Result := Heap × Option (List VulnPtr) × Option Error

namespace ovalutil

/-- The `ProtoVulnFunc` type: a prototype vulnerability for a definition, or an error. The
strategy is a function of the definition; the pointer it returns on success is a fresh cell
holding the record. A Go strategy that returns a nil pointer together with a nil error is not
of this type: `vuln := *protoVuln` (rpm.go line 75) would dereference the nil pointer. -/
abbrev ProtoVulnFunc := oval.Definition → Except Error Vulnerability

mutual
/-- The function `walkCriterion` of `pkg/ovalutil/rpm.go`: the nested groups first, then the
leaves of the node, all appended to `cris`. -/
def walkCriterion : oval.Criteria → List oval.Criterion → List oval.Criterion
  | .mk criterias criterions, cris =>
    let cris := walkCriterias criterias cris
    criterions.foldl (fun cris criterion => cris ++ [criterion]) cris
/-- The first loop of `walkCriterion`: `for _, criteria := range node.Criterias`. -/
def walkCriterias : List oval.Criteria → List oval.Criterion → List oval.Criterion
  | [], cris => cris
  | criteria :: rest, cris => walkCriterias rest (walkCriterion criteria cris)
end

/-- The body of the loop `for i := 0; i < len(test.ObjectRefs); i++` (rpm.go lines 55 to 86)
at index `i`, for the prototype at address `protoVuln`. -/
def pairBody (root : oval.Root) (protoVuln : VulnPtr) (test : oval.RPMInfoTest)
    (s : State) (i : Nat) : Option State :=
  match test.ObjectRefs[i]?, test.StateRefs[i]? with
  | some o, some st =>
    let objRef := o.ObjectRef
    let stateRef := st.StateRef
    match root.Objects.Lookup objRef with
    | .error _ => some s
    | .ok (_, objIndex) =>
      match root.States.Lookup stateRef with
      | .error _ => some s
      | .ok (_, stateIndex) =>
        match root.Objects.RPMInfoObjects[objIndex]? with
        | none => none
        | some object =>
          match root.States.RPMInfoStates[stateIndex]? with
          | none => none
          | some state =>
            match state.EVR with
            | none => some s
            | some evr =>
              match s.heap.vulnerabilities[protoVuln]? with
              | none => none
              | some proto =>
                let vuln := proto
                match s.pkgcache.lookup object.Name with
                | none =>
                  let (heap, p) := s.heap.newPackage { Name := object.Name }
                  let pkgcache := (object.Name, p) :: s.pkgcache
                  let vuln := { vuln with Package := some p }
                  let vuln := { vuln with FixedInVersion := evr.Body }
                  let (heap, ptr) := heap.newVulnerability vuln
                  some { heap := heap, pkgcache := pkgcache, vulns := s.vulns ++ [ptr] }
                | some pkg =>
                  let vuln := { vuln with Package := some pkg }
                  let vuln := { vuln with FixedInVersion := evr.Body }
                  let (heap, ptr) := s.heap.newVulnerability vuln
                  some { heap := heap, pkgcache := s.pkgcache, vulns := s.vulns ++ [ptr] }
  | _, _ => none

/-- The body of the loop `for _, criterion := range cris` (rpm.go lines 41 to 87). -/
def criterionBody (root : oval.Root) (protoVuln : VulnPtr) (s : State)
    (criterion : oval.Criterion) : Option State :=
  match root.Tests.Lookup criterion.TestRef with
  | .error _ => some s
  | .ok (_, index) =>
    match root.Tests.RPMInfoTests[index]? with
    | none => none
    | some test =>
      if test.ObjectRefs.length ≠ test.StateRefs.length then some s
      else forEach (pairBody root protoVuln test) (List.range test.ObjectRefs.length) s

/-- The body of the loop `for _, def := range root.Definitions.Definitions` (rpm.go lines 30
to 88); `cris` is the outer slice, re-sliced to length 0 for every definition. -/
def definitionBody (root : oval.Root) (protoVuln : ProtoVulnFunc) (cris : List oval.Criterion)
    (s : State) (defn : oval.Definition) : Option State :=
  match protoVuln defn with
  | .error _ => some s
  | .ok proto =>
    let (heap, protoVuln) := s.heap.newVulnerability proto
    let cris := cris.take 0
    let cris := walkCriterion defn.Criteria cris
    forEach (criterionBody root protoVuln) cris { s with heap := heap }

/-- The loop over the definitions of `RPMDefsToVulns`, from the initial locals. -/
def run (heap : Heap) (root : oval.Root) (protoVuln : ProtoVulnFunc) : Option State :=
  let vulns : List VulnPtr := []
  let pkgcache : List (String × PkgPtr) := []
  let cris : List oval.Criterion := []
  forEach (definitionBody root protoVuln cris) root.Definitions.Definitions
    { heap := heap, pkgcache := pkgcache, vulns := vulns }

/-- The function `RPMDefsToVulns` of `pkg/ovalutil/rpm.go`. -/
def RPMDefsToVulns (heap : Heap) (root : oval.Root) (protoVuln : ProtoVulnFunc) :
    Option Result :=
  match run heap root protoVuln with
  | none => none
  | some s => some (s.heap, some s.vulns, none)

end ovalutil

namespace oracle

/-- The constant `OracleLinux5Platform`. -/
def OracleLinux5Platform : String := "Oracle Linux 5"
/-- The constant `OracleLinux6Platform`. -/
def OracleLinux6Platform : String := "Oracle Linux 6"
/-- The constant `OracleLinux7Platform`. -/
def OracleLinux7Platform : String := "Oracle Linux 7"
/-- The constant `OracleLinux8Platform`. -/
def OracleLinux8Platform : String := "Oracle Linux 8"

/-- Modelled from the spec: the Oracle Linux 5 Distribution record (the variable `fiveDist` is
declared in another file of the package). -/
def fiveDist : Distribution :=
  { Name := "Oracle Linux 5" }
/-- Modelled from the spec: the Oracle Linux 6 Distribution record (variable `sixDist`). -/
def sixDist : Distribution :=
  { Name := "Oracle Linux 6" }
/-- Modelled from the spec: the Oracle Linux 7 Distribution record (variable `sevenDist`). -/
def sevenDist : Distribution :=
  { Name := "Oracle Linux 7" }
/-- Modelled from the spec: the Oracle Linux 8 Distribution record (variable `eightDist`). -/
def eightDist : Distribution :=
  { Name := "Oracle Linux 8" }

/-- The table `platformToDist`: a mapping between oval platform string and distribution. -/
def platformToDist : List (String × Distribution) :=
  [ (OracleLinux5Platform, fiveDist),
    (OracleLinux6Platform, sixDist),
    (OracleLinux7Platform, sevenDist),
    (OracleLinux8Platform, eightDist) ]

/-- The receiver of `Parse`: the updater, of which `Parse` reads only `Name()`. -/
structure Updater where
  Name : String
deriving DecidableEq, Repr

/-- The byte stream handed to `Parse`. -/
abbrev Reader := List Nat

mutual
/-- The function `walkCriterion` of `oracle/parser.go`. -/
def walkCriterion : oval.Criteria → List oval.Criterion → List oval.Criterion
  | .mk criterias criterions, cris =>
    let cris := walkCriterias criterias cris
    criterions.foldl (fun cris criterion => cris ++ [criterion]) cris
/-- The first loop of `walkCriterion`: `for _, criteria := range node.Criterias`. -/
def walkCriterias : List oval.Criteria → List oval.Criterion → List oval.Criterion
  | [], cris => cris
  | criteria :: rest, cris => walkCriterias rest (walkCriterion criteria cris)
end

/-- The inner loop of `DistSearch` (parser.go lines 55 to 60): the first platform of one
affected entry that is a key of `platformToDist`, if any. -/
def searchPlatforms : List String → Option Distribution
  | [] => none
  | platform :: rest =>
    match platformToDist.lookup platform with
    | some d => some d
    | none => searchPlatforms rest

/-- The labelled loop `DistSearch` (parser.go lines 53 to 61); `break DistSearch` leaves both
loops at the first hit, and `none` is the nil `dist`. -/
def DistSearch : List oval.Affected → Option Distribution
  | [] => none
  | affected :: rest =>
    match searchPlatforms affected.Platforms with
    | some d => some d
    | none => DistSearch rest

/-- The body of the loop `for i := 0; i < len(test.ObjectRefs); i++` (parser.go lines 97 to
128). -/
def pairBody (root : oval.Root) (protoVuln : VulnPtr) (test : oval.RPMInfoTest)
    (s : State) (i : Nat) : Option State :=
  match test.ObjectRefs[i]?, test.StateRefs[i]? with
  | some o, some st =>
    let objRef := o.ObjectRef
    let stateRef := st.StateRef
    match root.Objects.Lookup objRef with
    | .error _ => some s
    | .ok (_, objIndex) =>
      match root.States.Lookup stateRef with
      | .error _ => some s
      | .ok (_, stateIndex) =>
        match root.Objects.RPMInfoObjects[objIndex]? with
        | none => none
        | some object =>
          match root.States.RPMInfoStates[stateIndex]? with
          | none => none
          | some state =>
            match state.EVR with
            | none => some s
            | some evr =>
              match s.heap.vulnerabilities[protoVuln]? with
              | none => none
              | some proto =>
                let vuln := proto
                match s.pkgcache.lookup object.Name with
                | none =>
                  let (heap, p) := s.heap.newPackage { Name := object.Name }
                  let pkgcache := (object.Name, p) :: s.pkgcache
                  let vuln := { vuln with Package := some p }
                  let vuln := { vuln with FixedInVersion := evr.Body }
                  let (heap, ptr) := heap.newVulnerability vuln
                  some { heap := heap, pkgcache := pkgcache, vulns := s.vulns ++ [ptr] }
                | some pkg =>
                  let vuln := { vuln with Package := some pkg }
                  let vuln := { vuln with FixedInVersion := evr.Body }
                  let (heap, ptr) := s.heap.newVulnerability vuln
                  some { heap := heap, pkgcache := s.pkgcache, vulns := s.vulns ++ [ptr] }
  | _, _ => none

/-- The body of the loop `for _, criterion := range cris` (parser.go lines 83 to 129). -/
def criterionBody (root : oval.Root) (protoVuln : VulnPtr) (s : State)
    (criterion : oval.Criterion) : Option State :=
  match root.Tests.Lookup criterion.TestRef with
  | .error _ => some s
  | .ok (_, index) =>
    match root.Tests.RPMInfoTests[index]? with
    | none => none
    | some test =>
      if test.ObjectRefs.length ≠ test.StateRefs.length then some s
      else forEach (pairBody root protoVuln test) (List.range test.ObjectRefs.length) s

/-- The body of the loop `for _, def := range root.Definitions.Definitions` (parser.go lines
50 to 130); `Links` stands for `ovalutil.Links`, declared outside the files at hand. -/
def definitionBody (u : Updater) (Links : oval.Definition → String) (root : oval.Root)
    (s : State) (defn : oval.Definition) : Option State :=
  match DistSearch defn.Affecteds with
  | none => some s
  | some dist =>
    let (heap, protoVuln) := s.heap.newVulnerability
      { Updater := u.Name,
        Name := defn.Title,
        Description := defn.Description,
        Links := Links defn,
        Severity := defn.Advisory.Severity,
        Package := none,
        Dist := some dist,
        FixedInVersion := "" }
    let cris : List oval.Criterion := []
    let cris := walkCriterion defn.Criteria cris
    forEach (criterionBody root protoVuln) cris { s with heap := heap }

/-- The method `Updater.Parse` of `oracle/parser.go`; `decode` stands for
`xml.NewDecoder(r).Decode(&root)`. -/
def Parse (u : Updater) (Links : oval.Definition → String)
    (decode : Reader → Except Error oval.Root) (heap : Heap) (r : Reader) : Option Result :=
  match decode r with
  | .error err => some (heap, none, some (.wrap "oracle: unable to decode OVAL document: " err))
  | .ok root =>
    let vulns : List VulnPtr := []
    let pkgcache : List (String × PkgPtr) := []
    match forEach (definitionBody u Links root) root.Definitions.Definitions
        { heap := heap, pkgcache := pkgcache, vulns := vulns } with
    | none => none
    | some s => some (s.heap, some s.vulns, none)

end oracle


/-! ## Vocabulary of the statements -/

/-- The documented assumption of `RPMDefsToVulns` ("assumes RPMInfo objects and states"), on the
tests: every index a successful `Lookup` returns is an index of the RPMInfo sub-collection. -/
def oval.Tests.InRange (t : oval.Tests) : Prop :=
  ∀ ref kind index, t.Lookup ref = .ok (kind, index) → index < t.RPMInfoTests.length

/-- The same assumption on the objects. -/
def oval.Objects.InRange (o : oval.Objects) : Prop :=
  ∀ ref kind index, o.Lookup ref = .ok (kind, index) → index < o.RPMInfoObjects.length

/-- The same assumption on the states. -/
def oval.States.InRange (t : oval.States) : Prop :=
  ∀ ref kind index, t.Lookup ref = .ok (kind, index) → index < t.RPMInfoStates.length

/-- A document all of whose lookups answer within the RPMInfo sub-collections. -/
def oval.Root.InRange (root : oval.Root) : Prop :=
  root.Tests.InRange ∧ root.Objects.InRange ∧ root.States.InRange

/-- The pair at position `i` of `test` resolves to the records `object` and `state`: both
references are found and the indices found designate these records. -/
def PairResolves (root : oval.Root) (test : oval.RPMInfoTest) (i : Nat)
    (object : oval.RPMInfoObject) (state : oval.RPMInfoState) : Prop :=
  ∃ o st ko j ks k,
    test.ObjectRefs[i]? = some o ∧ test.StateRefs[i]? = some st ∧
    root.Objects.Lookup o.ObjectRef = .ok (ko, j) ∧
    root.States.Lookup st.StateRef = .ok (ks, k) ∧
    root.Objects.RPMInfoObjects[j]? = some object ∧
    root.States.RPMInfoStates[k]? = some state

/-- The criterion resolves to the record `test`. -/
def TestResolves (root : oval.Root) (criterion : oval.Criterion) (test : oval.RPMInfoTest) :
    Prop :=
  ∃ kind index, root.Tests.Lookup criterion.TestRef = .ok (kind, index) ∧
    root.Tests.RPMInfoTests[index]? = some test

/-- What one emitted vulnerability is made of: the prototype of its definition, the object and
the state of its pair, and the EVR of the state. -/
structure Emission where
  proto : Vulnerability
  object : oval.RPMInfoObject
  state : oval.RPMInfoState
  evr : oval.EVR
deriving DecidableEq, Repr

/-- The emission of position `i` of a test, if the position emits: both references resolve and
the state carries an EVR. -/
def pairEmission (root : oval.Root) (proto : Vulnerability) (test : oval.RPMInfoTest)
    (i : Nat) : Option Emission :=
  match test.ObjectRefs[i]?, test.StateRefs[i]? with
  | some o, some st =>
    match root.Objects.Lookup o.ObjectRef with
    | .error _ => none
    | .ok (_, j) =>
      match root.States.Lookup st.StateRef with
      | .error _ => none
      | .ok (_, k) =>
        match root.Objects.RPMInfoObjects[j]? with
        | none => none
        | some object =>
          match root.States.RPMInfoStates[k]? with
          | none => none
          | some state =>
            match state.EVR with
            | none => none
            | some evr => some { proto := proto, object := object, state := state, evr := evr }
  | _, _ => none

/-- The emissions of a test whose reference lists have the same length, position by position. -/
def testEmissions (root : oval.Root) (proto : Vulnerability) (test : oval.RPMInfoTest) :
    List Emission :=
  (List.range test.ObjectRefs.length).filterMap (pairEmission root proto test)

/-- The emissions of one criterion: none when the test is not found or its lists differ in
length. -/
def criterionEmissions (root : oval.Root) (proto : Vulnerability) (criterion : oval.Criterion) :
    List Emission :=
  match root.Tests.Lookup criterion.TestRef with
  | .error _ => []
  | .ok (_, index) =>
    match root.Tests.RPMInfoTests[index]? with
    | none => []
    | some test =>
      if test.ObjectRefs.length ≠ test.StateRefs.length then []
      else testEmissions root proto test

/-- The emissions of one definition under a strategy. -/
def definitionEmissions (root : oval.Root) (protoVuln : ovalutil.ProtoVulnFunc)
    (defn : oval.Definition) : List Emission :=
  match protoVuln defn with
  | .error _ => []
  | .ok proto =>
    (ovalutil.walkCriterion defn.Criteria []).flatMap (criterionEmissions root proto)

/-- The emissions of a document, definition by definition. -/
def emissions (root : oval.Root) (protoVuln : ovalutil.ProtoVulnFunc) : List Emission :=
  root.Definitions.Definitions.flatMap (definitionEmissions root protoVuln)

/-- The vulnerability at address `ptr` is the one emitted for `e`: a copy of the prototype with
the package of the cache entry of the object name and the EVR text. -/
def Emits (s : State) (ptr : VulnPtr) (e : Emission) : Prop :=
  ∃ p, s.heap.vulnerabilities[ptr]? =
      some { e.proto with Package := some p, FixedInVersion := e.evr.Body } ∧
    s.pkgcache.lookup e.object.Name = some p

/-- The cache is coherent over the heap `h0` the run started from: every entry points to a
package allocated since, whose name is the key. -/
def CacheOK (h0 : Heap) (s : State) : Prop :=
  h0.packages.length ≤ s.heap.packages.length ∧
  ∀ name p, s.pkgcache.lookup name = some p →
    s.heap.packages[p]? = some { Name := name } ∧ h0.packages.length ≤ p

/-- What a stretch of a run from `s` to `t` does when it emits `es`: it appends one pointer per
emission to the output, extends the two stores and the cache, and keeps the cache coherent. -/
structure Step (s t : State) (es : List Emission) : Prop where
  out : ∃ new, t.vulns = s.vulns ++ new ∧ List.Forall₂ (Emits t) new es
  vulnerabilities : ∃ extra, t.heap.vulnerabilities = s.heap.vulnerabilities ++ extra
  packages : ∃ extra, t.heap.packages = s.heap.packages ++ extra
  cache : ∀ name p, s.pkgcache.lookup name = some p → t.pkgcache.lookup name = some p
  coherent : ∀ h0, CacheOK h0 s → CacheOK h0 t

/-- The strategy that the Oracle parser applies inline (parser.go lines 50 to 77). -/
def oracle.protoVuln (u : oracle.Updater) (Links : oval.Definition → String) :
    ovalutil.ProtoVulnFunc := fun defn =>
  match oracle.DistSearch defn.Affecteds with
  | none => .error (.new "no platform maps to a distribution")
  | some dist =>
    .ok { Updater := u.Name,
          Name := defn.Title,
          Description := defn.Description,
          Links := Links defn,
          Severity := defn.Advisory.Severity,
          Package := none,
          Dist := some dist,
          FixedInVersion := "" }

/-- A vulnerability as the caller reads it through its pointer: the fields of the record, with
the package pointer followed to the package. -/
structure Record where
  Updater : String
  Name : String
  Description : String
  Links : String
  Severity : String
  Package : Option Package
  Dist : Option Distribution
  FixedInVersion : String
deriving DecidableEq, Repr

/-- Reading a vulnerability through its pointer; `none` for a dangling pointer. -/
def Heap.load (h : Heap) (ptr : VulnPtr) : Option Record :=
  match h.vulnerabilities[ptr]? with
  | none => none
  | some v =>
    some { Updater := v.Updater,
           Name := v.Name,
           Description := v.Description,
           Links := v.Links,
           Severity := v.Severity,
           Package := match v.Package with
             | none => none
             | some p => h.packages[p]?,
           Dist := v.Dist,
           FixedInVersion := v.FixedInVersion }

/-- The record an emission stands for: the prototype, with the package named after the object
and the EVR text as fixed-in version. -/
def Emission.record (e : Emission) : Record :=
  { Updater := e.proto.Updater,
    Name := e.proto.Name,
    Description := e.proto.Description,
    Links := e.proto.Links,
    Severity := e.proto.Severity,
    Package := some { Name := e.object.Name },
    Dist := e.proto.Dist,
    FixedInVersion := e.evr.Body }

/-- The emission `e` comes from position `i` of `test`, which `criterion` of `defn` refers
to: the strategy accepts the definition, the criterion is a leaf of its tree, the test and the
pair resolve, the lists of the test pair up, and the state carries the EVR. -/
def Emission.From (root : oval.Root) (protoVuln : ovalutil.ProtoVulnFunc) (e : Emission)
    (defn : oval.Definition) (criterion : oval.Criterion) (test : oval.RPMInfoTest) (i : Nat) :
    Prop :=
  defn ∈ root.Definitions.Definitions ∧
  protoVuln defn = .ok e.proto ∧
  criterion ∈ ovalutil.walkCriterion defn.Criteria [] ∧
  TestResolves root criterion test ∧
  test.ObjectRefs.length = test.StateRefs.length ∧
  PairResolves root test i e.object e.state ∧
  e.state.EVR = some e.evr

mutual
/-- The Criterion leaves of a tree, at all nesting levels: the leaves of the node, then those
of its nested groups. -/
def oval.Criteria.leaves : oval.Criteria → List oval.Criterion
  | .mk criterias criterions => criterions ++ oval.Criteria.leavesOfAll criterias
/-- The leaves of a list of trees. -/
def oval.Criteria.leavesOfAll : List oval.Criteria → List oval.Criterion
  | [] => []
  | node :: rest => node.leaves ++ oval.Criteria.leavesOfAll rest
end

mutual
/-- The number of Criterion leaves of a tree, at all nesting levels. -/
def oval.Criteria.leafCount : oval.Criteria → Nat
  | .mk criterias criterions => criterions.length + oval.Criteria.leafCountOfAll criterias
/-- The number of leaves of a list of trees. -/
def oval.Criteria.leafCountOfAll : List oval.Criteria → Nat
  | [] => 0
  | node :: rest => node.leafCount + oval.Criteria.leafCountOfAll rest
end

/-- The criterion `x` is a leaf of the tree, at some nesting level. -/
inductive oval.Criteria.HasLeaf (x : oval.Criterion) : oval.Criteria → Prop where
  | own {criterias : List oval.Criteria} {criterions : List oval.Criterion} :
      x ∈ criterions → oval.Criteria.HasLeaf x (.mk criterias criterions)
  | nested {criterias : List oval.Criteria} {criterions : List oval.Criterion}
      {node : oval.Criteria} :
      node ∈ criterias → oval.Criteria.HasLeaf x node →
      oval.Criteria.HasLeaf x (.mk criterias criterions)

/-- The platform strings of a definition in document order: the affected entries in order, the
platforms within each in order. -/
def oval.Definition.platforms (defn : oval.Definition) : List String :=
  defn.Affecteds.flatMap (fun affected => affected.Platforms)

/-- A `Lookup` method that finds the identifiers of a table, for the example documents. -/
def oval.lookupIn (kind : String) (table : List (String × Nat)) (ref : String) :
    Except Error (String × Nat) :=
  match table.lookup ref with
  | some index => .ok (kind, index)
  | none => .error (.new "not found")

/-! ## Example documents -/

/-- A criterion that refers to the test `ref`. -/
def exampleCriterion (ref : String) : oval.Criterion :=
  { TestRef := ref }

/-- Example tests: a well-formed one, one with 2 object references and 1 state reference, and
one with five pairs of which the first and the fourth emit. -/
def exampleTests : oval.Tests :=
  { RPMInfoTests :=
      [ { ID := "tst:1", ObjectRefs := [⟨"obj:1"⟩], StateRefs := [⟨"ste:1"⟩] },
        { ID := "tst:2", ObjectRefs := [⟨"obj:1"⟩, ⟨"obj:2"⟩], StateRefs := [⟨"ste:1"⟩] },
        { ID := "tst:3",
          ObjectRefs := [⟨"obj:1"⟩, ⟨"obj:9"⟩, ⟨"obj:2"⟩, ⟨"obj:2"⟩, ⟨"obj:1"⟩],
          StateRefs := [⟨"ste:1"⟩, ⟨"ste:1"⟩, ⟨"ste:2"⟩, ⟨"ste:3"⟩, ⟨"ste:9"⟩] } ],
    Lookup := oval.lookupIn "rpminfo_test" [("tst:1", 0), ("tst:2", 1), ("tst:3", 2)] }

/-- Example objects: the packages bash and zsh. -/
def exampleObjects : oval.Objects :=
  { RPMInfoObjects := [ { ID := "obj:1", Name := "bash" }, { ID := "obj:2", Name := "zsh" } ],
    Lookup := oval.lookupIn "rpminfo_object" [("obj:1", 0), ("obj:2", 1)] }

/-- Example states: two with an EVR, one without. -/
def exampleStates : oval.States :=
  { RPMInfoStates :=
      [ { ID := "ste:1", EVR := some { Body := "4.4.20-1.el7" } },
        { ID := "ste:2", EVR := none },
        { ID := "ste:3", EVR := some { Body := "5.0-1.el7" } } ],
    Lookup := oval.lookupIn "rpminfo_state" [("ste:1", 0), ("ste:2", 1), ("ste:3", 2)] }

/-- Example definition for Oracle Linux 7, with a nested criteria tree that refers to the
three tests and to an unknown one. -/
def exampleDefinitionA : oval.Definition :=
  { ID := "def:A", Title := "ELSA-A", Description := "first advisory",
    Affecteds := [ { Platforms := ["Oracle Linux 7"] } ],
    Advisory := { Severity := "IMPORTANT" },
    Criteria := .mk
      [ .mk [] [exampleCriterion "tst:2", exampleCriterion "tst:1"] ]
      [ exampleCriterion "tst:3", exampleCriterion "tst:404" ] }

/-- Example definition whose only platform is not an Oracle one. -/
def exampleDefinitionB : oval.Definition :=
  { ID := "def:B", Title := "ELSA-B", Description := "second advisory",
    Affecteds := [ { Platforms := ["Fedora 31"] } ],
    Advisory := { Severity := "LOW" },
    Criteria := .mk [] [exampleCriterion "tst:1"] }

/-- Example definition that lists an unknown platform, then Oracle Linux 8, then Oracle
Linux 6. -/
def exampleDefinitionC : oval.Definition :=
  { ID := "def:C", Title := "ELSA-C", Description := "third advisory",
    Affecteds := [ { Platforms := ["Fedora 31", "Oracle Linux 8"] },
                   { Platforms := ["Oracle Linux 6"] } ],
    Advisory := { Severity := "MODERATE" },
    Criteria := .mk [] [exampleCriterion "tst:1"] }

/-- Example document with the three definitions. -/
def exampleRoot : oval.Root :=
  { Definitions := { Definitions := [exampleDefinitionA, exampleDefinitionB, exampleDefinitionC] },
    Tests := exampleTests,
    Objects := exampleObjects,
    States := exampleStates }

/-- Example prototype vulnerability. -/
def exampleProto : Vulnerability :=
  { Updater := "example", Name := "ELSA-A", Description := "first advisory", Links := "",
    Severity := "IMPORTANT", Package := none, Dist := none, FixedInVersion := "" }

/-- Example state of a run: the prototype has been allocated at address 0, the cache and the
output are empty. -/
def exampleState : State :=
  { heap := { packages := [], vulnerabilities := [exampleProto] }, pkgcache := [], vulns := [] }

/-- Example definition whose criteria refer to the test with 2 object references and 1 state
reference, and to the well-formed test next to it. -/
def exampleDefinitionD : oval.Definition :=
  { ID := "def:D", Title := "ELSA-D", Description := "fourth advisory",
    Affecteds := [ { Platforms := ["Oracle Linux 7"] } ],
    Advisory := { Severity := "IMPORTANT" },
    Criteria := .mk [] [exampleCriterion "tst:2", exampleCriterion "tst:1"] }

/-- Example document with that definition alone. -/
def exampleRootD : oval.Root :=
  { Definitions := { Definitions := [exampleDefinitionD] },
    Tests := exampleTests,
    Objects := exampleObjects,
    States := exampleStates }

/-- Example strategy: the same prototype for every definition. -/
def exampleStrategy : ovalutil.ProtoVulnFunc := fun _ => .ok exampleProto

/-- Example strategy that declines the definition `def:B` and gives every other definition a
prototype with its title. -/
def exampleStrategyB : ovalutil.ProtoVulnFunc := fun defn =>
  if defn.ID = "def:B" then .error (.new "not applicable")
  else .ok { exampleProto with Name := defn.Title }

/-- The heap after `RPMDefsToVulns` ran on `exampleRootD` from the empty heap: the package
bash, the prototype at address 0 and the one emitted vulnerability at address 1. -/
def exampleHeapD : Heap :=
  { packages := [{ Name := "bash" }],
    vulnerabilities :=
      [exampleProto,
       { exampleProto with Package := some 0, FixedInVersion := "4.4.20-1.el7" }] }

/-- The third example test, with five pairs. -/
def exampleTest3 : oval.RPMInfoTest :=
  { ID := "tst:3",
    ObjectRefs := [⟨"obj:1"⟩, ⟨"obj:9"⟩, ⟨"obj:2"⟩, ⟨"obj:2"⟩, ⟨"obj:1"⟩],
    StateRefs := [⟨"ste:1"⟩, ⟨"ste:1"⟩, ⟨"ste:2"⟩, ⟨"ste:3"⟩, ⟨"ste:9"⟩] }

/-- Package sharing in the output `vulns` of one call that started on the heap `heap` and
ended on `heap'`, where `es` lists, in the order of the output, what each vulnerability was
emitted from. Every vulnerability points to a package allocated during the call, whose name is
the name of its source object; and two vulnerabilities point to the same package instance
exactly when their source objects have the same name. -/
def SharesPackagesByName (heap heap' : Heap) (vulns : List VulnPtr) (es : List Emission) :
    Prop :=
  List.Forall₂ (fun ptr e => ∃ v p, heap'.vulnerabilities[ptr]? = some v ∧
      v.Package = some p ∧ heap'.packages[p]? = some { Name := e.object.Name } ∧
      heap.packages.length ≤ p) vulns es ∧
  ∀ a ∈ vulns.zip es, ∀ b ∈ vulns.zip es, ∀ va vb,
    heap'.vulnerabilities[a.1]? = some va → heap'.vulnerabilities[b.1]? = some vb →
    (va.Package = vb.Package ↔ a.2.object.Name = b.2.object.Name)

/-- The heap after `RPMDefsToVulns` ran on `exampleRoot` under `exampleStrategyB` from the empty
heap: two packages, and for each of the definitions `def:A` and `def:C` the prototype followed
by the emitted vulnerabilities. -/
def exampleHeapB : Heap :=
  { packages := [{ Name := "bash" }, { Name := "zsh" }],
    vulnerabilities :=
      [ exampleProto,
        { exampleProto with Package := some 0, FixedInVersion := "4.4.20-1.el7" },
        { exampleProto with Package := some 0, FixedInVersion := "4.4.20-1.el7" },
        { exampleProto with Package := some 1, FixedInVersion := "5.0-1.el7" },
        { exampleProto with Name := "ELSA-C" },
        { exampleProto with Name := "ELSA-C", Package := some 0,
                            FixedInVersion := "4.4.20-1.el7" } ] }

/-- Example decoder: the empty stream does not decode, every other stream decodes to the
example document. -/
def exampleDecode : oracle.Reader → Except Error oval.Root := fun r =>
  if r = [] then .error (.new "EOF") else .ok exampleRoot

/-- Example updater. -/
def exampleUpdater : oracle.Updater := { Name := "oracle-2020-updater" }

/-- Example stand-in for `ovalutil.Links`: no links. -/
def exampleLinks : oval.Definition → String := fun _ => ""

/-- The prototype the Oracle parser builds for `exampleDefinitionC`. -/
def exampleProtoC : Vulnerability :=
  { Updater := "oracle-2020-updater", Name := "ELSA-C", Description := "third advisory",
    Links := "", Severity := "MODERATE", Package := none, Dist := some oracle.eightDist,
    FixedInVersion := "" }

/-- The state after the definition loop body of the Oracle parser ran on `exampleDefinitionC`
from the empty state. -/
def exampleStateC : State :=
  { heap := { packages := [{ Name := "bash" }],
              vulnerabilities :=
                [ exampleProtoC,
                  { exampleProtoC with Package := some 0, FixedInVersion := "4.4.20-1.el7" } ] },
    pkgcache := [("bash", 0)],
    vulns := [1] }

/-- The definition of the bash scenario: platform "Oracle Linux 7", one criterion. -/
def bashDefinition : oval.Definition :=
  { ID := "oval:com.oracle.elsa:def:20201234", Title := "ELSA-2020-1234: bash security update",
    Description := "bash update",
    Affecteds := [ { Platforms := ["Oracle Linux 7"] } ],
    Advisory := { Severity := "IMPORTANT" },
    Criteria := .mk [] [exampleCriterion "oval:com.oracle.elsa:tst:20201234001"] }

/-- The test of the bash scenario: one object reference, one state reference. -/
def bashTest : oval.RPMInfoTest :=
  { ID := "oval:com.oracle.elsa:tst:20201234001",
    ObjectRefs := [⟨"oval:com.oracle.elsa:obj:20201234001"⟩],
    StateRefs := [⟨"oval:com.oracle.elsa:ste:20201234001"⟩] }

/-- The object of the bash scenario. -/
def bashObject : oval.RPMInfoObject :=
  { ID := "oval:com.oracle.elsa:obj:20201234001", Name := "bash" }

/-- The state of the bash scenario. -/
def bashState : oval.RPMInfoState :=
  { ID := "oval:com.oracle.elsa:ste:20201234001",
    EVR := some { Body := "4.4.20-1.el7" } }

/-- The decoded document of the bash scenario. -/
def bashRoot : oval.Root :=
  { Definitions := { Definitions := [bashDefinition] },
    Tests := { RPMInfoTests := [bashTest],
               Lookup := oval.lookupIn "rpminfo_test"
                 [("oval:com.oracle.elsa:tst:20201234001", 0)] },
    Objects := { RPMInfoObjects := [bashObject],
                 Lookup := oval.lookupIn "rpminfo_object"
                   [("oval:com.oracle.elsa:obj:20201234001", 0)] },
    States := { RPMInfoStates := [bashState],
                Lookup := oval.lookupIn "rpminfo_state"
                  [("oval:com.oracle.elsa:ste:20201234001", 0)] } }

/-- The pointers a stretch of a run from `s` to `t` appends to the output are addresses of
cells allocated during the stretch, in increasing order. -/
def Fresh (s t : State) : Prop :=
  s.heap.vulnerabilities.length ≤ t.heap.vulnerabilities.length ∧
  ∃ new, t.vulns = s.vulns ++ new ∧ new.Pairwise (· < ·) ∧
    ∀ ptr ∈ new, s.heap.vulnerabilities.length ≤ ptr ∧ ptr < t.heap.vulnerabilities.length

/-- Example document with the definition `def:A` alone. -/
def exampleRootA : oval.Root :=
  { Definitions := { Definitions := [exampleDefinitionA] },
    Tests := exampleTests,
    Objects := exampleObjects,
    States := exampleStates }

/-- The heap after `RPMDefsToVulns` ran on `exampleRootA` under `exampleStrategy` from the empty
heap: the prototype at address 0 and three emitted vulnerabilities. -/
def exampleHeapA : Heap :=
  { packages := [{ Name := "bash" }, { Name := "zsh" }],
    vulnerabilities :=
      [ exampleProto,
        { exampleProto with Package := some 0, FixedInVersion := "4.4.20-1.el7" },
        { exampleProto with Package := some 0, FixedInVersion := "4.4.20-1.el7" },
        { exampleProto with Package := some 1, FixedInVersion := "5.0-1.el7" } ] }

/-- Modelled from the spec: the `Lookup` method of a collection that holds one typed
sub-collection per family (declared in the goval-parser library, outside the files at hand).
`families` gives, per family, its kind and the identifiers of its records in the order of its
sub-collection; the method answers with the kind of the family that holds the identifier and
the index of the record within the sub-collection of that family. -/
def oval.lookupFamilies : List (String × List String) → String → Except Error (String × Nat)
  | [], _ => .error (.new "not found")
  | (kind, ids) :: rest, ref =>
    if ref ∈ ids then .ok (kind, ids.indexOf ref) else oval.lookupFamilies rest ref

/-- Modelled from the spec: the Tests collection of a decoded document, with the RPMInfo
sub-collection and the sub-collections of the other families, of which the kinds and the
identifiers are given. -/
def oval.Tests.decoded (rpm : List oval.RPMInfoTest) (others : List (String × List String)) :
    oval.Tests :=
  { RPMInfoTests := rpm,
    Lookup := oval.lookupFamilies (("rpminfo_test", rpm.map (fun t => t.ID)) :: others) }

/-- Modelled from the spec: the Objects collection of a decoded document, likewise. -/
def oval.Objects.decoded (rpm : List oval.RPMInfoObject)
    (others : List (String × List String)) : oval.Objects :=
  { RPMInfoObjects := rpm,
    Lookup := oval.lookupFamilies (("rpminfo_object", rpm.map (fun o => o.ID)) :: others) }

/-- Modelled from the spec: the States collection of a decoded document, likewise. -/
def oval.States.decoded (rpm : List oval.RPMInfoState)
    (others : List (String × List String)) : oval.States :=
  { RPMInfoStates := rpm,
    Lookup := oval.lookupFamilies (("rpminfo_state", rpm.map (fun t => t.ID)) :: others) }

/-- Example definition whose one criterion refers to a test of the dpkg family. -/
def foreignDefinition : oval.Definition :=
  { ID := "def:F", Title := "USN-F", Description := "advisory with a dpkg test",
    Affecteds := [ { Platforms := ["Oracle Linux 7"] } ],
    Advisory := { Severity := "LOW" },
    Criteria := .mk [] [exampleCriterion "tst:dpkg:2"] }

/-- Example decoded document with one RPMInfo test and two tests of the dpkg family, the second
of which the definition refers to. -/
def foreignRoot : oval.Root :=
  { Definitions := { Definitions := [foreignDefinition] },
    Tests := oval.Tests.decoded
      [ { ID := "tst:1", ObjectRefs := [⟨"obj:1"⟩], StateRefs := [⟨"ste:1"⟩] } ]
      [ ("dpkginfo_test", ["tst:dpkg:1", "tst:dpkg:2"]) ],
    Objects := oval.Objects.decoded [ { ID := "obj:1", Name := "bash" } ] [],
    States := oval.States.decoded [ { ID := "ste:1", EVR := some { Body := "4.4.20-1.el7" } } ] [] }

/-- Example definition whose one criterion refers to the RPMInfo test `tst:1`. -/
def foreignObjectDefinition : oval.Definition :=
  { ID := "def:G", Title := "ELSA-G", Description := "advisory with a dpkg object",
    Affecteds := [ { Platforms := ["Oracle Linux 7"] } ],
    Advisory := { Severity := "LOW" },
    Criteria := .mk [] [exampleCriterion "tst:1"] }

/-- Example decoded document whose one RPMInfo test pairs the second object of the dpkg family
with an RPMInfo state; the document holds one RPMInfo object. -/
def foreignObjectRoot : oval.Root :=
  { Definitions := { Definitions := [foreignObjectDefinition] },
    Tests := oval.Tests.decoded
      [ { ID := "tst:1", ObjectRefs := [⟨"obj:dpkg:2"⟩], StateRefs := [⟨"ste:1"⟩] } ] [],
    Objects := oval.Objects.decoded [ { ID := "obj:1", Name := "bash" } ]
      [ ("dpkginfo_object", ["obj:dpkg:1", "obj:dpkg:2"]) ],
    States := oval.States.decoded [ { ID := "ste:1", EVR := some { Body := "4.4.20-1.el7" } } ] [] }

/-- Example test with two pairs: the first names the second object of the dpkg family, the
second an RPMInfo object; both name the RPMInfo state. -/
def mixedTest : oval.RPMInfoTest :=
  { ID := "tst:1", ObjectRefs := [⟨"obj:dpkg:2"⟩, ⟨"obj:1"⟩],
    StateRefs := [⟨"ste:1"⟩, ⟨"ste:1"⟩] }

/-- Example decoded document that holds the test with two pairs, one RPMInfo object, two
objects of the dpkg family and one RPMInfo state with an EVR. -/
def mixedRoot : oval.Root :=
  { Definitions := { Definitions := [foreignObjectDefinition] },
    Tests := oval.Tests.decoded [mixedTest] [],
    Objects := oval.Objects.decoded [ { ID := "obj:1", Name := "bash" } ]
      [ ("dpkginfo_object", ["obj:dpkg:1", "obj:dpkg:2"]) ],
    States := oval.States.decoded [ { ID := "ste:1", EVR := some { Body := "4.4.20-1.el7" } } ] [] }

/-- Example decoded document whose one RPMInfo test pairs the RPMInfo object with the second
state of the dpkg family; the document holds one RPMInfo state. -/
def foreignStateRoot : oval.Root :=
  { Definitions := { Definitions := [foreignObjectDefinition] },
    Tests := oval.Tests.decoded
      [ { ID := "tst:1", ObjectRefs := [⟨"obj:1"⟩], StateRefs := [⟨"ste:dpkg:2"⟩] } ] [],
    Objects := oval.Objects.decoded [ { ID := "obj:1", Name := "bash" } ] [],
    States := oval.States.decoded [ { ID := "ste:1", EVR := some { Body := "4.4.20-1.el7" } } ]
      [ ("dpkginfo_state", ["ste:dpkg:1", "ste:dpkg:2"]) ] }

/-! ## The options of libindex (`libindex/opts.go`) -/

namespace libindex

/-- Go `time.Duration`: a count of nanoseconds (a signed 64-bit integer; `Parse` only compares
and assigns it). -/
abbrev Duration := Int

/-- The constant `time.Second` of the Go library. -/
def Second : Duration := 1000000000

/-- The constant `DefaultScanLockRetry`. -/
def DefaultScanLockRetry : Duration := 5 * Second

/-- The constant `DefaultLayerScanConcurrency`. -/
def DefaultLayerScanConcurrency : Int := 10

/-- What `Opts.Parse` takes from other packages, declared outside the files at hand:
`indexer.OnDisk` (the value of `DefaultLayerFetchOpt`), the function `controllerFactory`, and
the ecosystems that `dpkg.NewEcosystem`, `alpine.NewEcosystem` and `rpm.NewEcosystem` return. -/
structure Env (F C E : Type) where
  OnDisk : F
  controllerFactory : C
  dpkgEcosystem : E
  alpineEcosystem : E
  rpmEcosystem : E

/-- The constant `DefaultLayerFetchOpt`. -/
def DefaultLayerFetchOpt {F C E : Type} (env : Env F C E) : F := env.OnDisk

/-- The struct `Opts`; `F`, `C`, `E` and `V` stand for the types `indexer.LayerFetchOpt`,
`ControllerFactory`, `*indexer.Ecosystem` and `indexer.VersionedScanners`, declared outside the
files at hand. A nil function or slice is `none`. -/
structure Opts (F C E V : Type) where
  ConnString : String
  ScanLockRetry : Duration
  LayerScanConcurrency : Int
  LayerFetchOpt : F
  NoLayerValidation : Bool
  Migrations : Bool
  ControllerFactory : Option C
  Ecosystems : Option (List E)
  vscnrs : V

/-- The method `Opts.Parse`: the options after the call and the error returned. -/
def Opts.Parse {F C E V : Type} (env : Env F C E) (o : Opts F C E V) :
    Opts F C E V × Option Error :=
  if o.ConnString = "" then
    (o, some (.new "ConnString not provided"))
  else
    let o := if o.ScanLockRetry = 0 ∨ o.ScanLockRetry < Second
      then { o with ScanLockRetry := DefaultScanLockRetry } else o
    let o := if o.LayerScanConcurrency = 0
      then { o with LayerScanConcurrency := DefaultLayerScanConcurrency } else o
    let o := match o.ControllerFactory with
      | none => { o with ControllerFactory := some env.controllerFactory }
      | some _ => o
    let o := match o.Ecosystems with
      | none =>
        let ecosystems := [env.dpkgEcosystem, env.alpineEcosystem, env.rpmEcosystem]
        { o with Ecosystems := some ecosystems }
      | some _ => o
    let o := { o with LayerFetchOpt := DefaultLayerFetchOpt env }
    (o, none)

/-- Example environment, with names for the layer fetch option, the factory and the
ecosystems. -/
def exampleEnv : Env String String String :=
  { OnDisk := "ondisk", controllerFactory := "controllerFactory",
    dpkgEcosystem := "dpkg", alpineEcosystem := "alpine", rpmEcosystem := "rpm" }

/-- Example options with a connection string and nothing else set. -/
def exampleOpts : Opts String String String Unit :=
  { ConnString := "host=localhost", ScanLockRetry := 0, LayerScanConcurrency := 0,
    LayerFetchOpt := "inmem", NoLayerValidation := true, Migrations := true,
    ControllerFactory := none, Ecosystems := none, vscnrs := () }

end libindex

/-! ## The python package scanner (`python/packagescanner.go`) -/

namespace python

/-- The components of a path between its slashes, empty ones included. -/
def splitSlash : List Char → List (List Char)
  | [] => [[]]
  | c :: rest =>
    if c = '/' then [] :: splitSlash rest
    else
      match splitSlash rest with
      | [] => [[c]]
      | first :: others => (c :: first) :: others

/-- The components joined with slashes. -/
def joinSlash : List (List Char) → List Char
  | [] => []
  | [comp] => comp
  | comp :: rest => comp ++ '/' :: joinSlash rest

/-- One step of `filepath.Clean` over the components kept so far, last one first: an empty
component and `.` are dropped, `..` removes the component before it, or is dropped at the root,
or is kept when nothing but `..` precedes it. -/
def cleanStep (rooted : Bool) (kept : List (List Char)) (comp : List Char) : List (List Char) :=
  if comp = [] ∨ comp = ['.'] then kept
  else if comp = ['.', '.'] then
    match kept with
    | [] => if rooted then [] else [comp]
    | last :: before => if last = ['.', '.'] then comp :: kept else before
  else comp :: kept

/-- The components of a cleaned path. -/
def cleanComponents (rooted : Bool) (path : List Char) : List (List Char) :=
  ((splitSlash path).foldl (cleanStep rooted) []).reverse

/-- The function `filepath.Clean` of the Go library on slash-separated paths: the shortest
equivalent path, `/` for a root and `.` for an empty result. -/
def Clean (path : String) : String :=
  let rooted := path.data.head? = some '/'
  let comps := cleanComponents rooted path.data
  if rooted then String.mk ('/' :: joinSlash comps)
  else if comps = [] then "." else String.mk (joinSlash comps)

/-- The function `filepath.Join` of the Go library: the elements from the first non-empty one
on, joined with slashes and cleaned; the empty string when all are empty. -/
def Join : List String → String
  | [] => ""
  | elem :: rest =>
    if elem = "" then Join rest
    else Clean (String.mk (joinSlash ((elem :: rest).map (fun e => e.data))))

/-- The call `filepath.Rel("/", targpath)` of the Go library, at the base path `Scan` passes:
the cleaned target without its leading slash, `.` for the root, and an error for a target that
is not rooted. -/
def RelToRoot (targpath : String) : Except Error String :=
  let targ := Clean targpath
  if targ = "/" then .ok "."
  else
    match targ.data with
    | '/' :: rest => .ok (String.mk rest)
    | _ => .error (.new ("Rel: can't make " ++ targpath ++ " relative to /"))

/-- The function `strings.HasSuffix` of the Go library. -/
def HasSuffix (s suffix : String) : Bool := suffix.data.isSuffixOf s.data

/-- The constant `tar.TypeReg` of the Go library. -/
def TypeReg : Char := '0'

/-- The fields of a `tar.Header` that `Scan` reads. -/
structure Header where
  Typeflag : Char
  Name : String
deriving DecidableEq, Repr

/-- One entry of a layer archive: its header and the content of the file. -/
structure Entry where
  header : Header
  content : String
deriving DecidableEq, Repr

/-- What `tar.Reader.Next` yields over a layer: the entries in archive order, then the error
that ends the iteration, `io.EOF` at the end of a well-formed archive. -/
structure Archive where
  entries : List Entry
  final : Error
deriving DecidableEq, Repr

/-- The error `io.EOF` of the Go library. -/
def EOF : Error := .new "EOF"

/-- A `claircore.Layer` as `Scan` sees it: what `layer.Reader()` returns, an error or a
reader, seekable or not, over an archive. -/
structure Layer where
  Reader : Except Error (Bool × Archive)

/-- A `textproto.MIMEHeader` of the Go library: the values of each key. -/
abbrev MIMEHeader := List (String × List String)

/-- The method `MIMEHeader.Get`: the first value of the key, or the empty string. -/
def MIMEHeader.Get (hdr : MIMEHeader) (key : String) : String :=
  match hdr.lookup key with
  | some (value :: _) => value
  | _ => ""

/-- The loop of `Scan` over the entries of the archive (packagescanner.go lines 84 to 116);
an error is a `return nil, err` from within the loop. `ReadMIMEHeader` stands for the header
parser of the Go library applied to the content of the entry. -/
def scanLoop (ReadMIMEHeader : String → Except Error MIMEHeader) :
    List Entry → List Package → Except Error (List Package)
  | [], ret => .ok ret
  | entry :: rest, ret =>
    let h := entry.header
    match RelToRoot (Join ["/", h.Name]) with
    | .error err => .error err
    | .ok n =>
      if h.Typeflag ≠ TypeReg then scanLoop ReadMIMEHeader rest ret
      else if HasSuffix n ".egg-info/PKG-INFO" ∨ HasSuffix n ".dist-info/METADATA" then
        match ReadMIMEHeader entry.content with
        | .error err => .error err
        | .ok hdr =>
          scanLoop ReadMIMEHeader rest
            (ret ++ [{ Name := hdr.Get "Name",
                       Version := hdr.Get "Version",
                       PackageDB := Join [n, "..", ".."],
                       Kind := "source" }])
      else scanLoop ReadMIMEHeader rest ret

/-- The method `Scanner.Scan`: the Go pair `(packages, err)`; `ctxErr` stands for `ctx.Err()`.
The packages are fresh records, kept by value. -/
def Scan (ctxErr : Option Error) (ReadMIMEHeader : String → Except Error MIMEHeader)
    (layer : Layer) : Option (List Package) × Option Error :=
  match ctxErr with
  | some err => (none, some err)
  | none =>
    match layer.Reader with
    | .error err => (none, some err)
    | .ok (seekable, archive) =>
      if ¬ seekable then
        (none, some (.new "python: cannot seek on returned layer Reader"))
      else
        let ret : List Package := []
        match scanLoop ReadMIMEHeader archive.entries ret with
        | .error err => (none, some err)
        | .ok ret =>
          if archive.final ≠ EOF then (none, some archive.final)
          else (some ret, none)

/-- Example header parser: a content that starts with `!` does not parse; any other content is
a package name and a version separated by a space. -/
def exampleReadMIMEHeader (content : String) : Except Error MIMEHeader :=
  match content.data with
  | '!' :: _ => .error (.new "malformed MIME header line")
  | chars =>
    match splitSlash (chars.map (fun c => if c = ' ' then '/' else c)) with
    | [name, version] =>
      .ok [("Name", [String.mk name]), ("Version", [String.mk version])]
    | _ => .ok []

/-- Example layer: a directory, the wheel metadata of appdirs, an unrelated regular file, the
egg metadata of args, and a symbolic link named like wheel metadata. -/
def exampleLayer : Layer :=
  { Reader := .ok (true,
      { entries :=
          [ { header := { Typeflag := '5', Name := "usr/local/lib/python3.7/site-packages/" },
              content := "" },
            { header := { Typeflag := '0', Name :=
                "usr/local/lib/python3.7/site-packages/appdirs-1.4.3.dist-info/METADATA" },
              content := "appdirs 1.4.3" },
            { header := { Typeflag := '0', Name := "etc/passwd" }, content := "root" },
            { header := { Typeflag := '0', Name :=
                "./usr/local/lib/python3.7/site-packages/args-0.1.0.egg-info/PKG-INFO" },
              content := "args 0.1.0" },
            { header := { Typeflag := '2', Name :=
                "usr/lib/python3/dist-packages/six-1.12.0.dist-info/METADATA" },
              content := "" } ],
        final := EOF }) }

/-- Example layer without python metadata: a directory and a regular file. -/
def exampleLayerWithout : Layer :=
  { Reader := .ok (true,
      { entries :=
          [ { header := { Typeflag := '5', Name := "etc/" }, content := "" },
            { header := { Typeflag := '0', Name := "etc/passwd" }, content := "root" } ],
        final := EOF }) }

/-- Example layer whose archive is empty. -/
def exampleLayerEmpty : Layer :=
  { Reader := .ok (true, { entries := [], final := EOF }) }

end python

/-- The normalised name of an archive entry, as `Scan` computes it:
`filepath.Rel("/", filepath.Join("/", name))`. -/
def python.normalise (name : String) : String :=
  match python.RelToRoot (python.Join ["/", name]) with
  | .ok n => n
  | .error _ => ""

/-- The entry is a regular file whose normalised name ends in `.egg-info/PKG-INFO` or in
`.dist-info/METADATA`. -/
def python.Entry.isMetadata (entry : python.Entry) : Bool :=
  entry.header.Typeflag = python.TypeReg ∧
  (python.HasSuffix (python.normalise entry.header.Name) ".egg-info/PKG-INFO" ∨
    python.HasSuffix (python.normalise entry.header.Name) ".dist-info/METADATA")

/-- The package of a metadata entry whose header parses: the `Name` and `Version` headers, the
kind "source" and the path that `filepath.Join(n, "..", "..")` gives. -/
def python.Entry.package (ReadMIMEHeader : String → Except Error python.MIMEHeader)
    (entry : python.Entry) : Option Package :=
  if entry.isMetadata then
    match ReadMIMEHeader entry.content with
    | .ok hdr =>
      some { Name := hdr.Get "Name",
             Version := hdr.Get "Version",
             PackageDB := python.Join [python.normalise entry.header.Name, "..", ".."],
             Kind := "source" }
    | .error _ => none
  else none

/-- A plain path component: not empty, not `.`, not `..`, and without a slash. -/
def python.Plain (comp : List Char) : Prop :=
  comp ≠ [] ∧ comp ≠ ['.'] ∧ comp ≠ ['.', '.'] ∧ '/' ∉ comp

/-- The path, relative to the root, that a list of components spells: `.` for no component. -/
def python.pathOf (comps : List (List Char)) : String :=
  if comps = [] then "." else String.mk (python.joinSlash comps)

/-- The pieces of a content between its line feeds; the last piece is what follows the last
line feed. -/
def python.splitLines : List Char → List (List Char)
  | [] => [[]]
  | c :: rest =>
    if c = '\n' then [] :: python.splitLines rest
    else
      match python.splitLines rest with
      | [] => [[c]]
      | first :: others => (c :: first) :: others

/-- A header line `Key: value`, split at its first colon; the blanks before the value are
dropped. -/
def python.splitColon : List Char → Option (List Char × List Char)
  | [] => none
  | c :: rest =>
    if c = ':' then some ([], rest.dropWhile (fun b => b = ' '))
    else
      match python.splitColon rest with
      | none => none
      | some (key, value) => some (c :: key, value)

/-- The lines of a header read one by one: an empty line ends the header; the end of the content
before an empty line is `io.EOF`. -/
def python.readHeaderLines : List (List Char) → python.MIMEHeader →
    Except Error python.MIMEHeader
  | [], _ => .error python.EOF
  | [last], _ =>
    if last = [] then .error python.EOF
    else
      match python.splitColon last with
      | none => .error (.new "malformed MIME header line")
      | some _ => .error python.EOF
  | line :: next :: rest, hdr =>
    if line = [] then .ok hdr
    else
      match python.splitColon line with
      | none => .error (.new "malformed MIME header line")
      | some (key, value) =>
        python.readHeaderLines (next :: rest) (hdr ++ [(String.mk key, [String.mk value])])

/-- Example header parser by lines, after `textproto.Reader.ReadMIMEHeader` of the Go library on
the content of the entry: the `Key: value` lines up to the first empty line. -/
def python.exampleReadMIMEHeaderLines (content : String) : Except Error python.MIMEHeader :=
  python.readHeaderLines (python.splitLines content.data) []

/-- Example layer with two metadata files: the wheel metadata of appdirs, whose header ends with
an empty line, and the egg metadata of args, which holds the two header lines and nothing
else. -/
def python.exampleLayerUnterminated : python.Layer :=
  { Reader := .ok (true,
      { entries :=
          [ { header := { Typeflag := '0', Name :=
                "usr/local/lib/python3.7/site-packages/appdirs-1.4.3.dist-info/METADATA" },
              content := "Name: appdirs\nVersion: 1.4.3\n\nA small Python module.\n" },
            { header := { Typeflag := '0', Name :=
                "usr/local/lib/python3.7/site-packages/args-0.1.0.egg-info/PKG-INFO" },
              content := "Name: args\nVersion: 0.1.0\n" } ],
        final := python.EOF }) }

/-! ## Lemmas on the loops -/

theorem getElem?_of_append {α : Type} {l extra : List α} {i : Nat} {x : α}
    (h : l[i]? = some x) : (l ++ extra)[i]? = some x := by
  have hi : i < l.length := by
    rcases List.getElem?_eq_some.mp h with ⟨hi, _⟩
    exact hi
  rw [List.getElem?_append_left hi]
  exact h

theorem Emits.mono {s t : State} {ptr : VulnPtr} {e : Emission}
    (hv : ∃ extra, t.heap.vulnerabilities = s.heap.vulnerabilities ++ extra)
    (hc : ∀ name p, s.pkgcache.lookup name = some p → t.pkgcache.lookup name = some p)
    (h : Emits s ptr e) : Emits t ptr e := by
  obtain ⟨p, h1, h2⟩ := h
  obtain ⟨extra, hx⟩ := hv
  exact ⟨p, by rw [hx]; exact getElem?_of_append h1, hc _ _ h2⟩

theorem Step.refl (s : State) : Step s s [] where
  out := ⟨[], by simp, List.Forall₂.nil⟩
  vulnerabilities := ⟨[], by simp⟩
  packages := ⟨[], by simp⟩
  cache := fun _ _ h => h
  coherent := fun _ h => h

theorem Step.trans {s t r : State} {es fs : List Emission}
    (h1 : Step s t es) (h2 : Step t r fs) : Step s r (es ++ fs) where
  out := by
    obtain ⟨n1, e1, f1⟩ := h1.out
    obtain ⟨n2, e2, f2⟩ := h2.out
    refine ⟨n1 ++ n2, by rw [e2, e1, List.append_assoc], ?_⟩
    exact List.rel_append (f1.imp (fun _ _ h => h.mono h2.vulnerabilities h2.cache)) f2
  vulnerabilities := by
    obtain ⟨x1, e1⟩ := h1.vulnerabilities
    obtain ⟨x2, e2⟩ := h2.vulnerabilities
    exact ⟨x1 ++ x2, by rw [e2, e1, List.append_assoc]⟩
  packages := by
    obtain ⟨x1, e1⟩ := h1.packages
    obtain ⟨x2, e2⟩ := h2.packages
    exact ⟨x1 ++ x2, by rw [e2, e1, List.append_assoc]⟩
  cache := fun name p h => h2.cache name p (h1.cache name p h)
  coherent := fun h0 h => h2.coherent h0 (h1.coherent h0 h)

theorem Step.keeps {s t : State} {es : List Emission} (h : Step s t es) {ptr : VulnPtr}
    {v : Vulnerability} (hv : s.heap.vulnerabilities[ptr]? = some v) :
    t.heap.vulnerabilities[ptr]? = some v := by
  obtain ⟨extra, hx⟩ := h.vulnerabilities
  rw [hx]
  exact getElem?_of_append hv

/-- A loop whose every iteration is a step is a step, emitting the iterations in order. -/
theorem forEach_step {α : Type} (body : State → α → Option State) (em : α → List Emission)
    (P : State → Prop)
    (hP : ∀ s t es, P s → Step s t es → P t)
    (hbody : ∀ s a t, P s → body s a = some t → Step s t (em a)) :
    ∀ (l : List α) (s t : State), P s → forEach body l s = some t →
      Step s t (l.flatMap em) := by
  intro l
  induction l with
  | nil =>
    intro s t _ h
    simp only [forEach, Option.some.injEq] at h
    subst h
    exact Step.refl s
  | cons a rest ih =>
    intro s t hs h
    simp only [forEach] at h
    cases hb : body s a with
    | none => simp [hb] at h
    | some m =>
      rw [hb] at h
      have h1 := hbody s a m hs hb
      have h2 := ih m t (hP s m _ hs h1) h
      simpa [List.flatMap_cons] using h1.trans h2

theorem lookup_cons_of_none {name key : String} {p q : PkgPtr} {cache : List (String × PkgPtr)}
    (hnone : cache.lookup key = none) (h : cache.lookup name = some p) :
    List.lookup name ((key, q) :: cache) = some p := by
  rw [List.lookup_cons]
  have hne : (name == key) = false := by
    cases hk : (name == key) with
    | false => rfl
    | true =>
      have : name = key := by simpa using hk
      subst this
      rw [hnone] at h
      cases h
  rw [hne]
  exact h

/-- One iteration of the pair loop is a step that emits what `pairEmission` says. -/
theorem ovalutil.pairBody_step {root : oval.Root} {pv : VulnPtr} {proto : Vulnerability}
    {test : oval.RPMInfoTest} {s t : State} {i : Nat}
    (hproto : s.heap.vulnerabilities[pv]? = some proto)
    (h : ovalutil.pairBody root pv test s i = some t) :
    Step s t (pairEmission root proto test i).toList := by
  unfold ovalutil.pairBody at h
  unfold pairEmission
  cases ho : test.ObjectRefs[i]? with
  | none => simp [ho] at h
  | some o =>
  cases hst : test.StateRefs[i]? with
  | none => simp [ho, hst] at h
  | some st =>
  simp only [ho, hst] at h ⊢
  cases hj : root.Objects.Lookup o.ObjectRef with
  | error e => simp only [hj, Option.some.injEq] at h ⊢; subst h; exact Step.refl _
  | ok r =>
  obtain ⟨ko, j⟩ := r
  simp only [hj] at h ⊢
  cases hk : root.States.Lookup st.StateRef with
  | error e => simp only [hk, Option.some.injEq] at h ⊢; subst h; exact Step.refl _
  | ok r =>
  obtain ⟨ks, k⟩ := r
  simp only [hk] at h ⊢
  cases hobj : root.Objects.RPMInfoObjects[j]? with
  | none => simp [hobj] at h
  | some object =>
  simp only [hobj] at h ⊢
  cases hstate : root.States.RPMInfoStates[k]? with
  | none => simp [hstate] at h
  | some state =>
  simp only [hstate] at h ⊢
  cases hevr : state.EVR with
  | none => simp only [hevr, Option.some.injEq] at h ⊢; subst h; exact Step.refl _
  | some evr =>
  simp only [hevr, hproto] at h ⊢
  cases hc : List.lookup object.Name s.pkgcache with
  | none =>
    simp only [hc, Heap.newPackage, Heap.newVulnerability, Option.some.injEq] at h
    subst h
    refine ⟨⟨[s.heap.vulnerabilities.length], rfl, ?_⟩, ⟨_, rfl⟩, ⟨_, rfl⟩, ?_, ?_⟩
    · refine List.Forall₂.cons ⟨s.heap.packages.length, ?_, ?_⟩ List.Forall₂.nil
      · simp
      · simp [List.lookup_cons]
    · intro name p hl
      exact lookup_cons_of_none hc hl
    · intro h0 hok
      obtain ⟨hlen, hall⟩ := hok
      refine ⟨by simp; omega, ?_⟩
      intro name p hl
      simp only [List.lookup_cons] at hl
      cases hb : (name == object.Name) with
      | true =>
        rw [hb] at hl
        have hn : name = object.Name := by simpa using hb
        simp only [Option.some.injEq] at hl
        subst hl hn
        exact ⟨by simp, hlen⟩
      | false =>
        rw [hb] at hl
        obtain ⟨h1, h2⟩ := hall name p hl
        exact ⟨getElem?_of_append h1, h2⟩
  | some pkg =>
    simp only [hc, Heap.newVulnerability, Option.some.injEq] at h
    subst h
    refine ⟨⟨[s.heap.vulnerabilities.length], rfl, ?_⟩, ⟨_, rfl⟩, ⟨[], by simp⟩, fun _ _ hl => hl, ?_⟩
    · refine List.Forall₂.cons ⟨pkg, ?_, hc⟩ List.Forall₂.nil
      simp
    · intro h0 hok
      exact hok


theorem flatMap_toList_eq_filterMap {α β : Type} (f : α → Option β) (l : List α) :
    l.flatMap (fun a => (f a).toList) = l.filterMap f := by
  induction l with
  | nil => rfl
  | cons a rest ih =>
    rw [List.flatMap_cons, ih]
    cases hf : f a <;> simp [List.filterMap_cons, hf, Option.toList]

/-- The pair loop of a test is a step that emits the emissions of the test. -/
theorem ovalutil.pairLoop_step {root : oval.Root} {pv : VulnPtr} {proto : Vulnerability}
    {test : oval.RPMInfoTest} {s t : State}
    (hproto : s.heap.vulnerabilities[pv]? = some proto)
    (h : forEach (ovalutil.pairBody root pv test) (List.range test.ObjectRefs.length) s = some t) :
    Step s t (testEmissions root proto test) := by
  have := forEach_step (ovalutil.pairBody root pv test)
    (fun i => (pairEmission root proto test i).toList)
    (fun s => s.heap.vulnerabilities[pv]? = some proto)
    (fun _ _ _ hs hst => hst.keeps hs)
    (fun _ _ _ hs hb => ovalutil.pairBody_step hs hb)
    (List.range test.ObjectRefs.length) s t hproto h
  rw [flatMap_toList_eq_filterMap] at this
  exact this

/-- One iteration of the criterion loop is a step that emits the emissions of the criterion. -/
theorem ovalutil.criterionBody_step {root : oval.Root} {pv : VulnPtr} {proto : Vulnerability}
    {criterion : oval.Criterion} {s t : State}
    (hproto : s.heap.vulnerabilities[pv]? = some proto)
    (h : ovalutil.criterionBody root pv s criterion = some t) :
    Step s t (criterionEmissions root proto criterion) := by
  unfold ovalutil.criterionBody at h
  unfold criterionEmissions
  cases hl : root.Tests.Lookup criterion.TestRef with
  | error e => simp only [hl, Option.some.injEq] at h ⊢; subst h; exact Step.refl _
  | ok r =>
  obtain ⟨kind, index⟩ := r
  simp only [hl] at h ⊢
  cases ht : root.Tests.RPMInfoTests[index]? with
  | none => simp [ht] at h
  | some test =>
  simp only [ht] at h ⊢
  by_cases hlen : test.ObjectRefs.length ≠ test.StateRefs.length
  · rw [if_pos hlen] at h ⊢
    simp only [Option.some.injEq] at h
    subst h
    exact Step.refl _
  · rw [if_neg hlen] at h ⊢
    exact ovalutil.pairLoop_step hproto h

/-- The criterion loop of a definition is a step. -/
theorem ovalutil.criterionLoop_step {root : oval.Root} (pv : VulnPtr) (proto : Vulnerability)
    {cris : List oval.Criterion} (s : State) {t : State}
    (hproto : s.heap.vulnerabilities[pv]? = some proto)
    (h : forEach (ovalutil.criterionBody root pv) cris s = some t) :
    Step s t (cris.flatMap (criterionEmissions root proto)) :=
  forEach_step (ovalutil.criterionBody root pv) (criterionEmissions root proto)
    (fun s => s.heap.vulnerabilities[pv]? = some proto)
    (fun _ _ _ hs hst => hst.keeps hs)
    (fun _ _ _ hs hb => ovalutil.criterionBody_step hs hb) cris s t hproto h

/-- Allocating a vulnerability cell is a step that emits nothing. -/
theorem Step.alloc (s : State) (v : Vulnerability) :
    Step s { s with heap := (s.heap.newVulnerability v).1 } [] where
  out := ⟨[], by simp, List.Forall₂.nil⟩
  vulnerabilities := ⟨[v], rfl⟩
  packages := ⟨[], by simp [Heap.newVulnerability]⟩
  cache := fun _ _ h => h
  coherent := fun _ h => h

/-- One iteration of the definition loop is a step that emits the emissions of the
definition, whatever the outer slice `cris` holds. -/
theorem ovalutil.definitionBody_step {root : oval.Root} {f : ovalutil.ProtoVulnFunc}
    {cris : List oval.Criterion} {defn : oval.Definition} {s t : State}
    (h : ovalutil.definitionBody root f cris s defn = some t) :
    Step s t (definitionEmissions root f defn) := by
  unfold ovalutil.definitionBody at h
  unfold definitionEmissions
  cases hf : f defn with
  | error e => simp only [hf, Option.some.injEq] at h ⊢; subst h; exact Step.refl _
  | ok proto =>
    simp only [hf, List.take_zero] at h ⊢
    have h1 := Step.alloc s proto
    have h2 := ovalutil.criterionLoop_step (s.heap.newVulnerability proto).2 proto
      { s with heap := (s.heap.newVulnerability proto).1 } (by simp [Heap.newVulnerability]) h
    simpa using h1.trans h2

/-- A whole run is a step from its initial state that emits the emissions of the document. -/
theorem ovalutil.run_step {heap : Heap} {root : oval.Root} {f : ovalutil.ProtoVulnFunc}
    {t : State} (h : ovalutil.run heap root f = some t) :
    Step { heap := heap, pkgcache := [], vulns := [] } t (emissions root f) :=
  forEach_step (ovalutil.definitionBody root f []) (definitionEmissions root f)
    (fun _ => True) (fun _ _ _ _ _ => trivial)
    (fun _ _ _ _ hb => ovalutil.definitionBody_step hb) _ _ t trivial h

/-- A loop whose body returns on every state of an invariant returns. -/
theorem forEach_total {σ α : Type} (body : σ → α → Option σ) (P : σ → Prop) (Q : α → Prop)
    (hbody : ∀ s a, P s → Q a → ∃ t, body s a = some t ∧ P t) :
    ∀ (l : List α) (s : σ), P s → (∀ a ∈ l, Q a) → ∃ t, forEach body l s = some t ∧ P t := by
  intro l
  induction l with
  | nil => intro s hs _; exact ⟨s, rfl, hs⟩
  | cons a rest ih =>
    intro s hs hq
    obtain ⟨m, hm, hpm⟩ := hbody s a hs (hq a (List.mem_cons_self _ _))
    obtain ⟨t, ht, hpt⟩ := ih m hpm (fun b hb => hq b (List.mem_cons_of_mem _ hb))
    exact ⟨t, by simp only [forEach, hm]; exact ht, hpt⟩

theorem exists_getElem?_of_lt {α : Type} {l : List α} {i : Nat} (h : i < l.length) :
    ∃ x, l[i]? = some x :=
  ⟨l[i], List.getElem?_eq_getElem h⟩

/-- Within the lists of a test and with lookups in range, an iteration of the pair loop
returns. -/
theorem ovalutil.pairBody_total {root : oval.Root} {pv : VulnPtr} {proto : Vulnerability}
    {test : oval.RPMInfoTest} {s : State} {i : Nat}
    (hO : root.Objects.InRange) (hS : root.States.InRange)
    (hlen : test.ObjectRefs.length = test.StateRefs.length) (hi : i < test.ObjectRefs.length)
    (hproto : s.heap.vulnerabilities[pv]? = some proto) :
    ∃ t, ovalutil.pairBody root pv test s i = some t := by
  unfold ovalutil.pairBody
  obtain ⟨o, ho⟩ := exists_getElem?_of_lt hi
  obtain ⟨st, hst⟩ := exists_getElem?_of_lt (hlen ▸ hi)
  simp only [ho, hst]
  cases hj : root.Objects.Lookup o.ObjectRef with
  | error e => exact ⟨s, rfl⟩
  | ok r =>
  obtain ⟨ko, j⟩ := r
  cases hk : root.States.Lookup st.StateRef with
  | error e => exact ⟨s, rfl⟩
  | ok r =>
  obtain ⟨ks, k⟩ := r
  obtain ⟨object, hobj⟩ := exists_getElem?_of_lt (hO _ _ _ hj)
  obtain ⟨state, hstate⟩ := exists_getElem?_of_lt (hS _ _ _ hk)
  simp only [hobj, hstate, hproto]
  cases state.EVR with
  | none => exact ⟨s, rfl⟩
  | some evr =>
    cases List.lookup object.Name s.pkgcache with
    | none => exact ⟨_, rfl⟩
    | some pkg => exact ⟨_, rfl⟩

/-- With lookups in range, an iteration of the criterion loop returns. -/
theorem ovalutil.criterionBody_total {root : oval.Root} {pv : VulnPtr} {proto : Vulnerability}
    (criterion : oval.Criterion) {s : State} (hR : root.InRange)
    (hproto : s.heap.vulnerabilities[pv]? = some proto) :
    ∃ t, ovalutil.criterionBody root pv s criterion = some t := by
  unfold ovalutil.criterionBody
  cases hl : root.Tests.Lookup criterion.TestRef with
  | error e => exact ⟨s, rfl⟩
  | ok r =>
  obtain ⟨kind, index⟩ := r
  obtain ⟨test, ht⟩ := exists_getElem?_of_lt (hR.1 _ _ _ hl)
  simp only [ht]
  by_cases hlen : test.ObjectRefs.length ≠ test.StateRefs.length
  · rw [if_pos hlen]; exact ⟨s, rfl⟩
  · rw [if_neg hlen]
    obtain ⟨t, ht, _⟩ := forEach_total (ovalutil.pairBody root pv test)
      (fun s => s.heap.vulnerabilities[pv]? = some proto) (fun i => i < test.ObjectRefs.length)
      (fun s i hs hi => by
        obtain ⟨t, ht⟩ := ovalutil.pairBody_total hR.2.1 hR.2.2 (not_not.mp hlen) hi hs
        exact ⟨t, ht, (ovalutil.pairBody_step hs ht).keeps hs⟩)
      (List.range test.ObjectRefs.length) s hproto (fun i hi => List.mem_range.mp hi)
    exact ⟨t, ht⟩

/-- With lookups in range, the criterion loop returns. -/
theorem ovalutil.criterionLoop_total {root : oval.Root} {pv : VulnPtr} (proto : Vulnerability)
    (hR : root.InRange) (cris : List oval.Criterion) (s : State)
    (hproto : s.heap.vulnerabilities[pv]? = some proto) :
    ∃ t, forEach (ovalutil.criterionBody root pv) cris s = some t := by
  obtain ⟨t, ht, _⟩ := forEach_total (ovalutil.criterionBody root pv)
    (fun s => s.heap.vulnerabilities[pv]? = some proto) (fun _ => True)
    (fun s c hs _ => by
      obtain ⟨t, ht⟩ := ovalutil.criterionBody_total c hR hs
      exact ⟨t, ht, (ovalutil.criterionBody_step hs ht).keeps hs⟩)
    cris s hproto (fun _ _ => trivial)
  exact ⟨t, ht⟩

/-- With lookups in range, an iteration of the definition loop returns. -/
theorem ovalutil.definitionBody_total {root : oval.Root} (f : ovalutil.ProtoVulnFunc)
    (cris : List oval.Criterion) (defn : oval.Definition) (s : State) (hR : root.InRange) :
    ∃ t, ovalutil.definitionBody root f cris s defn = some t := by
  unfold ovalutil.definitionBody
  cases hf : f defn with
  | error e => exact ⟨s, rfl⟩
  | ok proto =>
    exact ovalutil.criterionLoop_total proto hR _ _ (by simp [Heap.newVulnerability])

/-- With lookups in range, a run returns. -/
theorem ovalutil.run_total (heap : Heap) {root : oval.Root} (f : ovalutil.ProtoVulnFunc)
    (hR : root.InRange) : ∃ t, ovalutil.run heap root f = some t := by
  obtain ⟨t, ht, _⟩ := forEach_total (ovalutil.definitionBody root f []) (fun _ => True)
    (fun _ => True)
    (fun s d _ _ => by
      obtain ⟨t, ht⟩ := ovalutil.definitionBody_total f [] d s hR
      exact ⟨t, ht, trivial⟩)
    root.Definitions.Definitions { heap := heap, pkgcache := [], vulns := [] } trivial
    (fun _ _ => trivial)
  exact ⟨t, ht⟩

theorem oracle.pairBody_eq : oracle.pairBody = ovalutil.pairBody := rfl

theorem oracle.criterionBody_eq : oracle.criterionBody = ovalutil.criterionBody := rfl

mutual
theorem oracle.walkCriterion_eq :
    ∀ (node : oval.Criteria) (cris : List oval.Criterion),
      oracle.walkCriterion node cris = ovalutil.walkCriterion node cris
  | .mk criterias criterions, cris => by
    simp only [oracle.walkCriterion, ovalutil.walkCriterion]
    rw [oracle.walkCriterias_eq criterias cris]
theorem oracle.walkCriterias_eq :
    ∀ (nodes : List oval.Criteria) (cris : List oval.Criterion),
      oracle.walkCriterias nodes cris = ovalutil.walkCriterias nodes cris
  | [], cris => by simp only [oracle.walkCriterias, ovalutil.walkCriterias]
  | node :: rest, cris => by
    simp only [oracle.walkCriterias, ovalutil.walkCriterias]
    rw [oracle.walkCriterion_eq node cris, oracle.walkCriterias_eq rest]
end

/-- The definition loop body of the Oracle parser is the one of `RPMDefsToVulns` under the
inline strategy. -/
theorem oracle.definitionBody_eq (u : oracle.Updater) (Links : oval.Definition → String)
    (root : oval.Root) (cris : List oval.Criterion) (s : State) (defn : oval.Definition) :
    oracle.definitionBody u Links root s defn =
      ovalutil.definitionBody root (oracle.protoVuln u Links) cris s defn := by
  unfold oracle.definitionBody ovalutil.definitionBody oracle.protoVuln
  cases hd : oracle.DistSearch defn.Affecteds with
  | none => rfl
  | some dist =>
    simp only [List.take_zero, oracle.walkCriterion_eq, oracle.criterionBody_eq]

/-- On a decoded document the Oracle parser returns what `RPMDefsToVulns` returns under the
inline strategy. -/
theorem oracle.Parse_eq (u : oracle.Updater) (Links : oval.Definition → String)
    (decode : oracle.Reader → Except Error oval.Root) (heap : Heap) (r : oracle.Reader)
    (root : oval.Root) (hd : decode r = .ok root) :
    oracle.Parse u Links decode heap r =
      ovalutil.RPMDefsToVulns heap root (oracle.protoVuln u Links) := by
  unfold oracle.Parse ovalutil.RPMDefsToVulns ovalutil.run
  simp only [hd]
  have : oracle.definitionBody u Links root =
      ovalutil.definitionBody root (oracle.protoVuln u Links) [] := by
    funext s defn
    exact oracle.definitionBody_eq u Links root [] s defn
  rw [this]

/-- With a coherent cache, the pointer of an emission reads as the record of the emission. -/
theorem Emits.load {h0 : Heap} {t : State} {ptr : VulnPtr} {e : Emission}
    (h : Emits t ptr e) (hc : CacheOK h0 t) : t.heap.load ptr = some e.record := by
  obtain ⟨p, hv, hl⟩ := h
  obtain ⟨hp, _⟩ := hc.2 _ _ hl
  simp [Heap.load, hv, hp, Emission.record]

theorem map_eq_of_forall₂ {α β γ : Type} {R : α → β → Prop} {f : α → γ} {g : β → γ}
    (hR : ∀ a b, R a b → f a = g b) {l : List α} {m : List β} (h : List.Forall₂ R l m) :
    l.map f = m.map g := by
  induction h with
  | nil => rfl
  | cons hab _ ih => simp [hR _ _ hab, ih]

/-- What `pairEmission` computes, in words: the position emits `e` exactly when the pair
resolves to the object and the state of `e` and the state carries the EVR of `e`. -/
theorem pairEmission_eq_some_iff {root : oval.Root} {proto : Vulnerability}
    {test : oval.RPMInfoTest} {i : Nat} {e : Emission} :
    pairEmission root proto test i = some e ↔
      (e.proto = proto ∧ PairResolves root test i e.object e.state ∧
        e.state.EVR = some e.evr) := by
  unfold pairEmission PairResolves
  constructor
  · intro h
    cases ho : test.ObjectRefs[i]? with
    | none => simp [ho] at h
    | some o =>
    cases hst : test.StateRefs[i]? with
    | none => simp [ho, hst] at h
    | some st =>
    simp only [ho, hst] at h
    cases hj : root.Objects.Lookup o.ObjectRef with
    | error err => simp [hj] at h
    | ok r =>
    obtain ⟨ko, j⟩ := r
    simp only [hj] at h
    cases hk : root.States.Lookup st.StateRef with
    | error err => simp [hk] at h
    | ok r =>
    obtain ⟨ks, k⟩ := r
    simp only [hk] at h
    cases hobj : root.Objects.RPMInfoObjects[j]? with
    | none => simp [hobj] at h
    | some object =>
    simp only [hobj] at h
    cases hstate : root.States.RPMInfoStates[k]? with
    | none => simp [hstate] at h
    | some state =>
    simp only [hstate] at h
    cases hevr : state.EVR with
    | none => simp [hevr] at h
    | some evr =>
    simp only [hevr, Option.some.injEq] at h
    subst h
    exact ⟨rfl, ⟨o, st, ko, j, ks, k, rfl, rfl, hj, hk, hobj, hstate⟩, hevr⟩
  · rintro ⟨hp, ⟨o, st, ko, j, ks, k, ho, hst, hj, hk, hobj, hstate⟩, hevr⟩
    simp only [ho, hst, hj, hk, hobj, hstate, hevr, Option.some.injEq]
    cases e
    simp only at hp
    subst hp
    rfl

/-- A `Lookup` method over a table answers with an index of the table. -/
theorem oval.lookupIn_lt {kind : String} {table : List (String × Nat)} {n : Nat}
    (h : ∀ entry ∈ table, entry.2 < n) :
    ∀ ref k index, oval.lookupIn kind table ref = .ok (k, index) → index < n := by
  intro ref k index hl
  unfold oval.lookupIn at hl
  cases hf : table.lookup ref with
  | none => simp [hf] at hl
  | some i =>
    simp only [hf, Except.ok.injEq, Prod.mk.injEq] at hl
    obtain ⟨_, rfl⟩ := hl
    induction table with
    | nil => simp at hf
    | cons entry rest ih =>
      obtain ⟨key, val⟩ := entry
      rw [List.lookup_cons] at hf
      cases hb : (ref == key) with
      | true =>
        simp only [hb, Option.some.injEq] at hf
        subst hf
        exact h (key, val) (List.mem_cons_self _ _)
      | false =>
        simp only [hb] at hf
        exact ih (fun e he => h e (List.mem_cons_of_mem _ he)) hf

theorem exampleRoot_inRange : exampleRoot.InRange :=
  ⟨oval.lookupIn_lt (by decide), oval.lookupIn_lt (by decide), oval.lookupIn_lt (by decide)⟩

theorem exampleState_cacheOK : CacheOK exampleState.heap exampleState :=
  ⟨Nat.le_refl _, fun _ _ h => by simp [exampleState] at h⟩

/-- A loop over a concatenation runs the first part, then the second. -/
theorem forEach_append {σ α : Type} (body : σ → α → Option σ) (l m : List α) (s : σ) :
    forEach body (l ++ m) s =
      match forEach body l s with
      | none => none
      | some t => forEach body m t := by
  induction l generalizing s with
  | nil => rfl
  | cons a rest ih =>
    simp only [List.cons_append, forEach]
    cases body s a with
    | none => rfl
    | some t => exact ih t

/-- An iteration that leaves every state as it is can be dropped from a loop. -/
theorem forEach_skip {σ α : Type} (body : σ → α → Option σ) (a : α)
    (h : ∀ s, body s a = some s) (l m : List α) (s : σ) :
    forEach body (l ++ a :: m) s = forEach body (l ++ m) s := by
  rw [forEach_append, forEach_append]
  cases forEach body l s with
  | none => rfl
  | some t => simp only [forEach, h t]

theorem forall₂_exists_of_mem {α β : Type} {R : α → β → Prop} {l : List α} {m : List β}
    (h : List.Forall₂ R l m) {a : α} (ha : a ∈ l) : ∃ b ∈ m, R a b := by
  induction h with
  | nil => cases ha
  | cons hab _ ih =>
    rcases List.mem_cons.mp ha with rfl | ha
    · exact ⟨_, List.mem_cons_self _ _, hab⟩
    · obtain ⟨b, hb, hr⟩ := ih ha
      exact ⟨b, List.mem_cons_of_mem _ hb, hr⟩

/-- Every emission of a document comes from a position of a test that a criterion of a
definition refers to. -/
theorem emissions_from {root : oval.Root} {f : ovalutil.ProtoVulnFunc} {e : Emission}
    (h : e ∈ emissions root f) :
    ∃ defn criterion test i, i < test.ObjectRefs.length ∧
      e.From root f defn criterion test i := by
  unfold emissions at h
  obtain ⟨defn, hdefn, h⟩ := List.mem_flatMap.mp h
  unfold definitionEmissions at h
  cases hf : f defn with
  | error err => simp [hf] at h
  | ok proto =>
  simp only [hf] at h
  obtain ⟨criterion, hcrit, h⟩ := List.mem_flatMap.mp h
  unfold criterionEmissions at h
  cases hl : root.Tests.Lookup criterion.TestRef with
  | error err => simp [hl] at h
  | ok r =>
  obtain ⟨kind, index⟩ := r
  simp only [hl] at h
  cases ht : root.Tests.RPMInfoTests[index]? with
  | none => simp [ht] at h
  | some test =>
  simp only [ht] at h
  by_cases hlen : test.ObjectRefs.length ≠ test.StateRefs.length
  · rw [if_pos hlen] at h
    cases h
  · rw [if_neg hlen] at h
    unfold testEmissions at h
    obtain ⟨i, hi, h⟩ := List.mem_filterMap.mp h
    obtain ⟨hp, hres, hevr⟩ := pairEmission_eq_some_iff.mp h
    exact ⟨defn, criterion, test, i, List.mem_range.mp hi, hdefn, by rw [hf, hp], hcrit,
      ⟨kind, index, hl, ht⟩, not_not.mp hlen, hres, hevr⟩

/-- A returned result of `RPMDefsToVulns` is the final state of a run. -/
theorem ovalutil.RPMDefsToVulns_eq_some {heap heap' : Heap} {root : oval.Root}
    {f : ovalutil.ProtoVulnFunc} {vulns : Option (List VulnPtr)} {err : Option Error}
    (h : ovalutil.RPMDefsToVulns heap root f = some (heap', vulns, err)) :
    ∃ t, ovalutil.run heap root f = some t ∧ heap' = t.heap ∧ vulns = some t.vulns ∧
      err = none := by
  unfold ovalutil.RPMDefsToVulns at h
  cases hr : ovalutil.run heap root f with
  | none => simp [hr] at h
  | some t =>
    simp only [hr, Option.some.injEq, Prod.mk.injEq] at h
    obtain ⟨h1, h2, h3⟩ := h
    exact ⟨t, rfl, h1.symm, h2.symm, h3.symm⟩

/-- The output of a returned call corresponds, pointer by pointer, to the emissions of the
document, and the cache of the final state is coherent. -/
theorem ovalutil.RPMDefsToVulns_emits {heap heap' : Heap} {root : oval.Root}
    {f : ovalutil.ProtoVulnFunc} {vulns : List VulnPtr} {err : Option Error}
    (h : ovalutil.RPMDefsToVulns heap root f = some (heap', some vulns, err)) :
    ∃ t, t.heap = heap' ∧ t.vulns = vulns ∧ CacheOK heap t ∧
      List.Forall₂ (Emits t) vulns (emissions root f) := by
  obtain ⟨t, hrun, h1, h2, _⟩ := ovalutil.RPMDefsToVulns_eq_some h
  have hstep := ovalutil.run_step hrun
  obtain ⟨new, hnew, hall⟩ := hstep.out
  simp only [List.nil_append] at hnew
  have hc := hstep.coherent heap ⟨Nat.le_refl _, fun _ _ hl => by simp at hl⟩
  simp only [Option.some.injEq] at h2
  refine ⟨t, h1.symm, h2.symm, hc, ?_⟩
  rw [h2, hnew]
  exact hall

/-- The output of a returned call shares packages by name. -/
theorem ovalutil.RPMDefsToVulns_shares {heap heap' : Heap} {root : oval.Root}
    {f : ovalutil.ProtoVulnFunc} {vulns : List VulnPtr} {err : Option Error}
    (h : ovalutil.RPMDefsToVulns heap root f = some (heap', some vulns, err)) :
    SharesPackagesByName heap heap' vulns (emissions root f) := by
  obtain ⟨t, hheap, _, hc, hall⟩ := ovalutil.RPMDefsToVulns_emits h
  subst hheap
  constructor
  · refine hall.imp ?_
    rintro ptr e ⟨p, hv, hl⟩
    obtain ⟨hp, hfresh⟩ := hc.2 _ _ hl
    exact ⟨_, p, hv, rfl, hp, hfresh⟩
  · intro a ha b hb va vb hva hvb
    obtain ⟨pa, hva', hla⟩ := List.forall₂_zip hall ha
    obtain ⟨pb, hvb', hlb⟩ := List.forall₂_zip hall hb
    rw [hva'] at hva
    rw [hvb'] at hvb
    simp only [Option.some.injEq] at hva hvb
    subst hva hvb
    simp only [Option.some.injEq]
    constructor
    · intro hpp
      subst hpp
      have h1 := (hc.2 _ _ hla).1
      have h2 := (hc.2 _ _ hlb).1
      rw [h1] at h2
      simpa using h2
    · intro hn
      rw [hn, hlb] at hla
      simpa using hla.symm

/-- Two calls, the second started after the first has ended, share no package instance. -/
theorem SharesPackagesByName.disjoint {heap1 heap1' heap2 heap2' : Heap}
    {vulns1 vulns2 : List VulnPtr} {es1 es2 : List Emission}
    (h1 : SharesPackagesByName heap1 heap1' vulns1 es1)
    (h2 : SharesPackagesByName heap2 heap2' vulns2 es2)
    (hle : heap1'.packages.length ≤ heap2.packages.length) :
    ∀ a ∈ vulns1, ∀ b ∈ vulns2, ∀ va vb,
      heap1'.vulnerabilities[a]? = some va → heap2'.vulnerabilities[b]? = some vb →
      va.Package ≠ vb.Package := by
  intro a ha b hb va vb hva hvb heq
  obtain ⟨_, _, va', pa, hva', hpa, hpkg, _⟩ := forall₂_exists_of_mem h1.1 ha
  obtain ⟨_, _, vb', pb, hvb', hpb, _, hfresh⟩ := forall₂_exists_of_mem h2.1 hb
  rw [hva'] at hva
  rw [hvb'] at hvb
  simp only [Option.some.injEq] at hva hvb
  subst hva hvb
  rw [hpa, hpb] at heq
  simp only [Option.some.injEq] at heq
  subst heq
  have hlt : pa < heap1'.packages.length := by
    rcases List.getElem?_eq_some.mp hpkg with ⟨hlt, _⟩
    exact hlt
  omega

theorem foldl_append_singleton {α : Type} (l cris : List α) :
    l.foldl (fun cris x => cris ++ [x]) cris = cris ++ l := by
  induction l generalizing cris with
  | nil => simp
  | cons a rest ih => simp [List.foldl_cons, ih]

mutual
/-- The walk appends to `cris` what it collects from the empty slice. -/
theorem ovalutil.walkCriterion_append :
    ∀ (node : oval.Criteria) (cris : List oval.Criterion),
      ovalutil.walkCriterion node cris = cris ++ ovalutil.walkCriterion node []
  | .mk criterias criterions, cris => by
    simp only [ovalutil.walkCriterion, foldl_append_singleton]
    rw [ovalutil.walkCriterias_append criterias cris, List.append_assoc]
theorem ovalutil.walkCriterias_append :
    ∀ (nodes : List oval.Criteria) (cris : List oval.Criterion),
      ovalutil.walkCriterias nodes cris = cris ++ ovalutil.walkCriterias nodes []
  | [], cris => by simp [ovalutil.walkCriterias]
  | node :: rest, cris => by
    simp only [ovalutil.walkCriterias]
    rw [ovalutil.walkCriterias_append rest (ovalutil.walkCriterion node cris),
      ovalutil.walkCriterias_append rest (ovalutil.walkCriterion node []),
      ovalutil.walkCriterion_append node cris, List.append_assoc]
end

mutual
/-- The walk from the empty slice is a rearrangement of the leaves of the tree. -/
theorem ovalutil.walkCriterion_perm :
    ∀ (node : oval.Criteria), (ovalutil.walkCriterion node []).Perm node.leaves
  | .mk criterias criterions => by
    simp only [ovalutil.walkCriterion, foldl_append_singleton, oval.Criteria.leaves]
    exact List.perm_append_comm.trans
      (List.Perm.append_left _ (ovalutil.walkCriterias_perm criterias))
theorem ovalutil.walkCriterias_perm :
    ∀ (nodes : List oval.Criteria),
      (ovalutil.walkCriterias nodes []).Perm (oval.Criteria.leavesOfAll nodes)
  | [] => by simp [ovalutil.walkCriterias, oval.Criteria.leavesOfAll]
  | node :: rest => by
    simp only [ovalutil.walkCriterias, oval.Criteria.leavesOfAll]
    rw [ovalutil.walkCriterias_append rest (ovalutil.walkCriterion node [])]
    exact List.Perm.append (ovalutil.walkCriterion_perm node) (ovalutil.walkCriterias_perm rest)
end

mutual
theorem oval.Criteria.length_leaves :
    ∀ (node : oval.Criteria), node.leaves.length = node.leafCount
  | .mk criterias criterions => by
    simp only [oval.Criteria.leaves, oval.Criteria.leafCount, List.length_append]
    rw [oval.Criteria.length_leavesOfAll criterias]
theorem oval.Criteria.length_leavesOfAll :
    ∀ (nodes : List oval.Criteria),
      (oval.Criteria.leavesOfAll nodes).length = oval.Criteria.leafCountOfAll nodes
  | [] => by simp [oval.Criteria.leavesOfAll, oval.Criteria.leafCountOfAll]
  | node :: rest => by
    simp only [oval.Criteria.leavesOfAll, oval.Criteria.leafCountOfAll, List.length_append]
    rw [oval.Criteria.length_leaves node, oval.Criteria.length_leavesOfAll rest]
end

mutual
theorem oval.Criteria.hasLeaf_of_mem_leaves :
    ∀ (node : oval.Criteria) (x : oval.Criterion), x ∈ node.leaves → node.HasLeaf x
  | .mk criterias criterions, x, h => by
    simp only [oval.Criteria.leaves, List.mem_append] at h
    rcases h with h | h
    · exact .own h
    · obtain ⟨node, hn, hx⟩ := oval.Criteria.hasLeaf_of_mem_leavesOfAll criterias x h
      exact .nested hn hx
theorem oval.Criteria.hasLeaf_of_mem_leavesOfAll :
    ∀ (nodes : List oval.Criteria) (x : oval.Criterion),
      x ∈ oval.Criteria.leavesOfAll nodes → ∃ node ∈ nodes, node.HasLeaf x
  | [], x, h => by simp [oval.Criteria.leavesOfAll] at h
  | node :: rest, x, h => by
    simp only [oval.Criteria.leavesOfAll, List.mem_append] at h
    rcases h with h | h
    · exact ⟨node, List.mem_cons_self _ _, oval.Criteria.hasLeaf_of_mem_leaves node x h⟩
    · obtain ⟨n, hn, hx⟩ := oval.Criteria.hasLeaf_of_mem_leavesOfAll rest x h
      exact ⟨n, List.mem_cons_of_mem _ hn, hx⟩
end

theorem oval.Criteria.mem_leavesOfAll {nodes : List oval.Criteria} {node : oval.Criteria}
    {x : oval.Criterion} (hn : node ∈ nodes) (hx : x ∈ node.leaves) :
    x ∈ oval.Criteria.leavesOfAll nodes := by
  induction nodes with
  | nil => cases hn
  | cons first rest ih =>
    simp only [oval.Criteria.leavesOfAll, List.mem_append]
    rcases List.mem_cons.mp hn with rfl | hn
    · exact Or.inl hx
    · exact Or.inr (ih hn)

theorem oval.Criteria.mem_leaves_of_hasLeaf {node : oval.Criteria} {x : oval.Criterion}
    (h : node.HasLeaf x) : x ∈ node.leaves := by
  induction h with
  | own hx => simp only [oval.Criteria.leaves, List.mem_append]; exact Or.inl hx
  | nested hn _ ih =>
    simp only [oval.Criteria.leaves, List.mem_append]
    exact Or.inr (oval.Criteria.mem_leavesOfAll hn ih)

/-- With lookups in range, `RPMDefsToVulns` returns a sequence and no error. -/
theorem ovalutil.RPMDefsToVulns_total (heap : Heap) {root : oval.Root}
    (f : ovalutil.ProtoVulnFunc) (hR : root.InRange) :
    ∃ heap' vulns, ovalutil.RPMDefsToVulns heap root f = some (heap', some vulns, none) := by
  obtain ⟨t, ht⟩ := ovalutil.run_total heap f hR
  exact ⟨t.heap, t.vulns, by simp only [ovalutil.RPMDefsToVulns, ht]⟩

/-- The labelled search scans the platform strings of the affected entries in document
order. -/
theorem oracle.DistSearch_eq (affecteds : List oval.Affected) :
    oracle.DistSearch affecteds =
      oracle.searchPlatforms (affecteds.flatMap (fun affected => affected.Platforms)) := by
  have happ : ∀ (l m : List String), oracle.searchPlatforms (l ++ m) =
      match oracle.searchPlatforms l with
      | some d => some d
      | none => oracle.searchPlatforms m := by
    intro l m
    induction l with
    | nil => rfl
    | cons p rest ih =>
      simp only [List.cons_append, oracle.searchPlatforms]
      cases oracle.platformToDist.lookup p with
      | some d => rfl
      | none => exact ih
  induction affecteds with
  | nil => rfl
  | cons affected rest ih =>
    simp only [oracle.DistSearch, List.flatMap_cons, happ, ih]

/-- The search stops at the first platform string that is a key of the table. -/
theorem oracle.searchPlatforms_first (before after : List String) {platform : String}
    {dist : Distribution}
    (hBefore : ∀ p ∈ before, oracle.platformToDist.lookup p = none)
    (hHit : oracle.platformToDist.lookup platform = some dist) :
    oracle.searchPlatforms (before ++ platform :: after) = some dist := by
  induction before with
  | nil => simp only [List.nil_append, oracle.searchPlatforms, hHit]
  | cons p rest ih =>
    simp only [List.cons_append, oracle.searchPlatforms,
      hBefore p (List.mem_cons_self _ _)]
    exact ih (fun q hq => hBefore q (List.mem_cons_of_mem _ hq))

/-- The search finds nothing when no platform string is a key of the table. -/
theorem oracle.searchPlatforms_none {platforms : List String}
    (h : ∀ p ∈ platforms, oracle.platformToDist.lookup p = none) :
    oracle.searchPlatforms platforms = none := by
  induction platforms with
  | nil => rfl
  | cons p rest ih =>
    simp only [oracle.searchPlatforms, h p (List.mem_cons_self _ _)]
    exact ih (fun q hq => h q (List.mem_cons_of_mem _ hq))

/-- Every emission of a definition carries the prototype of the definition. -/
theorem definitionEmissions_proto {root : oval.Root} {f : ovalutil.ProtoVulnFunc}
    {defn : oval.Definition} {e : Emission} (h : e ∈ definitionEmissions root f defn) :
    f defn = .ok e.proto := by
  unfold definitionEmissions at h
  cases hf : f defn with
  | error err => simp [hf] at h
  | ok proto =>
  simp only [hf] at h
  obtain ⟨criterion, _, h⟩ := List.mem_flatMap.mp h
  unfold criterionEmissions at h
  cases hl : root.Tests.Lookup criterion.TestRef with
  | error err => simp [hl] at h
  | ok r =>
  obtain ⟨kind, index⟩ := r
  simp only [hl] at h
  cases ht : root.Tests.RPMInfoTests[index]? with
  | none => simp [ht] at h
  | some test =>
  simp only [ht] at h
  by_cases hlen : test.ObjectRefs.length ≠ test.StateRefs.length
  · rw [if_pos hlen] at h
    cases h
  · rw [if_neg hlen] at h
    unfold testEmissions at h
    obtain ⟨i, _, h⟩ := List.mem_filterMap.mp h
    rw [(pairEmission_eq_some_iff.mp h).1]

theorem Fresh.fresh_refl (s : State) : Fresh s s :=
  ⟨Nat.le_refl _, [], by simp, List.Pairwise.nil, fun _ h => by cases h⟩

theorem Fresh.fresh_trans {s t r : State} (h1 : Fresh s t) (h2 : Fresh t r) : Fresh s r := by
  obtain ⟨l1, n1, e1, p1, b1⟩ := h1
  obtain ⟨l2, n2, e2, p2, b2⟩ := h2
  refine ⟨Nat.le_trans l1 l2, n1 ++ n2, by rw [e2, e1, List.append_assoc], ?_, ?_⟩
  · refine List.pairwise_append.mpr ⟨p1, p2, ?_⟩
    intro a ha b hb
    have ha2 : (a : Nat) < t.heap.vulnerabilities.length := (b1 a ha).2
    have hb1 : t.heap.vulnerabilities.length ≤ (b : Nat) := (b2 b hb).1
    exact Nat.lt_of_lt_of_le ha2 hb1
  · intro ptr hptr
    rcases List.mem_append.mp hptr with h | h
    · obtain ⟨h3, h4⟩ := b1 ptr h
      exact ⟨h3, Nat.lt_of_lt_of_le h4 l2⟩
    · obtain ⟨h3, h4⟩ := b2 ptr h
      exact ⟨Nat.le_trans l1 h3, h4⟩

/-- A loop whose every iteration relates its states by a reflexive and transitive relation
relates the states at its ends. -/
theorem forEach_rel {σ α : Type} (body : σ → α → Option σ) (R : σ → σ → Prop)
    (hrefl : ∀ s, R s s) (htrans : ∀ s t r, R s t → R t r → R s r)
    (hbody : ∀ s a t, body s a = some t → R s t) :
    ∀ (l : List α) (s t : σ), forEach body l s = some t → R s t := by
  intro l
  induction l with
  | nil =>
    intro s t h
    simp only [forEach, Option.some.injEq] at h
    subst h
    exact hrefl s
  | cons a rest ih =>
    intro s t h
    simp only [forEach] at h
    cases hb : body s a with
    | none => simp [hb] at h
    | some m =>
      rw [hb] at h
      exact htrans s m t (hbody s a m hb) (ih m t h)

/-- One iteration of the pair loop appends at most the address of the cell it allocates. -/
theorem ovalutil.pairBody_fresh {root : oval.Root} {pv : VulnPtr} {test : oval.RPMInfoTest}
    {s t : State} {i : Nat} (h : ovalutil.pairBody root pv test s i = some t) : Fresh s t := by
  unfold ovalutil.pairBody at h
  cases ho : test.ObjectRefs[i]? with
  | none => simp [ho] at h
  | some o =>
  cases hst : test.StateRefs[i]? with
  | none => simp [ho, hst] at h
  | some st =>
  simp only [ho, hst] at h
  cases hj : root.Objects.Lookup o.ObjectRef with
  | error e => simp only [hj, Option.some.injEq] at h; subst h; exact Fresh.fresh_refl _
  | ok r =>
  obtain ⟨ko, j⟩ := r
  simp only [hj] at h
  cases hk : root.States.Lookup st.StateRef with
  | error e => simp only [hk, Option.some.injEq] at h; subst h; exact Fresh.fresh_refl _
  | ok r =>
  obtain ⟨ks, k⟩ := r
  simp only [hk] at h
  cases hobj : root.Objects.RPMInfoObjects[j]? with
  | none => simp [hobj] at h
  | some object =>
  simp only [hobj] at h
  cases hstate : root.States.RPMInfoStates[k]? with
  | none => simp [hstate] at h
  | some state =>
  simp only [hstate] at h
  cases hevr : state.EVR with
  | none => simp only [hevr, Option.some.injEq] at h; subst h; exact Fresh.fresh_refl _
  | some evr =>
  simp only [hevr] at h
  cases hp : s.heap.vulnerabilities[pv]? with
  | none => simp [hp] at h
  | some proto =>
  simp only [hp] at h
  cases hc : List.lookup object.Name s.pkgcache with
  | none =>
    simp only [hc, Heap.newPackage, Heap.newVulnerability, Option.some.injEq] at h
    subst h
    exact ⟨by simp, [s.heap.vulnerabilities.length], rfl, List.pairwise_singleton _ _,
      fun ptr hptr => by simp at hptr; subst hptr; simp⟩
  | some pkg =>
    simp only [hc, Heap.newVulnerability, Option.some.injEq] at h
    subst h
    exact ⟨by simp, [s.heap.vulnerabilities.length], rfl, List.pairwise_singleton _ _,
      fun ptr hptr => by simp at hptr; subst hptr; simp⟩

/-- One iteration of the criterion loop appends addresses of cells it allocates. -/
theorem ovalutil.criterionBody_fresh {root : oval.Root} {pv : VulnPtr}
    {criterion : oval.Criterion} {s t : State}
    (h : ovalutil.criterionBody root pv s criterion = some t) : Fresh s t := by
  unfold ovalutil.criterionBody at h
  cases hl : root.Tests.Lookup criterion.TestRef with
  | error e => simp only [hl, Option.some.injEq] at h; subst h; exact Fresh.fresh_refl _
  | ok r =>
  obtain ⟨kind, index⟩ := r
  simp only [hl] at h
  cases ht : root.Tests.RPMInfoTests[index]? with
  | none => simp [ht] at h
  | some test =>
  simp only [ht] at h
  by_cases hlen : test.ObjectRefs.length ≠ test.StateRefs.length
  · rw [if_pos hlen] at h
    simp only [Option.some.injEq] at h
    subst h
    exact Fresh.fresh_refl _
  · rw [if_neg hlen] at h
    exact forEach_rel _ Fresh Fresh.fresh_refl (fun _ _ _ => Fresh.fresh_trans)
      (fun _ _ _ hb => ovalutil.pairBody_fresh hb) _ _ _ h

/-- A returned loop over `l ++ a :: m` passes through the states before and after `a`. -/
theorem forEach_split {σ α : Type} (body : σ → α → Option σ) (l m : List α) (a : α)
    (s t : σ) (h : forEach body (l ++ a :: m) s = some t) :
    ∃ s1 s2, forEach body l s = some s1 ∧ body s1 a = some s2 ∧
      forEach body m s2 = some t := by
  rw [forEach_append] at h
  cases h1 : forEach body l s with
  | none => simp [h1] at h
  | some s1 =>
    simp only [h1, forEach] at h
    cases h2 : body s1 a with
    | none => simp [h2] at h
    | some s2 =>
      simp only [h2] at h
      exact ⟨s1, s2, rfl, h2, h⟩

/-- One iteration of the definition loop appends addresses of cells allocated after the
prototype cell. -/
theorem ovalutil.definitionBody_fresh {root : oval.Root} {f : ovalutil.ProtoVulnFunc}
    {cris : List oval.Criterion} {defn : oval.Definition} {s t : State}
    (h : ovalutil.definitionBody root f cris s defn = some t) : Fresh s t := by
  unfold ovalutil.definitionBody at h
  cases hf : f defn with
  | error e => simp only [hf, Option.some.injEq] at h; subst h; exact Fresh.fresh_refl _
  | ok proto =>
    simp only [hf] at h
    have h1 : Fresh s { s with heap := (s.heap.newVulnerability proto).1 } :=
      ⟨by simp [Heap.newVulnerability], [], by simp, List.Pairwise.nil, fun _ hp => by cases hp⟩
    exact h1.fresh_trans (forEach_rel _ Fresh Fresh.fresh_refl (fun _ _ _ => Fresh.fresh_trans)
      (fun _ _ _ hb => ovalutil.criterionBody_fresh hb) _ _ _ h)

/-- What the definition loop body does for a definition the strategy accepts: the prototype
sits in the first cell allocated and is still there afterwards, and the pointers appended are
addresses of later cells, in increasing order, one per emission of the definition. -/
theorem ovalutil.definitionBody_ok {root : oval.Root} {f : ovalutil.ProtoVulnFunc}
    {cris : List oval.Criterion} {defn : oval.Definition} {s t : State} {proto : Vulnerability}
    (hf : f defn = .ok proto)
    (h : ovalutil.definitionBody root f cris s defn = some t) :
    t.heap.vulnerabilities[s.heap.vulnerabilities.length]? = some proto ∧
    ∃ new, t.vulns = s.vulns ++ new ∧ new.Pairwise (· < ·) ∧
      (∀ ptr ∈ new, s.heap.vulnerabilities.length < ptr ∧
        ptr < t.heap.vulnerabilities.length) ∧
      List.Forall₂ (Emits t) new (definitionEmissions root f defn) := by
  have hstep := ovalutil.definitionBody_step h
  unfold ovalutil.definitionBody at h
  simp only [hf] at h
  have hfresh := forEach_rel _ Fresh Fresh.fresh_refl (fun _ _ _ => Fresh.fresh_trans)
    (fun _ _ _ hb => ovalutil.criterionBody_fresh hb) _ _ _ h
  have hloop := ovalutil.criterionLoop_step (s.heap.newVulnerability proto).2 proto
    { s with heap := (s.heap.newVulnerability proto).1 } (by simp [Heap.newVulnerability]) h
  have hkeep : t.heap.vulnerabilities[s.heap.vulnerabilities.length]? = some proto :=
    hloop.keeps (by simp [Heap.newVulnerability])
  obtain ⟨_, new, hnew, hpair, hbound⟩ := hfresh
  obtain ⟨new', hnew', hall⟩ := hstep.out
  simp only at hnew
  have heq : new' = new := List.append_cancel_left (hnew'.symm.trans hnew)
  subst heq
  refine ⟨hkeep, new', hnew', hpair, ?_, hall⟩
  intro ptr hptr
  obtain ⟨h1, h2⟩ := hbound ptr hptr
  simp only [Heap.newVulnerability, List.length_append, List.length_singleton] at h1
  exact ⟨h1, h2⟩

theorem forall₂_and_mem {α β : Type} {R : α → β → Prop} {l : List α} {m : List β}
    (h : List.Forall₂ R l m) : List.Forall₂ (fun a b => R a b ∧ a ∈ l ∧ b ∈ m) l m := by
  induction h with
  | nil => exact List.Forall₂.nil
  | cons hab _ ih =>
    refine List.Forall₂.cons ⟨hab, List.mem_cons_self _ _, List.mem_cons_self _ _⟩ ?_
    exact ih.imp (fun a b ⟨h1, h2, h3⟩ =>
      ⟨h1, List.mem_cons_of_mem _ h2, List.mem_cons_of_mem _ h3⟩)

/-- Every emission of a definition comes from a position of a test that a criterion of the
definition refers to. -/
theorem definitionEmissions_from {root : oval.Root} {f : ovalutil.ProtoVulnFunc}
    {defn : oval.Definition} {e : Emission} (hdefn : defn ∈ root.Definitions.Definitions)
    (h : e ∈ definitionEmissions root f defn) :
    ∃ criterion test i, i < test.ObjectRefs.length ∧ e.From root f defn criterion test i := by
  have hproto := definitionEmissions_proto h
  unfold definitionEmissions at h
  simp only [hproto] at h
  obtain ⟨criterion, hcrit, h⟩ := List.mem_flatMap.mp h
  unfold criterionEmissions at h
  cases hl : root.Tests.Lookup criterion.TestRef with
  | error err => simp [hl] at h
  | ok r =>
  obtain ⟨kind, index⟩ := r
  simp only [hl] at h
  cases ht : root.Tests.RPMInfoTests[index]? with
  | none => simp [ht] at h
  | some test =>
  simp only [ht] at h
  by_cases hlen : test.ObjectRefs.length ≠ test.StateRefs.length
  · rw [if_pos hlen] at h
    cases h
  · rw [if_neg hlen] at h
    unfold testEmissions at h
    obtain ⟨i, hi, h⟩ := List.mem_filterMap.mp h
    obtain ⟨_, hres, hevr⟩ := pairEmission_eq_some_iff.mp h
    exact ⟨criterion, test, i, List.mem_range.mp hi, hdefn, hproto, hcrit,
      ⟨kind, index, hl, ht⟩, not_not.mp hlen, hres, hevr⟩

/-- A returned run over a document passes through the states before and after each of its
definitions. -/
theorem ovalutil.run_split {heap : Heap} {root : oval.Root} {f : ovalutil.ProtoVulnFunc}
    {t : State} {before after : List oval.Definition} {defn : oval.Definition}
    (hdefs : root.Definitions.Definitions = before ++ defn :: after)
    (h : ovalutil.run heap root f = some t) :
    ∃ s1 s2,
      forEach (ovalutil.definitionBody root f []) before
        { heap := heap, pkgcache := [], vulns := [] } = some s1 ∧
      ovalutil.definitionBody root f [] s1 defn = some s2 ∧
      forEach (ovalutil.definitionBody root f []) after s2 = some t := by
  unfold ovalutil.run at h
  simp only [hdefs] at h
  exact forEach_split _ before after defn _ t h

/-- A loop over definitions is a step that emits their emissions in order. -/
theorem ovalutil.definitionLoop_step {root : oval.Root} {f : ovalutil.ProtoVulnFunc}
    (defs : List oval.Definition) {s t : State}
    (h : forEach (ovalutil.definitionBody root f []) defs s = some t) :
    Step s t (defs.flatMap (definitionEmissions root f)) :=
  forEach_step (ovalutil.definitionBody root f []) (definitionEmissions root f)
    (fun _ => True) (fun _ _ _ _ _ => trivial)
    (fun _ _ _ _ hb => ovalutil.definitionBody_step hb) defs s t trivial h

/-- The lookup over the one family of the RPMInfo records answers within that family. -/
theorem oval.lookupFamilies_single_lt {kind : String} {ids : List String} :
    ∀ ref k index, oval.lookupFamilies [(kind, ids)] ref = .ok (k, index) →
      index < ids.length := by
  intro ref k index h
  simp only [oval.lookupFamilies] at h
  by_cases hmem : ref ∈ ids
  · rw [if_pos hmem] at h
    simp only [Except.ok.injEq, Prod.mk.injEq] at h
    rw [← h.2]
    exact List.indexOf_lt_length.mpr hmem
  · rw [if_neg hmem] at h
    cases h

/-- A decoded document all of whose tests, objects and states are of the RPMInfo family has
its lookups in range. -/
theorem oval.decoded_inRange (defs : oval.Definitions) (tests : List oval.RPMInfoTest)
    (objects : List oval.RPMInfoObject) (states : List oval.RPMInfoState) :
    oval.Root.InRange
      { Definitions := defs,
        Tests := oval.Tests.decoded tests [],
        Objects := oval.Objects.decoded objects [],
        States := oval.States.decoded states [] } := by
  refine ⟨?_, ?_, ?_⟩
  · intro ref k index h
    have := oval.lookupFamilies_single_lt ref k index h
    simpa using this
  · intro ref k index h
    have := oval.lookupFamilies_single_lt ref k index h
    simpa using this
  · intro ref k index h
    have := oval.lookupFamilies_single_lt ref k index h
    simpa using this

/-- Two loops over the same list whose bodies return together, on related states, return
together. -/
theorem forEach_sim {σ α : Type} (body1 body2 : σ → α → Option σ) (R : σ → σ → Prop)
    (hbody : ∀ s1 s2 a t1, R s1 s2 → body1 s1 a = some t1 →
      ∃ t2, body2 s2 a = some t2 ∧ R t1 t2) :
    ∀ (l : List α) (s1 s2 t1 : σ), R s1 s2 → forEach body1 l s1 = some t1 →
      ∃ t2, forEach body2 l s2 = some t2 ∧ R t1 t2 := by
  intro l
  induction l with
  | nil =>
    intro s1 s2 t1 hR h
    simp only [forEach, Option.some.injEq] at h
    subst h
    exact ⟨s2, rfl, hR⟩
  | cons a rest ih =>
    intro s1 s2 t1 hR h
    simp only [forEach] at h
    cases hb : body1 s1 a with
    | none => simp [hb] at h
    | some m1 =>
      rw [hb] at h
      obtain ⟨m2, hm2, hRm⟩ := hbody s1 s2 a m1 hR hb
      obtain ⟨t2, ht2, hRt⟩ := ih m1 m2 t1 hRm h
      exact ⟨t2, by simp only [forEach, hm2]; exact ht2, hRt⟩

/-- Whether an iteration of the pair loop returns does not depend on the state it runs on, as
long as the prototype pointer is valid. -/
theorem ovalutil.pairBody_returns_alike {root : oval.Root} {pv1 pv2 : VulnPtr}
    {p1 p2 : Vulnerability} {test : oval.RPMInfoTest} {s1 s2 t1 : State} {i : Nat}
    (_h1 : s1.heap.vulnerabilities[pv1]? = some p1)
    (h2 : s2.heap.vulnerabilities[pv2]? = some p2)
    (h : ovalutil.pairBody root pv1 test s1 i = some t1) :
    ∃ t2, ovalutil.pairBody root pv2 test s2 i = some t2 := by
  unfold ovalutil.pairBody at h ⊢
  cases ho : test.ObjectRefs[i]? with
  | none => simp [ho] at h
  | some o =>
  cases hst : test.StateRefs[i]? with
  | none => simp [ho, hst] at h
  | some st =>
  simp only [ho, hst] at h ⊢
  cases hj : root.Objects.Lookup o.ObjectRef with
  | error e => exact ⟨s2, rfl⟩
  | ok r =>
  obtain ⟨ko, j⟩ := r
  simp only [hj] at h ⊢
  cases hk : root.States.Lookup st.StateRef with
  | error e => exact ⟨s2, rfl⟩
  | ok r =>
  obtain ⟨ks, k⟩ := r
  simp only [hk] at h ⊢
  cases hobj : root.Objects.RPMInfoObjects[j]? with
  | none => simp [hobj] at h
  | some object =>
  simp only [hobj] at h ⊢
  cases hstate : root.States.RPMInfoStates[k]? with
  | none => simp [hstate] at h
  | some state =>
  simp only [hstate, h2]
  cases state.EVR with
  | none => exact ⟨s2, rfl⟩
  | some evr =>
    cases List.lookup object.Name s2.pkgcache with
    | none => exact ⟨_, rfl⟩
    | some pkg => exact ⟨_, rfl⟩

/-- Whether an iteration of the criterion loop returns does not depend on the state it runs
on, as long as the prototype pointer is valid. -/
theorem ovalutil.criterionBody_returns_alike {root : oval.Root} {pv1 pv2 : VulnPtr}
    {p1 p2 : Vulnerability} {criterion : oval.Criterion} {s1 s2 t1 : State}
    (h1 : s1.heap.vulnerabilities[pv1]? = some p1)
    (h2 : s2.heap.vulnerabilities[pv2]? = some p2)
    (h : ovalutil.criterionBody root pv1 s1 criterion = some t1) :
    ∃ t2, ovalutil.criterionBody root pv2 s2 criterion = some t2 := by
  unfold ovalutil.criterionBody at h ⊢
  cases hl : root.Tests.Lookup criterion.TestRef with
  | error e => exact ⟨s2, rfl⟩
  | ok r =>
  obtain ⟨kind, index⟩ := r
  simp only [hl] at h ⊢
  cases ht : root.Tests.RPMInfoTests[index]? with
  | none => simp [ht] at h
  | some test =>
  simp only [ht] at h ⊢
  by_cases hlen : test.ObjectRefs.length ≠ test.StateRefs.length
  · rw [if_pos hlen]
    exact ⟨s2, rfl⟩
  · rw [if_neg hlen] at h ⊢
    obtain ⟨t2, ht2, _⟩ := forEach_sim (ovalutil.pairBody root pv1 test)
      (ovalutil.pairBody root pv2 test)
      (fun a b => a.heap.vulnerabilities[pv1]? = some p1 ∧
        b.heap.vulnerabilities[pv2]? = some p2)
      (fun a b i c hR hb => by
        obtain ⟨d, hd⟩ := ovalutil.pairBody_returns_alike hR.1 hR.2 hb
        exact ⟨d, hd, (ovalutil.pairBody_step hR.1 hb).keeps hR.1,
          (ovalutil.pairBody_step hR.2 hd).keeps hR.2⟩)
      _ s1 s2 t1 ⟨h1, h2⟩ h
    exact ⟨t2, ht2⟩

/-- Whether an iteration of the definition loop returns does not depend on the state it runs
on. -/
theorem ovalutil.definitionBody_returns_alike {root : oval.Root} {f : ovalutil.ProtoVulnFunc}
    {cris : List oval.Criterion} {defn : oval.Definition} {s1 t1 : State} (s2 : State)
    (h : ovalutil.definitionBody root f cris s1 defn = some t1) :
    ∃ t2, ovalutil.definitionBody root f cris s2 defn = some t2 := by
  unfold ovalutil.definitionBody at h ⊢
  cases hf : f defn with
  | error e => exact ⟨s2, rfl⟩
  | ok proto =>
    simp only [hf] at h ⊢
    obtain ⟨t2, ht2, _⟩ := forEach_sim
      (ovalutil.criterionBody root (s1.heap.newVulnerability proto).2)
      (ovalutil.criterionBody root (s2.heap.newVulnerability proto).2)
      (fun a b => a.heap.vulnerabilities[(s1.heap.newVulnerability proto).2]? = some proto ∧
        b.heap.vulnerabilities[(s2.heap.newVulnerability proto).2]? = some proto)
      (fun a b c d hR hb => by
        obtain ⟨e, he⟩ := ovalutil.criterionBody_returns_alike hR.1 hR.2 hb
        exact ⟨e, he, (ovalutil.criterionBody_step hR.1 hb).keeps hR.1,
          (ovalutil.criterionBody_step hR.2 he).keeps hR.2⟩)
      _ _ { s2 with heap := (s2.heap.newVulnerability proto).1 } t1
      ⟨by simp [Heap.newVulnerability], by simp [Heap.newVulnerability]⟩ h
    exact ⟨t2, ht2⟩

/-- Whether `RPMDefsToVulns` returns does not depend on the heap it starts on. -/
theorem ovalutil.RPMDefsToVulns_returns_alike {heap1 heap1' : Heap} (heap2 : Heap)
    {root : oval.Root} {f : ovalutil.ProtoVulnFunc} {vulns1 : Option (List VulnPtr)}
    {err1 : Option Error}
    (h : ovalutil.RPMDefsToVulns heap1 root f = some (heap1', vulns1, err1)) :
    ∃ heap2' vulns2, ovalutil.RPMDefsToVulns heap2 root f = some (heap2', some vulns2, none) := by
  obtain ⟨t1, hrun, _⟩ := ovalutil.RPMDefsToVulns_eq_some h
  obtain ⟨t2, ht2, _⟩ := forEach_sim (ovalutil.definitionBody root f [])
    (ovalutil.definitionBody root f []) (fun _ _ => True)
    (fun a b d c _ hb => by
      obtain ⟨e, he⟩ := ovalutil.definitionBody_returns_alike b hb
      exact ⟨e, he, trivial⟩)
    root.Definitions.Definitions { heap := heap1, pkgcache := [], vulns := [] }
    { heap := heap2, pkgcache := [], vulns := [] } t1 trivial hrun
  refine ⟨t2.heap, t2.vulns, ?_⟩
  have : ovalutil.run heap2 root f = some t2 := ht2
  simp only [ovalutil.RPMDefsToVulns, this]

/-- The output of a returned call reads as the records of the emissions of the document. -/
theorem ovalutil.RPMDefsToVulns_load {heap heap' : Heap} {root : oval.Root}
    {f : ovalutil.ProtoVulnFunc} {vulns : List VulnPtr} {err : Option Error}
    (h : ovalutil.RPMDefsToVulns heap root f = some (heap', some vulns, err)) :
    vulns.map heap'.load = (emissions root f).map (fun e => some e.record) := by
  obtain ⟨t, hheap, _, hc, hall⟩ := ovalutil.RPMDefsToVulns_emits h
  subst hheap
  exact map_eq_of_forall₂ (fun ptr e he => he.load hc) hall

/-- A cleaned rooted path starts with a slash. -/
theorem python.Clean_rooted {path : String} (h : path.data.head? = some '/') :
    ∃ rest, python.Clean path = String.mk ('/' :: rest) := by
  unfold python.Clean
  simp only [h, if_true]
  exact ⟨_, rfl⟩

/-- The normalisation of an entry name by `Scan` never fails. -/
theorem python.RelToRoot_Join (name : String) :
    python.RelToRoot (python.Join ["/", name]) = .ok (python.normalise name) := by
  have hj : ∃ rest, python.Join ["/", name] = String.mk ('/' :: rest) := by
    have hne : ¬ ("/" : String) = "" := by decide
    simp only [python.Join, if_neg hne]
    exact python.Clean_rooted rfl
  obtain ⟨rest, hrest⟩ := hj
  obtain ⟨rest2, hrest2⟩ := python.Clean_rooted
    (show (String.mk ('/' :: rest)).data.head? = some '/' from rfl)
  have hok : ∃ n, python.RelToRoot (python.Join ["/", name]) = .ok n := by
    rw [hrest]
    unfold python.RelToRoot
    simp only [hrest2]
    by_cases h : String.mk ('/' :: rest2) = "/"
    · rw [if_pos h]; exact ⟨_, rfl⟩
    · rw [if_neg h]; exact ⟨_, rfl⟩
  obtain ⟨n, hn⟩ := hok
  simp only [python.normalise, hn]

/-- When the header of every metadata entry parses, the loop of `Scan` returns the packages of
the metadata entries, in archive order, after the packages it was given. -/
theorem python.scanLoop_eq (ReadMIMEHeader : String → Except Error python.MIMEHeader) :
    ∀ (entries : List python.Entry) (ret : List Package),
      (∀ e ∈ entries, e.isMetadata = true → ∃ hdr, ReadMIMEHeader e.content = .ok hdr) →
      python.scanLoop ReadMIMEHeader entries ret =
        .ok (ret ++ entries.filterMap (python.Entry.package ReadMIMEHeader)) := by
  intro entries
  induction entries with
  | nil => intro ret _; simp [python.scanLoop]
  | cons entry rest ih =>
    intro ret hread
    have hrest : ∀ e ∈ rest, e.isMetadata = true → ∃ hdr, ReadMIMEHeader e.content = .ok hdr :=
      fun e he => hread e (List.mem_cons_of_mem _ he)
    simp only [python.scanLoop, python.RelToRoot_Join, List.filterMap_cons]
    by_cases htype : entry.header.Typeflag ≠ python.TypeReg
    · have hmeta : entry.isMetadata = false := by
        simp [python.Entry.isMetadata, htype]
      rw [if_pos htype, ih ret hrest]
      simp [python.Entry.package, hmeta]
    · rw [if_neg htype]
      have htype' : entry.header.Typeflag = python.TypeReg := not_not.mp htype
      by_cases hsuf : python.HasSuffix (python.normalise entry.header.Name)
            ".egg-info/PKG-INFO" = true ∨
          python.HasSuffix (python.normalise entry.header.Name) ".dist-info/METADATA" = true
      · have hmeta : entry.isMetadata = true := by
          simp only [python.Entry.isMetadata, htype', true_and, decide_eq_true_eq]
          exact hsuf
        obtain ⟨hdr, hhdr⟩ := hread entry (List.mem_cons_self _ _) hmeta
        rw [if_pos hsuf]
        simp only [hhdr, ih _ hrest, python.Entry.package, hmeta, if_true, List.append_assoc,
          List.singleton_append]
      · have hmeta : entry.isMetadata = false := by
          simp only [python.Entry.isMetadata, htype', true_and, decide_eq_false_iff_not]
          exact hsuf
        rw [if_neg hsuf, ih ret hrest]
        simp [python.Entry.package, hmeta]

theorem python.splitSlash_ne_nil (path : List Char) : python.splitSlash path ≠ [] := by
  induction path with
  | nil => simp [python.splitSlash]
  | cons c rest ih =>
    simp only [python.splitSlash]
    by_cases hc : c = '/'
    · simp [hc]
    · rw [if_neg hc]
      cases h : python.splitSlash rest with
      | nil => simp
      | cons first others => simp

theorem python.splitSlash_append (x y : List Char) :
    python.splitSlash (x ++ '/' :: y) = python.splitSlash x ++ python.splitSlash y := by
  induction x with
  | nil => simp [python.splitSlash]
  | cons c rest ih =>
    have ih2 : python.splitSlash (rest.append ('/' :: y)) =
        python.splitSlash rest ++ python.splitSlash y := ih
    simp only [List.cons_append, python.splitSlash]
    by_cases hc : c = '/'
    · rw [if_pos hc, if_pos hc, ih2]
      rfl
    · rw [if_neg hc, if_neg hc, ih2]
      cases h : python.splitSlash rest with
      | nil => exact absurd h (python.splitSlash_ne_nil rest)
      | cons first others => rfl

theorem python.splitSlash_of_no_slash {comp : List Char} (h : '/' ∉ comp) :
    python.splitSlash comp = [comp] := by
  induction comp with
  | nil => rfl
  | cons c rest ih =>
    have hc : c ≠ '/' := fun he => h (by simp [he])
    have hrest : '/' ∉ rest := fun hm => h (List.mem_cons_of_mem _ hm)
    simp only [python.splitSlash, if_neg hc, ih hrest]

theorem python.no_slash_of_mem_splitSlash :
    ∀ (path : List Char) (comp : List Char), comp ∈ python.splitSlash path → '/' ∉ comp := by
  intro path
  induction path with
  | nil =>
    intro comp h
    simp only [python.splitSlash, List.mem_singleton] at h
    subst h
    simp
  | cons c rest ih =>
    intro comp h
    simp only [python.splitSlash] at h
    by_cases hc : c = '/'
    · rw [if_pos hc] at h
      rcases List.mem_cons.mp h with rfl | h
      · simp
      · exact ih comp h
    · rw [if_neg hc] at h
      cases hs : python.splitSlash rest with
      | nil => exact absurd hs (python.splitSlash_ne_nil rest)
      | cons first others =>
        rw [hs] at h ih
        rcases List.mem_cons.mp h with rfl | h
        · intro hm
          rcases List.mem_cons.mp hm with h1 | h1
          · exact hc h1.symm
          · exact ih first (List.mem_cons_self _ _) h1
        · exact ih comp (List.mem_cons_of_mem _ h)

theorem python.splitSlash_joinSlash :
    ∀ (comps : List (List Char)), comps ≠ [] → (∀ c ∈ comps, '/' ∉ c) →
      python.splitSlash (python.joinSlash comps) = comps := by
  intro comps
  induction comps with
  | nil => intro h; exact absurd rfl h
  | cons comp rest ih =>
    intro _ hall
    cases rest with
    | nil =>
      simp only [python.joinSlash]
      exact python.splitSlash_of_no_slash (hall comp (List.mem_cons_self _ _))
    | cons next others =>
      simp only [python.joinSlash]
      rw [python.splitSlash_append,
        python.splitSlash_of_no_slash (hall comp (List.mem_cons_self _ _))]
      have := ih (by simp) (fun c hc => hall c (List.mem_cons_of_mem _ hc))
      simp only [python.joinSlash] at this
      rw [this]
      rfl

theorem python.cleanStep_plain {kept : List (List Char)} {comp : List Char}
    (hkept : ∀ k ∈ kept, python.Plain k) (hcomp : '/' ∉ comp) :
    ∀ k ∈ python.cleanStep true kept comp, python.Plain k := by
  unfold python.cleanStep
  by_cases h1 : comp = [] ∨ comp = ['.']
  · rw [if_pos h1]; exact hkept
  · rw [if_neg h1]
    by_cases h2 : comp = ['.', '.']
    · rw [if_pos h2]
      cases kept with
      | nil => intro k hk; simp at hk
      | cons last before =>
        have hlast : last ≠ ['.', '.'] := (hkept last (List.mem_cons_self _ _)).2.2.1
        simp only [if_neg hlast]
        exact fun k hk => hkept k (List.mem_cons_of_mem _ hk)
    · rw [if_neg h2]
      intro k hk
      rcases List.mem_cons.mp hk with rfl | hk
      · exact ⟨fun he => h1 (Or.inl he), fun he => h1 (Or.inr he), h2, hcomp⟩
      · exact hkept k hk

theorem python.foldl_cleanStep_plain :
    ∀ (comps : List (List Char)) (kept : List (List Char)),
      (∀ k ∈ kept, python.Plain k) → (∀ c ∈ comps, '/' ∉ c) →
      ∀ k ∈ comps.foldl (python.cleanStep true) kept, python.Plain k := by
  intro comps
  induction comps with
  | nil => intro kept hkept _; exact hkept
  | cons comp rest ih =>
    intro kept hkept hall
    simp only [List.foldl_cons]
    exact ih _ (python.cleanStep_plain hkept (hall comp (List.mem_cons_self _ _)))
      (fun c hc => hall c (List.mem_cons_of_mem _ hc))

/-- The components of a cleaned rooted path are plain. -/
theorem python.cleanComponents_plain (path : List Char) :
    ∀ k ∈ python.cleanComponents true path, python.Plain k := by
  intro k hk
  unfold python.cleanComponents at hk
  rw [List.mem_reverse] at hk
  exact python.foldl_cleanStep_plain _ [] (fun _ h => by cases h)
    (python.no_slash_of_mem_splitSlash path) k hk

/-- Cleaning keeps plain components as they are. -/
theorem python.foldl_cleanStep_of_plain (rooted : Bool) :
    ∀ (comps : List (List Char)) (kept : List (List Char)),
      (∀ c ∈ comps, python.Plain c) →
      comps.foldl (python.cleanStep rooted) kept = comps.reverse ++ kept := by
  intro comps
  induction comps with
  | nil => intro kept _; rfl
  | cons comp rest ih =>
    intro kept hall
    obtain ⟨h1, h2, h3, _⟩ := hall comp (List.mem_cons_self _ _)
    have hstep : python.cleanStep rooted kept comp = comp :: kept := by
      unfold python.cleanStep
      rw [if_neg (fun h => h.elim h1 h2), if_neg h3]
    simp only [List.foldl_cons, hstep, List.reverse_cons, List.append_assoc,
      List.singleton_append]
    exact ih _ (fun c hc => hall c (List.mem_cons_of_mem _ hc))

/-- The components of a slash followed by plain components joined with slashes are those
components. -/
theorem python.cleanComponents_rooted_joinSlash (comps : List (List Char))
    (hall : ∀ c ∈ comps, python.Plain c) :
    python.cleanComponents true ('/' :: python.joinSlash comps) = comps := by
  unfold python.cleanComponents
  cases comps with
  | nil => decide
  | cons comp rest =>
    have hsplit : python.splitSlash ('/' :: python.joinSlash (comp :: rest)) =
        [] :: (comp :: rest) := by
      simp only [python.splitSlash, if_true]
      rw [python.splitSlash_joinSlash _ (by simp) (fun c hc => (hall c hc).2.2.2)]
    rw [hsplit]
    have hfirst : python.cleanStep true [] [] = [] := by decide
    have hfold := python.foldl_cleanStep_of_plain true (comp :: rest) [] hall
    rw [List.foldl_cons, hfirst, hfold]
    simp

theorem python.joinSlash_ne_nil {comps : List (List Char)} (hne : comps ≠ [])
    (hall : ∀ c ∈ comps, python.Plain c) : python.joinSlash comps ≠ [] := by
  cases comps with
  | nil => exact absurd rfl hne
  | cons comp rest =>
    have hc : comp ≠ [] := (hall comp (List.mem_cons_self _ _)).1
    cases rest with
    | nil => simpa [python.joinSlash] using hc
    | cons next others => simp [python.joinSlash, hc]

/-- The join of the root and an entry name is a slash followed by plain components. -/
theorem python.Join_root (name : String) :
    python.Join ["/", name] =
      String.mk ('/' :: python.joinSlash
        (python.cleanComponents true ('/' :: '/' :: name.data))) := by
  have hne : ¬ ("/" : String) = "" := by decide
  simp only [python.Join, if_neg hne, List.map_cons, List.map_nil]
  have hjoin : python.joinSlash [("/" : String).data, name.data] = '/' :: '/' :: name.data := rfl
  rw [hjoin]
  simp [python.Clean]

/-- The normalised name of an entry is the path of plain components. -/
theorem python.normalise_eq (name : String) :
    ∃ comps, (∀ c ∈ comps, python.Plain c) ∧ python.normalise name = python.pathOf comps := by
  have hplain := python.cleanComponents_plain ('/' :: '/' :: name.data)
  have hrel := python.RelToRoot_Join name
  rw [python.Join_root name] at hrel
  generalize python.cleanComponents true ('/' :: '/' :: name.data) = comps at hplain hrel
  refine ⟨comps, hplain, ?_⟩
  have hclean : python.Clean (String.mk ('/' :: python.joinSlash comps)) =
      String.mk ('/' :: python.joinSlash comps) := by
    simp [python.Clean, python.cleanComponents_rooted_joinSlash comps hplain]
  unfold python.RelToRoot at hrel
  simp only [hclean] at hrel
  unfold python.pathOf
  by_cases hc : comps = []
  · subst hc
    have h1 : String.mk ('/' :: python.joinSlash []) = "/" := by decide
    rw [if_pos h1] at hrel
    simp only [Except.ok.injEq] at hrel
    rw [if_pos rfl, ← hrel]
  · have h1 : ¬ String.mk ('/' :: python.joinSlash comps) = "/" := by
      intro he
      have hd := congrArg String.data he
      have hd2 : '/' :: python.joinSlash comps = ['/'] := hd
      simp only [List.cons.injEq, true_and] at hd2
      exact python.joinSlash_ne_nil hc hplain hd2
    rw [if_neg h1] at hrel
    simp only [Except.ok.injEq] at hrel
    rw [if_neg hc, ← hrel]

theorem python.head_joinSlash {comps : List (List Char)} (hne : comps ≠ [])
    (hall : ∀ c ∈ comps, python.Plain c) :
    ∃ first rest, python.joinSlash comps = first :: rest ∧ first ≠ '/' := by
  cases comps with
  | nil => exact absurd rfl hne
  | cons comp others =>
    obtain ⟨h1, _, _, h4⟩ := hall comp (List.mem_cons_self _ _)
    cases comp with
    | nil => exact absurd rfl h1
    | cons c cs =>
      have hc : c ≠ '/' := fun he => h4 (by simp [he])
      cases others with
      | nil => exact ⟨c, cs, rfl, hc⟩
      | cons next more => exact ⟨c, _, rfl, hc⟩

/-- Going up twice from a path of plain components that ends in a directory and a file gives
the path of the components before them. -/
theorem python.Join_up_two (parent : List (List Char)) (dir file : List Char)
    (hall : ∀ c ∈ parent ++ [dir, file], python.Plain c) :
    python.Join [python.pathOf (parent ++ [dir, file]), "..", ".."] = python.pathOf parent := by
  have hne : parent ++ [dir, file] ≠ [] := by simp
  obtain ⟨first, rest, hhead, hfirst⟩ := python.head_joinSlash hne hall
  have hpath : python.pathOf (parent ++ [dir, file]) =
      String.mk (python.joinSlash (parent ++ [dir, file])) := by
    simp only [python.pathOf, if_neg hne]
  have hnonempty : ¬ String.mk (python.joinSlash (parent ++ [dir, file])) = "" := by
    intro he
    have hd : python.joinSlash (parent ++ [dir, file]) = [] := congrArg String.data he
    rw [hhead] at hd
    cases hd
  have hjoin : python.joinSlash
      [python.joinSlash (parent ++ [dir, file]), ['.', '.'], ['.', '.']] =
      python.joinSlash (parent ++ [dir, file]) ++ '/' :: ['.', '.', '/', '.', '.'] := rfl
  have hsplit : python.splitSlash
      (python.joinSlash (parent ++ [dir, file]) ++ '/' :: ['.', '.', '/', '.', '.']) =
      (parent ++ [dir, file]) ++ [['.', '.'], ['.', '.']] := by
    rw [python.splitSlash_append,
      python.splitSlash_joinSlash _ hne (fun c hc => (hall c hc).2.2.2)]
    rfl
  have hfile : file ≠ ['.', '.'] := (hall file (by simp)).2.2.1
  have hdir : dir ≠ ['.', '.'] := (hall dir (by simp)).2.2.1
  have hfold : ((parent ++ [dir, file]) ++ [['.', '.'], ['.', '.']]).foldl
      (python.cleanStep false) [] = parent.reverse := by
    rw [List.foldl_append, python.foldl_cleanStep_of_plain false _ [] hall]
    simp [python.cleanStep, hfile, hdir]
  have hrooted : ¬ (python.joinSlash (parent ++ [dir, file]) ++
      '/' :: ['.', '.', '/', '.', '.']).head? = some '/' := by
    rw [hhead]
    simpa using hfirst
  rw [hpath]
  simp only [python.Join, if_neg hnonempty, List.map_cons, List.map_nil]
  rw [hjoin]
  simp only [python.Clean, python.cleanComponents, hsplit, hfold, List.reverse_reverse]
  simp only [python.pathOf, hrooted, decide_False, Bool.false_eq_true, if_false]
  rw [hfold, List.reverse_reverse]

/-- A path of plain components that ends in `.egg-info/PKG-INFO` or in `.dist-info/METADATA`
has at least two components: it ends in a directory and a file. -/
theorem python.metadata_components {comps : List (List Char)}
    (hall : ∀ c ∈ comps, python.Plain c)
    (h : python.HasSuffix (python.pathOf comps) ".egg-info/PKG-INFO" = true ∨
      python.HasSuffix (python.pathOf comps) ".dist-info/METADATA" = true) :
    ∃ parent dir file, comps = parent ++ [dir, file] := by
  have hslash : '/' ∈ (python.pathOf comps).data := by
    rcases h with h | h
    · obtain ⟨t, ht⟩ := List.isSuffixOf_iff_suffix.mp h
      rw [← ht]
      exact List.mem_append_right _ (by decide)
    · obtain ⟨t, ht⟩ := List.isSuffixOf_iff_suffix.mp h
      rw [← ht]
      exact List.mem_append_right _ (by decide)
  cases hr : comps.reverse with
  | nil =>
    have : comps = [] := List.reverse_eq_nil_iff.mp hr
    subst this
    exact absurd hslash (by decide)
  | cons file rest =>
    cases rest with
    | nil =>
      have hc : comps = [file] := by
        have := congrArg List.reverse hr
        simpa using this
      subst hc
      have hno : '/' ∉ file := (hall file (List.mem_cons_self _ _)).2.2.2
      exact absurd hslash (by simpa [python.pathOf, python.joinSlash] using hno)
    | cons dir more =>
      refine ⟨more.reverse, dir, file, ?_⟩
      have := congrArg List.reverse hr
      simpa using this

/-- The loop over the nested groups appends the walk of each group, in order. -/
theorem ovalutil.walkCriterias_eq_flatMap (nodes : List oval.Criteria)
    (cris : List oval.Criterion) :
    ovalutil.walkCriterias nodes cris =
      cris ++ nodes.flatMap (fun child => ovalutil.walkCriterion child []) := by
  induction nodes generalizing cris with
  | nil => simp [ovalutil.walkCriterias]
  | cons node rest ih =>
    simp only [ovalutil.walkCriterias, List.flatMap_cons]
    rw [ih, ovalutil.walkCriterion_append node cris, List.append_assoc]

/-- A returned loop over definitions appends one stretch of pointers per definition, in the
order of the definitions, each stretch emitted for the emissions of its definition. -/
theorem ovalutil.definitionLoop_segments {root : oval.Root} {f : ovalutil.ProtoVulnFunc} :
    ∀ (defs : List oval.Definition) (s t : State),
      forEach (ovalutil.definitionBody root f []) defs s = some t →
      ∃ segments : List (List VulnPtr),
        t.vulns = s.vulns ++ segments.flatten ∧
        List.Forall₂ (fun seg defn =>
          List.Forall₂ (Emits t) seg (definitionEmissions root f defn)) segments defs := by
  intro defs
  induction defs with
  | nil =>
    intro s t h
    simp only [forEach, Option.some.injEq] at h
    subst h
    exact ⟨[], by simp, List.Forall₂.nil⟩
  | cons defn rest ih =>
    intro s t h
    simp only [forEach] at h
    cases hb : ovalutil.definitionBody root f [] s defn with
    | none => simp [hb] at h
    | some m =>
      rw [hb] at h
      obtain ⟨new, hnew, hall⟩ := (ovalutil.definitionBody_step hb).out
      have hrest := ovalutil.definitionLoop_step rest h
      obtain ⟨segments, hsegs, hforall⟩ := ih m t h
      refine ⟨new :: segments, ?_, List.Forall₂.cons ?_ hforall⟩
      · rw [hsegs, hnew, List.flatten_cons, List.append_assoc]
      · exact hall.imp (fun _ _ he => he.mono hrest.vulnerabilities hrest.cache)

/-- The outer slice `cris` that the definition loop re-slices has no effect on the body. -/
theorem ovalutil.definitionBody_cris (root : oval.Root) (f : ovalutil.ProtoVulnFunc)
    (cris : List oval.Criterion) (s : State) (defn : oval.Definition) :
    ovalutil.definitionBody root f cris s defn = ovalutil.definitionBody root f [] s defn := by
  simp only [ovalutil.definitionBody, List.take_zero, List.take_nil]

/-- When the header of a metadata entry does not parse, and the headers of the metadata entries
before it do, the loop of `Scan` ends with the error of the header parser. -/
theorem python.scanLoop_error (ReadMIMEHeader : String → Except Error python.MIMEHeader)
    (e : python.Entry) (post : List python.Entry) (err : Error)
    (hmeta : e.isMetadata = true) (hfail : ReadMIMEHeader e.content = .error err) :
    ∀ (pre : List python.Entry) (ret : List Package),
      (∀ x ∈ pre, x.isMetadata = true → ∃ hdr, ReadMIMEHeader x.content = .ok hdr) →
      python.scanLoop ReadMIMEHeader (pre ++ e :: post) ret = .error err := by
  intro pre
  induction pre with
  | nil =>
    intro ret _
    have hm := hmeta
    simp only [python.Entry.isMetadata, decide_eq_true_eq] at hm
    obtain ⟨htype, hsuf⟩ := hm
    simp only [List.nil_append, python.scanLoop, python.RelToRoot_Join]
    rw [if_neg (not_not.mpr htype), if_pos hsuf]
    simp only [hfail]
  | cons entry rest ih =>
    intro ret hread
    have hrest : ∀ x ∈ rest, x.isMetadata = true → ∃ hdr, ReadMIMEHeader x.content = .ok hdr :=
      fun x hx => hread x (List.mem_cons_of_mem _ hx)
    simp only [List.cons_append, python.scanLoop, python.RelToRoot_Join]
    by_cases htype : entry.header.Typeflag ≠ python.TypeReg
    · rw [if_pos htype]
      exact ih ret hrest
    · rw [if_neg htype]
      have htype' : entry.header.Typeflag = python.TypeReg := not_not.mp htype
      by_cases hsuf : python.HasSuffix (python.normalise entry.header.Name)
            ".egg-info/PKG-INFO" = true ∨
          python.HasSuffix (python.normalise entry.header.Name) ".dist-info/METADATA" = true
      · have hm : entry.isMetadata = true := by
          simp only [python.Entry.isMetadata, htype', true_and, decide_eq_true_eq]
          exact hsuf
        obtain ⟨hdr, hhdr⟩ := hread entry (List.mem_cons_self _ _) hm
        rw [if_pos hsuf]
        simp only [hhdr]
        exact ih _ hrest
      · rw [if_neg hsuf]
        exact ih ret hrest

/-! ## The claims -/

/-- Counterexample to C1: in the example decoded document the test resolves and its two lists
have length 2; the pair at position 1 resolves to the object bash and to a state with an EVR,
so that one vulnerability is due for the test; the object reference at position 0 is found in
the dpkg family with the index 1, which the RPMInfo sub-collection of length 1 does not have,
and the criterion loop body panics at `root.Objects.RPMInfoObjects[objIndex]`: nothing is
emitted for position 1 either, and `RPMDefsToVulns` does not return. -/
theorem foreign_object_position_suppresses_its_neighbour :
    TestResolves mixedRoot (exampleCriterion "tst:1") mixedTest ∧
    mixedTest.ObjectRefs.length = mixedTest.StateRefs.length ∧
    mixedRoot.Objects.Lookup "obj:dpkg:2" = .ok ("dpkginfo_object", 1) ∧
    mixedRoot.Objects.RPMInfoObjects.length = 1 ∧
    PairResolves mixedRoot mixedTest 1 { ID := "obj:1", Name := "bash" }
      { ID := "ste:1", EVR := some { Body := "4.4.20-1.el7" } } ∧
    (List.range mixedTest.ObjectRefs.length).filterMap
        (pairEmission mixedRoot exampleProto mixedTest) =
      [ { proto := exampleProto, object := { ID := "obj:1", Name := "bash" },
          state := { ID := "ste:1", EVR := some { Body := "4.4.20-1.el7" } },
          evr := { Body := "4.4.20-1.el7" } } ] ∧
    ovalutil.criterionBody mixedRoot 0 exampleState (exampleCriterion "tst:1") = none ∧
    oracle.criterionBody mixedRoot 0 exampleState (exampleCriterion "tst:1") = none ∧
    ovalutil.RPMDefsToVulns { packages := [], vulnerabilities := [] } mixedRoot
      exampleStrategy = none :=
  ⟨⟨"rpminfo_test", 0, rfl, rfl⟩, rfl, rfl, rfl,
    ⟨⟨"obj:1"⟩, ⟨"ste:1"⟩, "rpminfo_object", 0, "rpminfo_state", 0, rfl, rfl, rfl, rfl, rfl,
      rfl⟩,
    rfl, rfl, rfl, rfl⟩

/-- C1, amended: in a document whose successful object and state lookups answer with an index
of the RPMInfo sub-collection, for a criterion whose Test resolves and whose object-reference
and state-reference lists have the same length, and a prototype that the strategy gave, the
criterion loop body (of `RPMDefsToVulns` and of the Oracle parser) returns and appends exactly
one vulnerability per position `i` below that length at which the pair resolves and the state
carries an EVR, in increasing order of `i`; each reads as the prototype with the package of the
object and the EVR text. A position that does not resolve contributes nothing and suppresses
no other position. -/
theorem criterion_emits_one_per_resolving_pair
    (root : oval.Root) (h0 : Heap) (s : State) (protoVuln : VulnPtr) (proto : Vulnerability)
    (criterion : oval.Criterion) (test : oval.RPMInfoTest)
    (hTest : TestResolves root criterion test)
    (hLen : test.ObjectRefs.length = test.StateRefs.length)
    (hObjects : root.Objects.InRange) (hStates : root.States.InRange)
    (hProto : s.heap.vulnerabilities[protoVuln]? = some proto)
    (hCache : CacheOK h0 s) :
    ∃ t new,
      ovalutil.criterionBody root protoVuln s criterion = some t ∧
      oracle.criterionBody root protoVuln s criterion = some t ∧
      t.vulns = s.vulns ++ new ∧
      new.map t.heap.load =
        ((List.range test.ObjectRefs.length).filterMap (pairEmission root proto test)).map
          (fun e => some e.record) ∧
      ∀ i e, pairEmission root proto test i = some e ↔
        (e.proto = proto ∧ PairResolves root test i e.object e.state ∧
          e.state.EVR = some e.evr) := by
  obtain ⟨kind, index, hl, ht⟩ := hTest
  obtain ⟨t, hrun, _⟩ := forEach_total (ovalutil.pairBody root protoVuln test)
    (fun s => s.heap.vulnerabilities[protoVuln]? = some proto)
    (fun i => i < test.ObjectRefs.length)
    (fun s i hs hi => by
      obtain ⟨t, ht⟩ := ovalutil.pairBody_total hObjects hStates hLen hi hs
      exact ⟨t, ht, (ovalutil.pairBody_step hs ht).keeps hs⟩)
    (List.range test.ObjectRefs.length) s hProto (fun i hi => List.mem_range.mp hi)
  have hstep := ovalutil.pairLoop_step hProto hrun
  have hbody : ovalutil.criterionBody root protoVuln s criterion = some t := by
    unfold ovalutil.criterionBody
    simp only [hl, ht]
    rw [if_neg (not_not.mpr hLen)]
    exact hrun
  obtain ⟨new, hnew, hall⟩ := hstep.out
  have hc := hstep.coherent h0 hCache
  refine ⟨t, new, hbody, hbody, hnew, ?_, fun i e => pairEmission_eq_some_iff⟩
  exact map_eq_of_forall₂ (fun ptr e h => h.load hc) hall

/-- Witness of the amended C1 on the example test with five pairs, of which the first and the
fourth emit. -/
theorem criterion_emits_one_per_resolving_pair_witness :
    ∃ t new,
      ovalutil.criterionBody exampleRoot 0 exampleState (exampleCriterion "tst:3") = some t ∧
      oracle.criterionBody exampleRoot 0 exampleState (exampleCriterion "tst:3") = some t ∧
      t.vulns = exampleState.vulns ++ new ∧
      new.map t.heap.load =
        [ some { Updater := "example", Name := "ELSA-A", Description := "first advisory",
                 Links := "", Severity := "IMPORTANT", Package := some { Name := "bash" },
                 Dist := none, FixedInVersion := "4.4.20-1.el7" },
          some { Updater := "example", Name := "ELSA-A", Description := "first advisory",
                 Links := "", Severity := "IMPORTANT", Package := some { Name := "zsh" },
                 Dist := none, FixedInVersion := "5.0-1.el7" } ] := by
  obtain ⟨t, new, h1, h2, h3, h4, _⟩ :=
    criterion_emits_one_per_resolving_pair exampleRoot exampleState.heap exampleState 0
      exampleProto (exampleCriterion "tst:3")
      { ID := "tst:3",
        ObjectRefs := [⟨"obj:1"⟩, ⟨"obj:9"⟩, ⟨"obj:2"⟩, ⟨"obj:2"⟩, ⟨"obj:1"⟩],
        StateRefs := [⟨"ste:1"⟩, ⟨"ste:1"⟩, ⟨"ste:2"⟩, ⟨"ste:3"⟩, ⟨"ste:9"⟩] }
      ⟨"rpminfo_test", 2, rfl, rfl⟩ (by decide)
      exampleRoot_inRange.2.1 exampleRoot_inRange.2.2 (by decide) exampleState_cacheOK
  refine ⟨t, new, h1, h2, h3, ?_⟩
  rw [h4]
  decide

/-- C2: a criterion whose Test has object-reference and state-reference lists of different
lengths leaves the state of the run as it is: nothing is emitted, allocated or cached for it,
so no pair of it is processed; and the criterion loop over the leaves of a definition gives the
same result with or without that criterion, so the other tests of the definition produce what
they produce without it. -/
theorem mismatched_test_is_skipped
    (root : oval.Root) (protoVuln : VulnPtr) (criterion : oval.Criterion)
    (test : oval.RPMInfoTest)
    (hTest : TestResolves root criterion test)
    (hLen : test.ObjectRefs.length ≠ test.StateRefs.length) :
    (∀ s, ovalutil.criterionBody root protoVuln s criterion = some s) ∧
    (∀ s, oracle.criterionBody root protoVuln s criterion = some s) ∧
    (∀ (before after : List oval.Criterion) (s : State),
      forEach (ovalutil.criterionBody root protoVuln) (before ++ criterion :: after) s =
        forEach (ovalutil.criterionBody root protoVuln) (before ++ after) s) ∧
    (∀ (before after : List oval.Criterion) (s : State),
      forEach (oracle.criterionBody root protoVuln) (before ++ criterion :: after) s =
        forEach (oracle.criterionBody root protoVuln) (before ++ after) s) := by
  obtain ⟨kind, index, hl, ht⟩ := hTest
  have hbody : ∀ s, ovalutil.criterionBody root protoVuln s criterion = some s := by
    intro s
    unfold ovalutil.criterionBody
    simp only [hl, ht]
    rw [if_pos hLen]
  exact ⟨hbody, hbody, fun before after s => forEach_skip _ _ hbody before after s,
    fun before after s => forEach_skip _ _ hbody before after s⟩

/-- Witness of C2: the test with 2 object references and 1 state reference is skipped, and the
definition that refers to it and to a well-formed sibling yields the one vulnerability of the
sibling (at address 1, after the prototype at address 0). -/
theorem mismatched_test_is_skipped_witness :
    ovalutil.criterionBody exampleRoot 0 exampleState (exampleCriterion "tst:2") =
      some exampleState ∧
    ovalutil.RPMDefsToVulns { packages := [], vulnerabilities := [] } exampleRootD
        exampleStrategy =
      some ({ packages := [{ Name := "bash" }],
              vulnerabilities :=
                [exampleProto,
                 { exampleProto with Package := some 0, FixedInVersion := "4.4.20-1.el7" }] },
            some [1], none) :=
  ⟨(mismatched_test_is_skipped exampleRoot 0 (exampleCriterion "tst:2")
      { ID := "tst:2", ObjectRefs := [⟨"obj:1"⟩, ⟨"obj:2"⟩], StateRefs := [⟨"ste:1"⟩] }
      ⟨"rpminfo_test", 1, rfl, rfl⟩ (by decide)).1 exampleState,
    by decide⟩

/-- C3: when the strategy returns an error for a definition, the definition loop body leaves
the state of the run as it is, whatever the criteria tree of the definition holds; and
`RPMDefsToVulns` returns for the document what it returns for the document without that
definition. -/
theorem strategy_error_skips_definition
    (protoVuln : ovalutil.ProtoVulnFunc) (defn : oval.Definition) (err : Error)
    (hErr : protoVuln defn = .error err) :
    (∀ (root : oval.Root) (cris : List oval.Criterion) (s : State),
      ovalutil.definitionBody root protoVuln cris s defn = some s) ∧
    (∀ (heap : Heap) (before after : List oval.Definition) (tests : oval.Tests)
        (objects : oval.Objects) (states : oval.States),
      ovalutil.RPMDefsToVulns heap
          { Definitions := { Definitions := before ++ defn :: after },
            Tests := tests, Objects := objects, States := states } protoVuln =
        ovalutil.RPMDefsToVulns heap
          { Definitions := { Definitions := before ++ after },
            Tests := tests, Objects := objects, States := states } protoVuln) := by
  have hbody : ∀ (root : oval.Root) (cris : List oval.Criterion) (s : State),
      ovalutil.definitionBody root protoVuln cris s defn = some s := by
    intro root cris s
    unfold ovalutil.definitionBody
    simp only [hErr]
  refine ⟨hbody, ?_⟩
  intro heap before after tests objects states
  have hroot : ovalutil.definitionBody
      { Definitions := { Definitions := before ++ defn :: after },
        Tests := tests, Objects := objects, States := states } protoVuln [] =
      ovalutil.definitionBody
      { Definitions := { Definitions := before ++ after },
        Tests := tests, Objects := objects, States := states } protoVuln [] := rfl
  unfold ovalutil.RPMDefsToVulns ovalutil.run
  simp only
  rw [hroot, forEach_skip _ defn (fun s => hbody _ _ s)]

/-- Witness of C3: the example strategy declines `def:B`, and the example document gives what
the document without `def:B` gives. -/
theorem strategy_error_skips_definition_witness :
    ovalutil.RPMDefsToVulns { packages := [], vulnerabilities := [] } exampleRoot
        exampleStrategyB =
      ovalutil.RPMDefsToVulns { packages := [], vulnerabilities := [] }
        { Definitions := { Definitions := [exampleDefinitionA, exampleDefinitionC] },
          Tests := exampleTests, Objects := exampleObjects, States := exampleStates }
        exampleStrategyB :=
  (strategy_error_skips_definition exampleStrategyB exampleDefinitionB
    (.new "not applicable") rfl).2 { packages := [], vulnerabilities := [] }
    [exampleDefinitionA] [exampleDefinitionC] exampleTests exampleObjects exampleStates

/-- C4: a pair that resolves to a state without EVR leaves the state of the run as it is, in
`RPMDefsToVulns` and in the Oracle parser; and every vulnerability in the output of either comes
from a pair that resolves to a state with an EVR, and its `FixedInVersion` is the text of that
EVR. -/
theorem no_evr_no_vulnerability :
    (∀ (root : oval.Root) (protoVuln : VulnPtr) (test : oval.RPMInfoTest) (s : State) (i : Nat)
        (object : oval.RPMInfoObject) (state : oval.RPMInfoState),
      PairResolves root test i object state → state.EVR = none →
        ovalutil.pairBody root protoVuln test s i = some s ∧
        oracle.pairBody root protoVuln test s i = some s) ∧
    (∀ (heap heap' : Heap) (root : oval.Root) (protoVuln : ovalutil.ProtoVulnFunc)
        (vulns : List VulnPtr) (err : Option Error),
      ovalutil.RPMDefsToVulns heap root protoVuln = some (heap', some vulns, err) →
      ∀ ptr ∈ vulns, ∃ (v : Vulnerability) (e : Emission) (defn : oval.Definition)
          (criterion : oval.Criterion) (test : oval.RPMInfoTest) (i : Nat),
        heap'.vulnerabilities[ptr]? = some v ∧
        e.From root protoVuln defn criterion test i ∧
        e.state.EVR = some e.evr ∧ v.FixedInVersion = e.evr.Body) ∧
    (∀ (u : oracle.Updater) (Links : oval.Definition → String)
        (decode : oracle.Reader → Except Error oval.Root) (r : oracle.Reader)
        (heap heap' : Heap) (root : oval.Root) (vulns : List VulnPtr) (err : Option Error),
      decode r = .ok root →
      oracle.Parse u Links decode heap r = some (heap', some vulns, err) →
      ∀ ptr ∈ vulns, ∃ (v : Vulnerability) (e : Emission) (defn : oval.Definition)
          (criterion : oval.Criterion) (test : oval.RPMInfoTest) (i : Nat),
        heap'.vulnerabilities[ptr]? = some v ∧
        e.From root (oracle.protoVuln u Links) defn criterion test i ∧
        e.state.EVR = some e.evr ∧ v.FixedInVersion = e.evr.Body) := by
  have hout : ∀ (heap heap' : Heap) (root : oval.Root) (protoVuln : ovalutil.ProtoVulnFunc)
      (vulns : List VulnPtr) (err : Option Error),
      ovalutil.RPMDefsToVulns heap root protoVuln = some (heap', some vulns, err) →
      ∀ ptr ∈ vulns, ∃ (v : Vulnerability) (e : Emission) (defn : oval.Definition)
          (criterion : oval.Criterion) (test : oval.RPMInfoTest) (i : Nat),
        heap'.vulnerabilities[ptr]? = some v ∧
        e.From root protoVuln defn criterion test i ∧
        e.state.EVR = some e.evr ∧ v.FixedInVersion = e.evr.Body := by
    intro heap heap' root protoVuln vulns err h ptr hptr
    obtain ⟨t, hheap, _, _, hall⟩ := ovalutil.RPMDefsToVulns_emits h
    obtain ⟨e, he, p, hv, _⟩ := forall₂_exists_of_mem hall hptr
    obtain ⟨defn, criterion, test, i, _, hfrom⟩ := emissions_from he
    exact ⟨_, e, defn, criterion, test, i, by rw [← hheap]; exact hv, hfrom, hfrom.2.2.2.2.2.2,
      rfl⟩
  refine ⟨?_, hout, ?_⟩
  · intro root protoVuln test s i object state hres hevr
    obtain ⟨o, st, ko, j, ks, k, ho, hst, hj, hk, hobj, hstate⟩ := hres
    have hbody : ovalutil.pairBody root protoVuln test s i = some s := by
      unfold ovalutil.pairBody
      simp only [ho, hst, hj, hk, hobj, hstate, hevr]
    exact ⟨hbody, hbody⟩
  · intro u Links decode r heap heap' root vulns err hd h
    rw [oracle.Parse_eq u Links decode heap r root hd] at h
    exact hout heap heap' root _ vulns err h

/-- Witness of C4: the third pair of the example test resolves to the state without EVR and
changes nothing; the one vulnerability of the example document `exampleRootD` comes from a pair
with an EVR. -/
theorem no_evr_no_vulnerability_witness :
    (ovalutil.pairBody exampleRoot 0 exampleTest3 exampleState 2 = some exampleState ∧
      oracle.pairBody exampleRoot 0 exampleTest3 exampleState 2 = some exampleState) ∧
    ∀ ptr ∈ [1], ∃ (v : Vulnerability) (e : Emission) (defn : oval.Definition)
        (criterion : oval.Criterion) (test : oval.RPMInfoTest) (i : Nat),
      exampleHeapD.vulnerabilities[ptr]? = some v ∧
      e.From exampleRootD exampleStrategy defn criterion test i ∧
      e.state.EVR = some e.evr ∧ v.FixedInVersion = e.evr.Body :=
  ⟨no_evr_no_vulnerability.1 exampleRoot 0 exampleTest3 exampleState 2
      { ID := "obj:2", Name := "zsh" } { ID := "ste:2", EVR := none }
      ⟨⟨"obj:2"⟩, ⟨"ste:2"⟩, "rpminfo_object", 1, "rpminfo_state", 1, rfl, rfl, rfl, rfl, rfl,
        rfl⟩ rfl,
    no_evr_no_vulnerability.2.1 { packages := [], vulnerabilities := [] } exampleHeapD
      exampleRootD exampleStrategy [1] none (by decide)⟩

/-- C5: within one returned call of `RPMDefsToVulns`, and of the Oracle parser, every emitted
vulnerability points to a package allocated during the call and named after its source object,
and two emitted vulnerabilities point to the same package instance exactly when their source
objects have the same name; and of two calls, the second started after the first has ended, no
vulnerability of the one points to the package instance of a vulnerability of the other. -/
theorem packages_shared_by_name_within_one_call :
    (∀ (heap heap' : Heap) (root : oval.Root) (protoVuln : ovalutil.ProtoVulnFunc)
        (vulns : List VulnPtr) (err : Option Error),
      ovalutil.RPMDefsToVulns heap root protoVuln = some (heap', some vulns, err) →
      SharesPackagesByName heap heap' vulns (emissions root protoVuln)) ∧
    (∀ (u : oracle.Updater) (Links : oval.Definition → String)
        (decode : oracle.Reader → Except Error oval.Root) (r : oracle.Reader)
        (heap heap' : Heap) (root : oval.Root) (vulns : List VulnPtr) (err : Option Error),
      decode r = .ok root →
      oracle.Parse u Links decode heap r = some (heap', some vulns, err) →
      SharesPackagesByName heap heap' vulns (emissions root (oracle.protoVuln u Links))) ∧
    (∀ (heap1 heap1' heap2 heap2' : Heap) (root1 root2 : oval.Root)
        (f1 f2 : ovalutil.ProtoVulnFunc) (vulns1 vulns2 : List VulnPtr)
        (err1 err2 : Option Error),
      ovalutil.RPMDefsToVulns heap1 root1 f1 = some (heap1', some vulns1, err1) →
      ovalutil.RPMDefsToVulns heap2 root2 f2 = some (heap2', some vulns2, err2) →
      heap1'.packages.length ≤ heap2.packages.length →
      ∀ a ∈ vulns1, ∀ b ∈ vulns2, ∀ va vb,
        heap1'.vulnerabilities[a]? = some va → heap2'.vulnerabilities[b]? = some vb →
        va.Package ≠ vb.Package) ∧
    (∀ (u : oracle.Updater) (Links : oval.Definition → String)
        (decode : oracle.Reader → Except Error oval.Root) (r1 r2 : oracle.Reader)
        (heap1 heap1' heap2 heap2' : Heap) (root1 root2 : oval.Root)
        (vulns1 vulns2 : List VulnPtr) (err1 err2 : Option Error),
      decode r1 = .ok root1 → decode r2 = .ok root2 →
      oracle.Parse u Links decode heap1 r1 = some (heap1', some vulns1, err1) →
      oracle.Parse u Links decode heap2 r2 = some (heap2', some vulns2, err2) →
      heap1'.packages.length ≤ heap2.packages.length →
      ∀ a ∈ vulns1, ∀ b ∈ vulns2, ∀ va vb,
        heap1'.vulnerabilities[a]? = some va → heap2'.vulnerabilities[b]? = some vb →
        va.Package ≠ vb.Package) := by
  refine ⟨?_, ?_, ?_, ?_⟩
  · intro heap heap' root protoVuln vulns err h
    exact ovalutil.RPMDefsToVulns_shares h
  · intro u Links decode r heap heap' root vulns err hd h
    rw [oracle.Parse_eq u Links decode heap r root hd] at h
    exact ovalutil.RPMDefsToVulns_shares h
  · intro heap1 heap1' heap2 heap2' root1 root2 f1 f2 vulns1 vulns2 err1 err2 h1 h2 hle
    exact (ovalutil.RPMDefsToVulns_shares h1).disjoint (ovalutil.RPMDefsToVulns_shares h2) hle
  · intro u Links decode r1 r2 heap1 heap1' heap2 heap2' root1 root2 vulns1 vulns2 err1 err2
      hd1 hd2 h1 h2 hle
    rw [oracle.Parse_eq u Links decode heap1 r1 root1 hd1] at h1
    rw [oracle.Parse_eq u Links decode heap2 r2 root2 hd2] at h2
    exact (ovalutil.RPMDefsToVulns_shares h1).disjoint (ovalutil.RPMDefsToVulns_shares h2) hle

/-- Witness of C5 on the example document: the four emitted vulnerabilities, at addresses 1,
2, 3 and 5, point to the packages 0 (bash), 0, 1 (zsh) and 0. -/
theorem packages_shared_by_name_within_one_call_witness :
    SharesPackagesByName { packages := [], vulnerabilities := [] } exampleHeapB [1, 2, 3, 5]
        (emissions exampleRoot exampleStrategyB) ∧
      [1, 2, 3, 5].map (fun ptr => (exampleHeapB.vulnerabilities[ptr]?).map (·.Package)) =
        [some (some 0), some (some 0), some (some 1), some (some 0)] :=
  ⟨packages_shared_by_name_within_one_call.1 { packages := [], vulnerabilities := [] }
      exampleHeapB exampleRoot exampleStrategyB [1, 2, 3, 5] none (by decide),
    by decide⟩

/-- C6: for every criteria tree, `walkCriterion` (either copy) returns the slice it was given
followed by the Criterion leaves of the tree, each occurrence once: the appended entries are as
many as the leaves at all nesting levels, a criterion is among them exactly when it is a leaf
of the tree at some level, and they are a rearrangement of the list of the leaves. -/
theorem walkCriterion_appends_the_leaves (node : oval.Criteria) (cris : List oval.Criterion) :
    ∃ new,
      ovalutil.walkCriterion node cris = cris ++ new ∧
      oracle.walkCriterion node cris = cris ++ new ∧
      new.length = node.leafCount ∧
      (∀ x, x ∈ new ↔ node.HasLeaf x) ∧
      new.Perm node.leaves := by
  have hperm := ovalutil.walkCriterion_perm node
  refine ⟨ovalutil.walkCriterion node [], ovalutil.walkCriterion_append node cris, ?_, ?_, ?_,
    hperm⟩
  · rw [oracle.walkCriterion_eq]
    exact ovalutil.walkCriterion_append node cris
  · rw [hperm.length_eq, oval.Criteria.length_leaves]
  · intro x
    rw [hperm.mem_iff]
    exact ⟨oval.Criteria.hasLeaf_of_mem_leaves node x, oval.Criteria.mem_leaves_of_hasLeaf⟩

/-- Counterexample to C7: the stream decodes to the example document whose RPMInfo test pairs
the object bash with the second state of the dpkg family; the state lookup succeeds with the
index 1, the RPMInfo sub-collection holds one state, and the Oracle `Parse` panics at
`root.States.RPMInfoStates[stateIndex]`: decoding succeeded and `Parse` returns neither a
sequence nor an error. -/
theorem decoded_document_with_foreign_state_aborts_parse :
    (∃ root, (fun _ => Except.ok foreignStateRoot : oracle.Reader → Except Error oval.Root)
      [60] = .ok root) ∧
    foreignStateRoot.Objects.Lookup "obj:1" = .ok ("rpminfo_object", 0) ∧
    foreignStateRoot.States.Lookup "ste:dpkg:2" = .ok ("dpkginfo_state", 1) ∧
    foreignStateRoot.States.RPMInfoStates.length = 1 ∧
    oracle.Parse exampleUpdater exampleLinks (fun _ => .ok foreignStateRoot)
      { packages := [], vulnerabilities := [] } [60] = none ∧
    ¬ ∃ (heap' : Heap) (vulns : List VulnPtr),
      oracle.Parse exampleUpdater exampleLinks (fun _ => .ok foreignStateRoot)
        { packages := [], vulnerabilities := [] } [60] = some (heap', some vulns, none) := by
  refine ⟨⟨foreignStateRoot, rfl⟩, rfl, rfl, rfl, rfl, ?_⟩
  rintro ⟨heap', vulns, h⟩
  have hnone : oracle.Parse exampleUpdater exampleLinks (fun _ => .ok foreignStateRoot)
      { packages := [], vulnerabilities := [] } [60] = none := rfl
  rw [hnone] at h
  exact Option.noConfusion h

/-- C7, amended: when decoding the stream fails, the Oracle `Parse` returns a nil sequence and
an error that wraps the error of the decoder, and leaves the heap as it is; when decoding
succeeds and the successful lookups of the decoded document answer with an index of the
RPMInfo sub-collection, `Parse` returns a non-nil sequence and a nil error; whatever `Parse`
returns is either the first, on a decode failure, or the second, on a decode success, so that
no call returns both a sequence and an error. -/
theorem parse_fails_exactly_on_decode_failure
    (u : oracle.Updater) (Links : oval.Definition → String)
    (decode : oracle.Reader → Except Error oval.Root) (heap : Heap) (r : oracle.Reader) :
    (∀ cause, decode r = .error cause →
      ∃ e, oracle.Parse u Links decode heap r = some (heap, none, some e) ∧
        e.unwrap = some cause) ∧
    (∀ root, decode r = .ok root → root.InRange →
      ∃ heap' vulns, oracle.Parse u Links decode heap r = some (heap', some vulns, none)) ∧
    (∀ heap' vulns err, oracle.Parse u Links decode heap r = some (heap', vulns, err) →
      (vulns = none ∧ ∃ e cause, err = some e ∧ decode r = .error cause ∧
          e.unwrap = some cause) ∨
      (err = none ∧ ∃ list root, vulns = some list ∧ decode r = .ok root)) := by
  refine ⟨?_, ?_, ?_⟩
  · intro cause hd
    exact ⟨.wrap "oracle: unable to decode OVAL document: " cause,
      by simp only [oracle.Parse, hd], rfl⟩
  · intro root hd hR
    rw [oracle.Parse_eq u Links decode heap r root hd]
    exact ovalutil.RPMDefsToVulns_total heap _ hR
  · intro heap' vulns err h
    cases hd : decode r with
    | error cause =>
      simp only [oracle.Parse, hd, Option.some.injEq, Prod.mk.injEq] at h
      obtain ⟨_, hv, he⟩ := h
      exact Or.inl ⟨hv.symm, _, cause, he.symm, rfl, rfl⟩
    | ok root =>
      rw [oracle.Parse_eq u Links decode heap r root hd] at h
      obtain ⟨t, _, _, hv, he⟩ := ovalutil.RPMDefsToVulns_eq_some h
      exact Or.inr ⟨he, t.vulns, root, hv, rfl⟩

/-- Witness of the amended C7: the example decoder fails on the empty stream, where `Parse`
returns the wrapped error, and decodes the stream `<` to the example document, whose lookups
are in range, where `Parse` returns a sequence and no error. -/
theorem parse_fails_exactly_on_decode_failure_witness :
    (∃ e, oracle.Parse exampleUpdater exampleLinks exampleDecode
          { packages := [], vulnerabilities := [] } [] =
        some ({ packages := [], vulnerabilities := [] }, none, some e) ∧
      e.unwrap = some (.new "EOF")) ∧
    (∃ heap' vulns, oracle.Parse exampleUpdater exampleLinks exampleDecode
          { packages := [], vulnerabilities := [] } [60] =
        some (heap', some vulns, none)) :=
  ⟨(parse_fails_exactly_on_decode_failure exampleUpdater exampleLinks exampleDecode
      { packages := [], vulnerabilities := [] } []).1 (.new "EOF") rfl,
    (parse_fails_exactly_on_decode_failure exampleUpdater exampleLinks exampleDecode
      { packages := [], vulnerabilities := [] } [60]).2.1 exampleRoot rfl exampleRoot_inRange⟩

/-- C8: in the Oracle parser, when the platform strings of a definition, in document order,
are `before ++ platform :: after` where no string of `before` is a key of `platformToDist` and
`platform` is one, the search binds the table entry of `platform`, whatever the strings of
`after` map to; the vulnerabilities that the definition loop body appends are, one by one and
in order, those of the emissions of the definition, and each has that entry as `Dist`; and in
a returned `Parse` on a document that holds the definition, the vulnerabilities emitted for
the definition are a stretch of the output, one per emission of the definition, each reading
as the record of the definition with that entry as `Dist`. -/
theorem dist_is_the_first_matching_platform
    (u : oracle.Updater) (Links : oval.Definition → String) (defn : oval.Definition)
    (before after : List String) (platform : String) (dist : Distribution)
    (hPlatforms : defn.platforms = before ++ platform :: after)
    (hBefore : ∀ p ∈ before, oracle.platformToDist.lookup p = none)
    (hHit : oracle.platformToDist.lookup platform = some dist) :
    oracle.DistSearch defn.Affecteds = some dist ∧
    (∀ (root : oval.Root) (s t : State),
      oracle.definitionBody u Links root s defn = some t →
      ∃ new, t.vulns = s.vulns ++ new ∧
        List.Forall₂ (fun ptr e =>
            ∃ p, t.heap.vulnerabilities[ptr]? =
              some { Updater := u.Name,
                     Name := defn.Title,
                     Description := defn.Description,
                     Links := Links defn,
                     Severity := defn.Advisory.Severity,
                     Package := some p,
                     Dist := some dist,
                     FixedInVersion := e.evr.Body })
          new (definitionEmissions root (oracle.protoVuln u Links) defn)) ∧
    (∀ (decode : oracle.Reader → Except Error oval.Root) (heap heap' : Heap)
        (r : oracle.Reader) (root : oval.Root) (dbefore dafter : List oval.Definition)
        (vulns : List VulnPtr) (err : Option Error),
      decode r = .ok root →
      root.Definitions.Definitions = dbefore ++ defn :: dafter →
      oracle.Parse u Links decode heap r = some (heap', some vulns, err) →
      ∃ pre new post,
        vulns = pre ++ new ++ post ∧
        List.Forall₂ (fun ptr e =>
            (∃ criterion test i,
              e.From root (oracle.protoVuln u Links) defn criterion test i) ∧
            heap'.load ptr =
              some { Updater := u.Name,
                     Name := defn.Title,
                     Description := defn.Description,
                     Links := Links defn,
                     Severity := defn.Advisory.Severity,
                     Package := some { Name := e.object.Name },
                     Dist := some dist,
                     FixedInVersion := e.evr.Body })
          new (definitionEmissions root (oracle.protoVuln u Links) defn)) := by
  have hsearch : oracle.DistSearch defn.Affecteds = some dist := by
    rw [oracle.DistSearch_eq]
    have := oracle.searchPlatforms_first before after hBefore hHit
    rw [← hPlatforms] at this
    exact this
  have hf : oracle.protoVuln u Links defn =
      .ok { Updater := u.Name,
            Name := defn.Title,
            Description := defn.Description,
            Links := Links defn,
            Severity := defn.Advisory.Severity,
            Package := none,
            Dist := some dist,
            FixedInVersion := "" } := by
    simp only [oracle.protoVuln, hsearch]
  refine ⟨hsearch, ?_, ?_⟩
  · intro root s t hBody
    rw [oracle.definitionBody_eq u Links root [] s defn] at hBody
    obtain ⟨_, new, hnew, _, _, hall⟩ := ovalutil.definitionBody_ok hf hBody
    refine ⟨new, hnew, (forall₂_and_mem hall).imp ?_⟩
    rintro ptr e ⟨⟨p, hv, _⟩, _, he⟩
    have hp := definitionEmissions_proto he
    rw [hf] at hp
    simp only [Except.ok.injEq] at hp
    refine ⟨p, ?_⟩
    rw [hv, ← hp]
  · intro decode heap heap' r root dbefore dafter vulns err hd hdefs h
    rw [oracle.Parse_eq u Links decode heap r root hd] at h
    obtain ⟨t, hrun, hheap, hvulns, _⟩ := ovalutil.RPMDefsToVulns_eq_some h
    simp only [Option.some.injEq] at hvulns
    subst hheap hvulns
    obtain ⟨s1, s2, h1, h2, h3⟩ := ovalutil.run_split hdefs hrun
    have st1 := ovalutil.definitionLoop_step dbefore h1
    have st3 := ovalutil.definitionLoop_step dafter h3
    have st2 := ovalutil.definitionBody_step h2
    obtain ⟨_, new, hnew, _, _, hall⟩ := ovalutil.definitionBody_ok hf h2
    obtain ⟨pre, hpre, _⟩ := st1.out
    obtain ⟨post, hpost, _⟩ := st3.out
    simp only [List.nil_append] at hpre
    have hc : CacheOK heap t :=
      st3.coherent heap (st2.coherent heap (st1.coherent heap
        ⟨Nat.le_refl _, fun _ _ hl => by simp at hl⟩))
    have hmem : defn ∈ root.Definitions.Definitions := by
      rw [hdefs]
      exact List.mem_append_right _ (List.mem_cons_self _ _)
    refine ⟨pre, new, post, ?_, ?_⟩
    · rw [hpost, hnew, hpre]
    · refine (forall₂_and_mem hall).imp ?_
      rintro ptr e ⟨hemit, _, he⟩
      obtain ⟨criterion, test, i, _, hfrom⟩ := definitionEmissions_from hmem he
      have hp := definitionEmissions_proto he
      rw [hf] at hp
      simp only [Except.ok.injEq] at hp
      refine ⟨⟨criterion, test, i, hfrom⟩, ?_⟩
      rw [(hemit.mono st3.vulnerabilities st3.cache).load hc, Emission.record, ← hp]

/-- Witness of C8: the example definition `def:C` lists an unknown platform, then Oracle
Linux 8, then Oracle Linux 6, which maps to another distribution; it has one emission, the
body appends one vulnerability with the Oracle Linux 8 distribution, and in the `Parse` of the
example document, which returns four vulnerabilities, the one emitted for `def:C` is a stretch
of the output and reads with the Oracle Linux 8 distribution. -/
theorem dist_is_the_first_matching_platform_witness :
    oracle.platformToDist.lookup "Oracle Linux 6" = some oracle.sixDist ∧
    oracle.sixDist ≠ oracle.eightDist ∧
    definitionEmissions exampleRoot (oracle.protoVuln exampleUpdater exampleLinks)
        exampleDefinitionC =
      [ { proto := exampleProtoC, object := { ID := "obj:1", Name := "bash" },
          state := { ID := "ste:1", EVR := some { Body := "4.4.20-1.el7" } },
          evr := { Body := "4.4.20-1.el7" } } ] ∧
    oracle.definitionBody exampleUpdater exampleLinks exampleRoot
        { heap := { packages := [], vulnerabilities := [] }, pkgcache := [], vulns := [] }
        exampleDefinitionC = some exampleStateC ∧
    ∃ heap', oracle.Parse exampleUpdater exampleLinks exampleDecode
        { packages := [], vulnerabilities := [] } [60] = some (heap', some [1, 2, 3, 5], none) ∧
      ∃ pre new post,
        [1, 2, 3, 5] = pre ++ new ++ post ∧
        List.Forall₂ (fun ptr e =>
            (∃ criterion test i,
              e.From exampleRoot (oracle.protoVuln exampleUpdater exampleLinks)
                exampleDefinitionC criterion test i) ∧
            heap'.load ptr =
              some { Updater := "oracle-2020-updater",
                     Name := "ELSA-C",
                     Description := "third advisory",
                     Links := "",
                     Severity := "MODERATE",
                     Package := some { Name := e.object.Name },
                     Dist := some oracle.eightDist,
                     FixedInVersion := e.evr.Body })
          new (definitionEmissions exampleRoot (oracle.protoVuln exampleUpdater exampleLinks)
            exampleDefinitionC) := by
  have hret : ∃ heap', oracle.Parse exampleUpdater exampleLinks exampleDecode
      { packages := [], vulnerabilities := [] } [60] = some (heap', some [1, 2, 3, 5], none) :=
    ⟨_, rfl⟩
  obtain ⟨heap', h⟩ := hret
  exact ⟨by decide, by decide, rfl, rfl, heap', h,
    (dist_is_the_first_matching_platform exampleUpdater exampleLinks exampleDefinitionC
      ["Fedora 31"] ["Oracle Linux 6"] "Oracle Linux 8" oracle.eightDist (by decide)
      (by decide) (by decide)).2.2 exampleDecode { packages := [], vulnerabilities := [] }
      heap' [60] exampleRoot [exampleDefinitionA, exampleDefinitionB] [] [1, 2, 3, 5] none
      rfl rfl h⟩

/-- C9: in the Oracle parser, when no platform string of a definition is a key of
`platformToDist` (in particular when it has none), the definition loop body leaves the state of
the run as it is and the definition has no emission; `Parse` on a document that holds only that
definition returns the empty non-nil sequence and a nil error; on any decoded document, `Parse`
gives with the definition what it gives without it; and whatever `Parse` returns on a decoded
document that holds the definition is a non-nil sequence with a nil error. -/
theorem unknown_platform_skips_definition
    (u : oracle.Updater) (Links : oval.Definition → String) (defn : oval.Definition)
    (hNone : ∀ p ∈ defn.platforms, oracle.platformToDist.lookup p = none) :
    (∀ (root : oval.Root) (s : State), oracle.definitionBody u Links root s defn = some s) ∧
    (∀ (root : oval.Root), definitionEmissions root (oracle.protoVuln u Links) defn = []) ∧
    (∀ (decode : oracle.Reader → Except Error oval.Root) (heap : Heap) (r : oracle.Reader)
        (root : oval.Root),
      decode r = .ok root → root.Definitions.Definitions = [defn] →
      oracle.Parse u Links decode heap r = some (heap, some [], none)) ∧
    (∀ (decode1 decode2 : oracle.Reader → Except Error oval.Root) (heap : Heap)
        (r1 r2 : oracle.Reader) (before after : List oval.Definition) (tests : oval.Tests)
        (objects : oval.Objects) (states : oval.States),
      decode1 r1 = .ok { Definitions := { Definitions := before ++ defn :: after },
                         Tests := tests, Objects := objects, States := states } →
      decode2 r2 = .ok { Definitions := { Definitions := before ++ after },
                         Tests := tests, Objects := objects, States := states } →
      oracle.Parse u Links decode1 heap r1 = oracle.Parse u Links decode2 heap r2) ∧
    (∀ (decode : oracle.Reader → Except Error oval.Root) (heap heap' : Heap)
        (r : oracle.Reader) (root : oval.Root) (vulns : Option (List VulnPtr))
        (err : Option Error),
      decode r = .ok root → defn ∈ root.Definitions.Definitions →
      oracle.Parse u Links decode heap r = some (heap', vulns, err) →
      err = none ∧ ∃ list, vulns = some list) := by
  have hsearch : oracle.DistSearch defn.Affecteds = none := by
    rw [oracle.DistSearch_eq]
    exact oracle.searchPlatforms_none hNone
  have hbody : ∀ (root : oval.Root) (s : State),
      oracle.definitionBody u Links root s defn = some s := by
    intro root s
    simp only [oracle.definitionBody, hsearch]
  refine ⟨hbody, ?_, ?_, ?_, ?_⟩
  · intro root
    simp only [definitionEmissions, oracle.protoVuln, hsearch]
  · intro decode heap r root hd hdefs
    simp only [oracle.Parse, hd, hdefs, forEach, hbody]
  · intro decode1 decode2 heap r1 r2 before after tests objects states hd1 hd2
    have hroot : oracle.definitionBody u Links
        { Definitions := { Definitions := before ++ defn :: after },
          Tests := tests, Objects := objects, States := states } =
        oracle.definitionBody u Links
        { Definitions := { Definitions := before ++ after },
          Tests := tests, Objects := objects, States := states } := rfl
    unfold oracle.Parse
    simp only [hd1, hd2]
    rw [hroot, forEach_skip _ defn (fun s => hbody _ s)]
  · intro decode heap heap' r root vulns err hd _ h
    rw [oracle.Parse_eq u Links decode heap r root hd] at h
    obtain ⟨t, _, _, hv, he⟩ := ovalutil.RPMDefsToVulns_eq_some h
    exact ⟨he, t.vulns, hv⟩

/-- Witness of C9: the only platform of the example definition `def:B` is not an Oracle one;
the body changes nothing, and `Parse` on the example document, which holds `def:B` between two
Oracle definitions, gives what it gives on the document without `def:B`: the four
vulnerabilities of the two other definitions and a nil error. -/
theorem unknown_platform_skips_definition_witness :
    oracle.definitionBody exampleUpdater exampleLinks exampleRoot exampleState
        exampleDefinitionB = some exampleState ∧
    oracle.Parse exampleUpdater exampleLinks exampleDecode
        { packages := [], vulnerabilities := [] } [60] =
      oracle.Parse exampleUpdater exampleLinks
        (fun _ => .ok { Definitions := { Definitions := [exampleDefinitionA, exampleDefinitionC] },
                        Tests := exampleTests, Objects := exampleObjects,
                        States := exampleStates })
        { packages := [], vulnerabilities := [] } [60] ∧
    (oracle.Parse exampleUpdater exampleLinks exampleDecode
        { packages := [], vulnerabilities := [] } [60]).map (fun res => res.2) =
      some (some [1, 2, 3, 5], none) :=
  ⟨(unknown_platform_skips_definition exampleUpdater exampleLinks exampleDefinitionB
      (by decide)).1 exampleRoot exampleState,
    (unknown_platform_skips_definition exampleUpdater exampleLinks exampleDefinitionB
      (by decide)).2.2.2.1 exampleDecode _ { packages := [], vulnerabilities := [] } [60] [60]
      [exampleDefinitionA] [exampleDefinitionC] exampleTests exampleObjects exampleStates
      rfl rfl,
    rfl⟩

/-- C10: for a decoded document with one definition whose only platform string is
"Oracle Linux 7" and whose criteria hold one leaf, which resolves to a test with one pair, which
resolves to an object named "bash" and to a state with the EVR "4.4.20-1.el7", the Oracle `Parse`
returns exactly one vulnerability and a nil error; the vulnerability has the package named
"bash", the fixed-in version "4.4.20-1.el7", the Oracle Linux 7 distribution, and the
metadata of the definition. -/
theorem oracle_linux_7_bash_scenario
    (u : oracle.Updater) (Links : oval.Definition → String)
    (decode : oracle.Reader → Except Error oval.Root) (heap : Heap) (r : oracle.Reader)
    (root : oval.Root) (defn : oval.Definition) (criterion : oval.Criterion)
    (test : oval.RPMInfoTest) (object : oval.RPMInfoObject) (state : oval.RPMInfoState)
    (hDecode : decode r = .ok root)
    (hDefs : root.Definitions.Definitions = [defn])
    (hPlatform : defn.platforms = ["Oracle Linux 7"])
    (hCriteria : defn.Criteria.leaves = [criterion])
    (hTest : TestResolves root criterion test)
    (hObjects : test.ObjectRefs.length = 1) (hStates : test.StateRefs.length = 1)
    (hPair : PairResolves root test 0 object state)
    (hName : object.Name = "bash")
    (hEVR : state.EVR = some { Body := "4.4.20-1.el7" }) :
    ∃ heap' ptr,
      oracle.Parse u Links decode heap r = some (heap', some [ptr], none) ∧
      heap'.load ptr =
        some { Updater := u.Name,
               Name := defn.Title,
               Description := defn.Description,
               Links := Links defn,
               Severity := defn.Advisory.Severity,
               Package := some { Name := "bash" },
               Dist := some oracle.sevenDist,
               FixedInVersion := "4.4.20-1.el7" } := by
  have hsearch : oracle.DistSearch defn.Affecteds = some oracle.sevenDist := by
    rw [oracle.DistSearch_eq]
    have hp : defn.Affecteds.flatMap (fun affected => affected.Platforms) =
        ["Oracle Linux 7"] := hPlatform
    rw [hp]
    decide
  have hwalk : oracle.walkCriterion defn.Criteria [] = [criterion] := by
    rw [oracle.walkCriterion_eq]
    have := ovalutil.walkCriterion_perm defn.Criteria
    rw [hCriteria] at this
    exact List.perm_singleton.mp this
  obtain ⟨kind, index, hl, ht⟩ := hTest
  obtain ⟨o, st, ko, j, ks, k, ho, hst, hj, hk, hobj, hstate⟩ := hPair
  have hlen : ¬ test.ObjectRefs.length ≠ test.StateRefs.length := by
    rw [hObjects, hStates]
    exact not_not.mpr rfl
  refine ⟨{ packages := heap.packages ++ [{ Name := object.Name }],
             vulnerabilities := heap.vulnerabilities ++
               [{ Updater := u.Name, Name := defn.Title, Description := defn.Description,
                  Links := Links defn, Severity := defn.Advisory.Severity, Package := none,
                  Dist := some oracle.sevenDist, FixedInVersion := "" }] ++
               [{ Updater := u.Name, Name := defn.Title, Description := defn.Description,
                  Links := Links defn, Severity := defn.Advisory.Severity,
                  Package := some heap.packages.length,
                  Dist := some oracle.sevenDist, FixedInVersion := "4.4.20-1.el7" }] },
    heap.vulnerabilities.length + 1, ?_, ?_⟩
  · simp only [oracle.Parse, hDecode, hDefs, forEach, oracle.definitionBody, hsearch, hwalk,
      oracle.criterionBody, hl, ht]
    rw [if_neg hlen, hObjects]
    simp only [List.range_succ, List.range_zero, List.nil_append, forEach, oracle.pairBody, ho,
      hst, hj, hk, hobj, hstate, hEVR, Heap.newVulnerability, Heap.newPackage,
      List.getElem?_concat_length, List.lookup, List.length_append, List.length_singleton]
  · have hv : ∀ (l : List Vulnerability) (a b : Vulnerability),
        (l ++ [a] ++ [b])[l.length + 1]? = some b := by
      intro l a b
      have := List.getElem?_concat_length (l ++ [a]) b
      simpa using this
    simp only [Heap.load, hv, List.getElem?_concat_length, hName]

/-- Witness of C10 on the document of the bash scenario, parsed from the empty heap. -/
theorem oracle_linux_7_bash_scenario_witness :
    ∃ heap' ptr,
      oracle.Parse exampleUpdater exampleLinks (fun _ => .ok bashRoot)
        { packages := [], vulnerabilities := [] } [60] = some (heap', some [ptr], none) ∧
      heap'.load ptr =
        some { Updater := "oracle-2020-updater",
               Name := "ELSA-2020-1234: bash security update",
               Description := "bash update",
               Links := "",
               Severity := "IMPORTANT",
               Package := some { Name := "bash" },
               Dist := some oracle.sevenDist,
               FixedInVersion := "4.4.20-1.el7" } :=
  oracle_linux_7_bash_scenario exampleUpdater exampleLinks (fun _ => .ok bashRoot)
    { packages := [], vulnerabilities := [] } [60] bashRoot bashDefinition
    (exampleCriterion "oval:com.oracle.elsa:tst:20201234001") bashTest bashObject bashState
    rfl rfl (by decide) (by decide) ⟨"rpminfo_test", 0, rfl, rfl⟩ rfl rfl
    ⟨⟨"oval:com.oracle.elsa:obj:20201234001"⟩, ⟨"oval:com.oracle.elsa:ste:20201234001"⟩,
      "rpminfo_object", 0, "rpminfo_state", 0, rfl, rfl, rfl, rfl, rfl, rfl⟩ rfl rfl

/-- C11: in a returned call of `RPMDefsToVulns`, for a definition the strategy accepts with the
prototype `proto`, the vulnerabilities emitted for the definition are a stretch of the output,
one per emission of the definition in order; each sits at an address other than the one of the
prototype, equals the prototype in every field other than `Package` and `FixedInVersion`,
points to a package that has the name of the resolved object, and has the EVR text of the
resolved state as `FixedInVersion`; and after the call the prototype cell still holds the
record the strategy returned. Two vulnerabilities of one definition can have different
`FixedInVersion` values: the example document with the definition `def:A` alone has two. -/
theorem emitted_vulnerability_is_a_copy_of_the_prototype :
    (∀ (heap heap' : Heap) (root : oval.Root) (protoVuln : ovalutil.ProtoVulnFunc)
        (before after : List oval.Definition) (defn : oval.Definition) (proto : Vulnerability)
        (vulns : List VulnPtr) (err : Option Error),
      root.Definitions.Definitions = before ++ defn :: after →
      protoVuln defn = .ok proto →
      ovalutil.RPMDefsToVulns heap root protoVuln = some (heap', some vulns, err) →
      ∃ protoPtr pre new post,
        vulns = pre ++ new ++ post ∧
        heap'.vulnerabilities[protoPtr]? = some proto ∧
        List.Forall₂ (fun ptr e =>
            ptr ≠ protoPtr ∧
            (∃ criterion test i, e.From root protoVuln defn criterion test i) ∧
            ∃ p, heap'.vulnerabilities[ptr]? =
                some { Updater := proto.Updater,
                       Name := proto.Name,
                       Description := proto.Description,
                       Links := proto.Links,
                       Severity := proto.Severity,
                       Package := some p,
                       Dist := proto.Dist,
                       FixedInVersion := e.evr.Body } ∧
              heap'.packages[p]? = some { Name := e.object.Name })
          new (definitionEmissions root protoVuln defn)) ∧
    (∃ a ∈ [1, 2, 3], ∃ b ∈ [1, 2, 3], ∃ va vb,
      ovalutil.RPMDefsToVulns { packages := [], vulnerabilities := [] } exampleRootA
        exampleStrategy = some (exampleHeapA, some [1, 2, 3], none) ∧
      exampleHeapA.vulnerabilities[a]? = some va ∧
      exampleHeapA.vulnerabilities[b]? = some vb ∧
      va.FixedInVersion ≠ vb.FixedInVersion) := by
  constructor
  · intro heap heap' root f before after defn proto vulns err hdefs hf h
    obtain ⟨t, hrun, hheap, hvulns, _⟩ := ovalutil.RPMDefsToVulns_eq_some h
    simp only [Option.some.injEq] at hvulns
    subst hheap hvulns
    obtain ⟨s1, s2, h1, h2, h3⟩ := ovalutil.run_split hdefs hrun
    have st1 := ovalutil.definitionLoop_step before h1
    have st3 := ovalutil.definitionLoop_step after h3
    have st2 := ovalutil.definitionBody_step h2
    obtain ⟨hproto, new, hnew, _, hbound, hall⟩ := ovalutil.definitionBody_ok hf h2
    obtain ⟨pre, hpre, _⟩ := st1.out
    obtain ⟨post, hpost, _⟩ := st3.out
    simp only [List.nil_append] at hpre
    have hc : CacheOK heap t :=
      st3.coherent heap (st2.coherent heap (st1.coherent heap
        ⟨Nat.le_refl _, fun _ _ hl => by simp at hl⟩))
    have hmem : defn ∈ root.Definitions.Definitions := by
      rw [hdefs]
      exact List.mem_append_right _ (List.mem_cons_self _ _)
    refine ⟨s1.heap.vulnerabilities.length, pre, new, post, ?_, st3.keeps hproto, ?_⟩
    · rw [hpost, hnew, hpre]
    · refine (forall₂_and_mem hall).imp ?_
      rintro ptr e ⟨hemit, hptr, he⟩
      have hlt := (hbound ptr hptr).1
      obtain ⟨criterion, test, i, _, hfrom⟩ := definitionEmissions_from hmem he
      have hp : e.proto = proto := by
        have := definitionEmissions_proto he
        rw [hf] at this
        simpa using this.symm
      obtain ⟨p, hv, hl⟩ := hemit.mono st3.vulnerabilities st3.cache
      refine ⟨Nat.ne_of_gt hlt, ⟨criterion, test, i, hfrom⟩, p, ?_, (hc.2 _ _ hl).1⟩
      rw [hv, hp]
  · exact ⟨1, by decide, 3, by decide, _, _, by decide, rfl, rfl, by decide⟩

/-- Witness of C11 on the example document under the strategy that declines `def:B`: the
vulnerability emitted for `def:C`, at address 5, is a copy of the prototype at address 4. -/
theorem emitted_vulnerability_is_a_copy_of_the_prototype_witness :
    ∃ protoPtr pre new post,
      [1, 2, 3, 5] = pre ++ new ++ post ∧
      exampleHeapB.vulnerabilities[protoPtr]? = some { exampleProto with Name := "ELSA-C" } ∧
      List.Forall₂ (fun ptr e =>
          ptr ≠ protoPtr ∧
          (∃ criterion test i,
            e.From exampleRoot exampleStrategyB exampleDefinitionC criterion test i) ∧
          ∃ p, exampleHeapB.vulnerabilities[ptr]? =
              some { Updater := "example",
                     Name := "ELSA-C",
                     Description := "first advisory",
                     Links := "",
                     Severity := "IMPORTANT",
                     Package := some p,
                     Dist := none,
                     FixedInVersion := e.evr.Body } ∧
            exampleHeapB.packages[p]? = some { Name := e.object.Name })
        new (definitionEmissions exampleRoot exampleStrategyB exampleDefinitionC) :=
  emitted_vulnerability_is_a_copy_of_the_prototype.1
    { packages := [], vulnerabilities := [] } exampleHeapB exampleRoot exampleStrategyB
    [exampleDefinitionA, exampleDefinitionB] [] exampleDefinitionC
    { exampleProto with Name := "ELSA-C" } [1, 2, 3, 5] none rfl rfl (by decide)

/-- C12: a criterion whose test reference is not found by the lookup of the tests leaves the
state of the run as it is, in `RPMDefsToVulns` and in the Oracle parser: nothing is emitted for
it; and the criterion loop over the leaves of a definition gives the same result with or without
that criterion, so the other criteria of the definition emit the same records in the same
order. -/
theorem unresolved_test_reference_is_skipped
    (root : oval.Root) (protoVuln : VulnPtr) (criterion : oval.Criterion) (err : Error)
    (hLookup : root.Tests.Lookup criterion.TestRef = .error err) :
    (∀ s, ovalutil.criterionBody root protoVuln s criterion = some s) ∧
    (∀ s, oracle.criterionBody root protoVuln s criterion = some s) ∧
    (∀ proto, criterionEmissions root proto criterion = []) ∧
    (∀ (before after : List oval.Criterion) (s : State),
      forEach (ovalutil.criterionBody root protoVuln) (before ++ criterion :: after) s =
        forEach (ovalutil.criterionBody root protoVuln) (before ++ after) s) ∧
    (∀ (before after : List oval.Criterion) (s : State),
      forEach (oracle.criterionBody root protoVuln) (before ++ criterion :: after) s =
        forEach (oracle.criterionBody root protoVuln) (before ++ after) s) := by
  have hbody : ∀ s, ovalutil.criterionBody root protoVuln s criterion = some s := by
    intro s
    unfold ovalutil.criterionBody
    simp only [hLookup]
  refine ⟨hbody, hbody, ?_, fun before after s => forEach_skip _ _ hbody before after s,
    fun before after s => forEach_skip _ _ hbody before after s⟩
  intro proto
  unfold criterionEmissions
  simp only [hLookup]

/-- Witness of C12: the example tests do not hold `tst:404`; the criterion that refers to it
changes nothing, and the criterion loop of `def:A` gives the same state without it. -/
theorem unresolved_test_reference_is_skipped_witness :
    ovalutil.criterionBody exampleRoot 0 exampleState (exampleCriterion "tst:404") =
      some exampleState ∧
    forEach (ovalutil.criterionBody exampleRoot 0)
        ([exampleCriterion "tst:2", exampleCriterion "tst:1", exampleCriterion "tst:3"] ++
          exampleCriterion "tst:404" :: []) exampleState =
      forEach (ovalutil.criterionBody exampleRoot 0)
        ([exampleCriterion "tst:2", exampleCriterion "tst:1", exampleCriterion "tst:3"] ++ [])
        exampleState :=
  ⟨(unresolved_test_reference_is_skipped exampleRoot 0 (exampleCriterion "tst:404")
      (.new "not found") rfl).1 exampleState,
    (unresolved_test_reference_is_skipped exampleRoot 0 (exampleCriterion "tst:404")
      (.new "not found") rfl).2.2.2.1 _ _ exampleState⟩

/-- Counterexample to C13: in the example decoded document the definition refers to the second
test of the dpkg family; the lookup succeeds with the kind of that family and the index 1,
which is not an index of the RPMInfo sub-collection of length 1, and both `RPMDefsToVulns` and
the Oracle `Parse` panic instead of returning. -/
theorem foreign_family_index_out_of_range :
    foreignRoot.Tests.Lookup "tst:dpkg:2" = .ok ("dpkginfo_test", 1) ∧
    foreignRoot.Tests.RPMInfoTests.length = 1 ∧
    ovalutil.RPMDefsToVulns { packages := [], vulnerabilities := [] } foreignRoot
      exampleStrategy = none ∧
    oracle.Parse exampleUpdater exampleLinks (fun _ => .ok foreignRoot)
      { packages := [], vulnerabilities := [] } [60] = none :=
  ⟨rfl, rfl, rfl, rfl⟩

/-- C13, amended: for every decoded document whose successful lookups answer with an index of
the RPMInfo sub-collection, as does every document whose tests, objects and states are all of
the RPMInfo family, `RPMDefsToVulns`, under every strategy that answers each definition with
a prototype or with an error, and the Oracle `Parse`, which builds its prototypes itself,
return a sequence and a nil error, whatever unknown references, unpaired reference lists and
states without EVR the document holds. -/
theorem resolution_returns_on_rpminfo_documents :
    (∀ (heap : Heap) (root : oval.Root) (protoVuln : ovalutil.ProtoVulnFunc),
      root.InRange →
      ∃ heap' vulns, ovalutil.RPMDefsToVulns heap root protoVuln =
        some (heap', some vulns, none)) ∧
    (∀ (u : oracle.Updater) (Links : oval.Definition → String)
        (decode : oracle.Reader → Except Error oval.Root) (heap : Heap) (r : oracle.Reader)
        (root : oval.Root),
      decode r = .ok root → root.InRange →
      ∃ heap' vulns, oracle.Parse u Links decode heap r = some (heap', some vulns, none)) ∧
    (∀ (defs : oval.Definitions) (tests : List oval.RPMInfoTest)
        (objects : List oval.RPMInfoObject) (states : List oval.RPMInfoState),
      oval.Root.InRange
        { Definitions := defs,
          Tests := oval.Tests.decoded tests [],
          Objects := oval.Objects.decoded objects [],
          States := oval.States.decoded states [] }) := by
  refine ⟨?_, ?_, oval.decoded_inRange⟩
  · intro heap root protoVuln hR
    exact ovalutil.RPMDefsToVulns_total heap protoVuln hR
  · intro u Links decode heap r root hd hR
    rw [oracle.Parse_eq u Links decode heap r root hd]
    exact ovalutil.RPMDefsToVulns_total heap _ hR

/-- Witness of the amended C13 on the example document, which refers to the unknown test
`tst:404`, to unknown objects and states, to a test with unpaired lists and to a state
without EVR. -/
theorem resolution_returns_on_rpminfo_documents_witness :
    ∃ heap' vulns, ovalutil.RPMDefsToVulns { packages := [], vulnerabilities := [] }
      exampleRoot exampleStrategyB = some (heap', some vulns, none) :=
  resolution_returns_on_rpminfo_documents.1 { packages := [], vulnerabilities := [] }
    exampleRoot exampleStrategyB exampleRoot_inRange

/-- C14: when a call of `RPMDefsToVulns` on a document under a strategy returns, a second call
on the same document under the same strategy, started on any heap, returns too, and the two
output sequences read as the same list of records: same length and, position by position, the
same Updater, Name, Description, Links, Severity, Dist, package and FixedInVersion; only the
addresses differ. The same holds for two calls of the Oracle `Parse` on the same stream. -/
theorem resolution_is_deterministic_in_content :
    (∀ (heap1 heap1' heap2 : Heap) (root : oval.Root) (protoVuln : ovalutil.ProtoVulnFunc)
        (vulns1 : List VulnPtr) (err1 : Option Error),
      ovalutil.RPMDefsToVulns heap1 root protoVuln = some (heap1', some vulns1, err1) →
      ∃ (heap2' : Heap) (vulns2 : List VulnPtr) (records : List Record),
        ovalutil.RPMDefsToVulns heap2 root protoVuln = some (heap2', some vulns2, none) ∧
        vulns1.map heap1'.load = records.map some ∧
        vulns2.map heap2'.load = records.map some) ∧
    (∀ (u : oracle.Updater) (Links : oval.Definition → String)
        (decode : oracle.Reader → Except Error oval.Root) (r : oracle.Reader)
        (heap1 heap1' heap2 : Heap) (vulns1 : List VulnPtr) (err1 : Option Error),
      oracle.Parse u Links decode heap1 r = some (heap1', some vulns1, err1) →
      ∃ (heap2' : Heap) (vulns2 : List VulnPtr) (records : List Record),
        oracle.Parse u Links decode heap2 r = some (heap2', some vulns2, none) ∧
        vulns1.map heap1'.load = records.map some ∧
        vulns2.map heap2'.load = records.map some) := by
  have hgen : ∀ (heap1 heap1' heap2 : Heap) (root : oval.Root)
      (protoVuln : ovalutil.ProtoVulnFunc) (vulns1 : List VulnPtr) (err1 : Option Error),
      ovalutil.RPMDefsToVulns heap1 root protoVuln = some (heap1', some vulns1, err1) →
      ∃ (heap2' : Heap) (vulns2 : List VulnPtr) (records : List Record),
        ovalutil.RPMDefsToVulns heap2 root protoVuln = some (heap2', some vulns2, none) ∧
        vulns1.map heap1'.load = records.map some ∧
        vulns2.map heap2'.load = records.map some := by
    intro heap1 heap1' heap2 root f vulns1 err1 h
    obtain ⟨heap2', vulns2, h2⟩ := ovalutil.RPMDefsToVulns_returns_alike heap2 h
    refine ⟨heap2', vulns2, (emissions root f).map (fun e => e.record), h2, ?_, ?_⟩
    · rw [ovalutil.RPMDefsToVulns_load h, List.map_map]
      rfl
    · rw [ovalutil.RPMDefsToVulns_load h2, List.map_map]
      rfl
  refine ⟨hgen, ?_⟩
  intro u Links decode r heap1 heap1' heap2 vulns1 err1 h
  cases hd : decode r with
  | error cause => simp [oracle.Parse, hd] at h
  | ok root =>
    rw [oracle.Parse_eq u Links decode heap1 r root hd] at h
    rw [oracle.Parse_eq u Links decode heap2 r root hd]
    exact hgen heap1 heap1' heap2 root _ vulns1 err1 h

/-- Witness of C14: the example document, parsed from the empty heap and again from the heap
the first call left, gives twice the same four records. -/
theorem resolution_is_deterministic_in_content_witness :
    ∃ (heap2' : Heap) (vulns2 : List VulnPtr) (records : List Record),
      ovalutil.RPMDefsToVulns exampleHeapB exampleRoot exampleStrategyB =
        some (heap2', some vulns2, none) ∧
      [1, 2, 3, 5].map exampleHeapB.load = records.map some ∧
      vulns2.map heap2'.load = records.map some :=
  resolution_is_deterministic_in_content.1 { packages := [], vulnerabilities := [] }
    exampleHeapB exampleHeapB exampleRoot exampleStrategyB [1, 2, 3, 5] none (by decide)

/-- C15: `Opts.Parse` returns an error exactly when `ConnString` is the empty string, and then
leaves the options as they are; for a non-empty `ConnString` it returns nil and leaves
`ConnString`, `NoLayerValidation` and `Migrations` as they are. -/
theorem opts_parse_requires_conn_string {F C E V : Type} (env : libindex.Env F C E)
    (o : libindex.Opts F C E V) :
    ((libindex.Opts.Parse env o).2 ≠ none ↔ o.ConnString = "") ∧
    (o.ConnString = "" → (libindex.Opts.Parse env o).1 = o) ∧
    (o.ConnString ≠ "" →
      (libindex.Opts.Parse env o).2 = none ∧
      (libindex.Opts.Parse env o).1.ConnString = o.ConnString ∧
      (libindex.Opts.Parse env o).1.NoLayerValidation = o.NoLayerValidation ∧
      (libindex.Opts.Parse env o).1.Migrations = o.Migrations) := by
  by_cases h : o.ConnString = ""
  · refine ⟨⟨fun _ => h, fun _ => ?_⟩, fun _ => ?_, fun hne => absurd h hne⟩
    · simp [libindex.Opts.Parse, h]
    · simp [libindex.Opts.Parse, h]
  · refine ⟨⟨fun hne => ?_, fun he => absurd he h⟩, fun he => absurd he h, fun _ => ?_⟩
    · simp [libindex.Opts.Parse, h] at hne
    · simp only [libindex.Opts.Parse, if_neg h]
      refine ⟨trivial, ?_, ?_, ?_⟩ <;>
      · split <;> split <;> split <;> split <;> rfl

/-- Witness of C15: the example options have a connection string; the same options without
one are refused and left as they are. -/
theorem opts_parse_requires_conn_string_witness :
    ((libindex.Opts.Parse libindex.exampleEnv libindex.exampleOpts).2 = none ∧
      (libindex.Opts.Parse libindex.exampleEnv libindex.exampleOpts).1.ConnString =
        "host=localhost" ∧
      (libindex.Opts.Parse libindex.exampleEnv libindex.exampleOpts).1.NoLayerValidation =
        true ∧
      (libindex.Opts.Parse libindex.exampleEnv libindex.exampleOpts).1.Migrations = true) ∧
    (libindex.Opts.Parse libindex.exampleEnv
        { libindex.exampleOpts with ConnString := "" }).1 =
      { libindex.exampleOpts with ConnString := "" } :=
  ⟨(opts_parse_requires_conn_string libindex.exampleEnv libindex.exampleOpts).2.2
      (by decide),
    (opts_parse_requires_conn_string libindex.exampleEnv
      { libindex.exampleOpts with ConnString := "" }).2.1 rfl⟩

/-- C16, the code at the failing input: on a layer whose archive is empty, and on a layer that
holds a directory and a regular file that is no python metadata, `Scan` returns the empty
non-nil slice `[]*claircore.Package{}` and a nil error, not the pair `(nil, nil)` that its
documentation announces. -/
theorem scan_without_metadata_returns_a_non_nil_slice :
    python.Scan none python.exampleReadMIMEHeader python.exampleLayerEmpty = (some [], none) ∧
    python.Scan none python.exampleReadMIMEHeader python.exampleLayerWithout =
      (some [], none) ∧
    python.Scan none python.exampleReadMIMEHeader python.exampleLayerEmpty ≠ (none, none) := by
  refine ⟨by decide, by decide, by decide⟩

/-- Counterexample to C17: the example layer reads without error and holds two regular files
named as python metadata; the header of the first ends with an empty line and parses, the
second file holds its two header lines and nothing else, so that reading its header meets the
end of the file; `Scan` returns a nil slice and `io.EOF`, not the two packages. -/
theorem unterminated_metadata_header_fails_the_scan :
    python.exampleLayerUnterminated.Reader =
      .ok (true,
        { entries :=
            [ { header := { Typeflag := '0', Name :=
                  "usr/local/lib/python3.7/site-packages/appdirs-1.4.3.dist-info/METADATA" },
                content := "Name: appdirs\nVersion: 1.4.3\n\nA small Python module.\n" },
              { header := { Typeflag := '0', Name :=
                  "usr/local/lib/python3.7/site-packages/args-0.1.0.egg-info/PKG-INFO" },
                content := "Name: args\nVersion: 0.1.0\n" } ],
          final := python.EOF }) ∧
    python.Entry.isMetadata
        { header := { Typeflag := '0', Name :=
            "usr/local/lib/python3.7/site-packages/appdirs-1.4.3.dist-info/METADATA" },
          content := "Name: appdirs\nVersion: 1.4.3\n\nA small Python module.\n" } = true ∧
    python.Entry.isMetadata
        { header := { Typeflag := '0', Name :=
            "usr/local/lib/python3.7/site-packages/args-0.1.0.egg-info/PKG-INFO" },
          content := "Name: args\nVersion: 0.1.0\n" } = true ∧
    python.exampleReadMIMEHeaderLines "Name: appdirs\nVersion: 1.4.3\n\nA small Python module.\n" =
      .ok [("Name", ["appdirs"]), ("Version", ["1.4.3"])] ∧
    python.exampleReadMIMEHeaderLines "Name: args\nVersion: 0.1.0\n" = .error python.EOF ∧
    python.Scan none python.exampleReadMIMEHeaderLines python.exampleLayerUnterminated =
      (none, some python.EOF) := by
  refine ⟨rfl, by decide, by decide, rfl, rfl, by decide⟩

/-- C17, amended: for a layer with a seekable reader whose archive ends with `io.EOF`, when the
header of every metadata entry parses, `Scan` returns a nil error and exactly one package per
entry that is a regular file with a normalised name ending in `.egg-info/PKG-INFO` or in
`.dist-info/METADATA`, in archive order; an entry of another type or name gives nothing. The
package of a metadata entry has the `Name` and `Version` headers of the file, the kind
"source", and as `PackageDB` the path two levels up: the normalised name spells plain
components `parent ++ [dir, file]`, and `PackageDB` is the path of `parent`. When the header
of a metadata entry does not parse, and those before it do, `Scan` returns a nil slice and the
error of the header parser. -/
theorem scan_returns_one_package_per_metadata_file
    (ReadMIMEHeader : String → Except Error python.MIMEHeader) (layer : python.Layer)
    (archive : python.Archive)
    (hReader : layer.Reader = .ok (true, archive))
    (hEOF : archive.final = python.EOF) :
    ((∀ e ∈ archive.entries, e.isMetadata = true →
        ∃ hdr, ReadMIMEHeader e.content = .ok hdr) →
      python.Scan none ReadMIMEHeader layer =
        (some (archive.entries.filterMap (python.Entry.package ReadMIMEHeader)), none)) ∧
    (∀ e ∈ archive.entries, e.isMetadata = false → e.package ReadMIMEHeader = none) ∧
    (∀ e ∈ archive.entries, e.isMetadata = true →
      ∀ hdr, ReadMIMEHeader e.content = .ok hdr →
      ∃ parent dir file,
        (∀ c ∈ parent ++ [dir, file], python.Plain c) ∧
        python.normalise e.header.Name = python.pathOf (parent ++ [dir, file]) ∧
        e.package ReadMIMEHeader =
          some { Name := hdr.Get "Name",
                 Version := hdr.Get "Version",
                 Kind := "source",
                 PackageDB := python.pathOf parent }) ∧
    (∀ (pre : List python.Entry) (e : python.Entry) (post : List python.Entry) (err : Error),
      archive.entries = pre ++ e :: post →
      (∀ x ∈ pre, x.isMetadata = true → ∃ hdr, ReadMIMEHeader x.content = .ok hdr) →
      e.isMetadata = true → ReadMIMEHeader e.content = .error err →
      python.Scan none ReadMIMEHeader layer = (none, some err)) := by
  refine ⟨?_, ?_, ?_, ?_⟩
  · intro hHeaders
    simp only [python.Scan, hReader, python.scanLoop_eq ReadMIMEHeader archive.entries []
      hHeaders, hEOF]
    simp
  · intro e _ hmeta
    simp [python.Entry.package, hmeta]
  · intro e he hmeta hdr hhdr
    obtain ⟨comps, hplain, hnorm⟩ := python.normalise_eq e.header.Name
    have hsuffix : python.HasSuffix (python.pathOf comps) ".egg-info/PKG-INFO" = true ∨
        python.HasSuffix (python.pathOf comps) ".dist-info/METADATA" = true := by
      have := hmeta
      simp only [python.Entry.isMetadata, decide_eq_true_eq, hnorm] at this
      exact this.2
    obtain ⟨parent, dir, file, hcomps⟩ := python.metadata_components hplain hsuffix
    subst hcomps
    refine ⟨parent, dir, file, hplain, hnorm, ?_⟩
    simp only [python.Entry.package, hmeta, if_true, hhdr, hnorm,
      python.Join_up_two parent dir file hplain]
  · intro pre e post err hentries hpre hmeta hfail
    simp only [python.Scan, hReader, hentries,
      python.scanLoop_error ReadMIMEHeader e post err hmeta hfail pre [] hpre]
    simp

/-- Witness of the amended C17: the example layer holds a directory, the wheel metadata of
appdirs, an unrelated file, the egg metadata of args and a symbolic link named like wheel
metadata; `Scan` returns the packages appdirs and args, in that order, with the site-packages
directory as `PackageDB`. -/
theorem scan_returns_one_package_per_metadata_file_witness :
    python.Scan none python.exampleReadMIMEHeader python.exampleLayer =
      (some [ { Name := "appdirs", Version := "1.4.3", Kind := "source",
                PackageDB := "usr/local/lib/python3.7/site-packages" },
              { Name := "args", Version := "0.1.0", Kind := "source",
                PackageDB := "usr/local/lib/python3.7/site-packages" } ], none) := by
  have h := (scan_returns_one_package_per_metadata_file python.exampleReadMIMEHeader
    python.exampleLayer
    { entries :=
        [ { header := { Typeflag := '5', Name := "usr/local/lib/python3.7/site-packages/" },
            content := "" },
          { header := { Typeflag := '0', Name :=
              "usr/local/lib/python3.7/site-packages/appdirs-1.4.3.dist-info/METADATA" },
            content := "appdirs 1.4.3" },
          { header := { Typeflag := '0', Name := "etc/passwd" }, content := "root" },
          { header := { Typeflag := '0', Name :=
              "./usr/local/lib/python3.7/site-packages/args-0.1.0.egg-info/PKG-INFO" },
            content := "args 0.1.0" },
          { header := { Typeflag := '2', Name :=
              "usr/lib/python3/dist-packages/six-1.12.0.dist-info/METADATA" },
            content := "" } ],
      final := python.EOF } rfl rfl).1 (by
        intro e he _
        simp only [List.mem_cons, List.mem_singleton, List.not_mem_nil, or_false] at he
        rcases he with rfl | rfl | rfl | rfl | rfl <;> exact ⟨_, rfl⟩)
  rw [h]
  decide

/-- C18: on a decoded document, the Oracle `Parse` returns what `RPMDefsToVulns` returns on
that document, from the same heap, under the strategy `oracle.protoVuln`: the same final
heap, hence the same records and the same sharing of packages, the same sequence of pointers
and the same nil error, or a panic in both. The strategy gives a definition whose first
platform string found in `platformToDist` maps to `dist` the prototype with the name of the
updater, the title, the description, the links and the advisory severity of the definition and
with `dist`; it gives an error to a definition none of whose platform strings is in the
table. -/
theorem parse_is_RPMDefsToVulns_under_the_oracle_strategy
    (u : oracle.Updater) (Links : oval.Definition → String)
    (decode : oracle.Reader → Except Error oval.Root) (heap : Heap) (r : oracle.Reader)
    (root : oval.Root) (hDecode : decode r = .ok root) :
    oracle.Parse u Links decode heap r =
      ovalutil.RPMDefsToVulns heap root (oracle.protoVuln u Links) ∧
    (∀ (defn : oval.Definition) (before after : List String) (platform : String)
        (dist : Distribution),
      defn.platforms = before ++ platform :: after →
      (∀ p ∈ before, oracle.platformToDist.lookup p = none) →
      oracle.platformToDist.lookup platform = some dist →
      oracle.protoVuln u Links defn =
        .ok { Updater := u.Name,
              Name := defn.Title,
              Description := defn.Description,
              Links := Links defn,
              Severity := defn.Advisory.Severity,
              Package := none,
              Dist := some dist,
              FixedInVersion := "" }) ∧
    (∀ (defn : oval.Definition),
      (∀ p ∈ defn.platforms, oracle.platformToDist.lookup p = none) →
      ∃ err, oracle.protoVuln u Links defn = .error err) := by
  refine ⟨oracle.Parse_eq u Links decode heap r root hDecode, ?_, ?_⟩
  · intro defn before after platform dist hplat hbefore hhit
    have hsearch : oracle.DistSearch defn.Affecteds = some dist := by
      rw [oracle.DistSearch_eq]
      have := oracle.searchPlatforms_first before after hbefore hhit
      rw [← hplat] at this
      exact this
    simp only [oracle.protoVuln, hsearch]
  · intro defn hnone
    have hsearch : oracle.DistSearch defn.Affecteds = none := by
      rw [oracle.DistSearch_eq]
      exact oracle.searchPlatforms_none hnone
    refine ⟨.new "no platform maps to a distribution", ?_⟩
    simp only [oracle.protoVuln, hsearch]

/-- Witness of C18 on the example document, decoded from the stream `<`. -/
theorem parse_is_RPMDefsToVulns_under_the_oracle_strategy_witness :
    oracle.Parse exampleUpdater exampleLinks exampleDecode
        { packages := [], vulnerabilities := [] } [60] =
      ovalutil.RPMDefsToVulns { packages := [], vulnerabilities := [] } exampleRoot
        (oracle.protoVuln exampleUpdater exampleLinks) :=
  (parse_is_RPMDefsToVulns_under_the_oracle_strategy exampleUpdater exampleLinks exampleDecode
    { packages := [], vulnerabilities := [] } [60] exampleRoot rfl).1

/-- C19: `walkCriterion` is depth first: it returns the slice it was given, then the leaves
collected from the nested groups of the node, group by group in document order, then the
Criterion entries of the node itself in document order; and the copy of the Oracle parser
returns the same list as the copy of `ovalutil` for every tree. -/
theorem walkCriterion_is_depth_first (node : oval.Criteria) (cris : List oval.Criterion) :
    ovalutil.walkCriterion node cris =
      cris ++ node.Criterias.flatMap (fun child => ovalutil.walkCriterion child []) ++
        node.Criterions ∧
    ovalutil.walkCriterion node [] =
      node.Criterias.flatMap (fun child => ovalutil.walkCriterion child []) ++
        node.Criterions ∧
    oracle.walkCriterion node cris = ovalutil.walkCriterion node cris := by
  have h : ∀ cris, ovalutil.walkCriterion node cris =
      cris ++ node.Criterias.flatMap (fun child => ovalutil.walkCriterion child []) ++
        node.Criterions := by
    intro cris
    cases node with
    | mk criterias criterions =>
      simp only [ovalutil.walkCriterion, foldl_append_singleton,
        ovalutil.walkCriterias_eq_flatMap, oval.Criteria.Criterias, oval.Criteria.Criterions]
  refine ⟨h cris, ?_, oracle.walkCriterion_eq node cris⟩
  simpa using h []

/-- C20: the output of a returned call of `RPMDefsToVulns` is the concatenation of one stretch
per definition, in document order, and the stretch of a definition reads as the records of the
emissions of that definition alone, so that every vulnerability of a definition comes before
every vulnerability of a later definition. The stretch is what the definition loop body appends
for the definition, and the body does not depend on the content of the outer slice `cris`:
re-sliced to length 0, it carries no leaf of an earlier definition into the walk of a later
one. -/
theorem output_is_concatenation_over_definitions :
    (∀ (heap heap' : Heap) (root : oval.Root) (protoVuln : ovalutil.ProtoVulnFunc)
        (vulns : List VulnPtr) (err : Option Error),
      ovalutil.RPMDefsToVulns heap root protoVuln = some (heap', some vulns, err) →
      ∃ segments : List (List VulnPtr),
        vulns = segments.flatten ∧
        List.Forall₂ (fun seg defn =>
            seg.map heap'.load =
              (definitionEmissions root protoVuln defn).map (fun e => some e.record))
          segments root.Definitions.Definitions) ∧
    (∀ (root : oval.Root) (protoVuln : ovalutil.ProtoVulnFunc) (cris : List oval.Criterion)
        (s t : State) (defn : oval.Definition),
      ovalutil.definitionBody root protoVuln cris s defn = some t →
      ∃ new, t.vulns = s.vulns ++ new ∧
        List.Forall₂ (Emits t) new (definitionEmissions root protoVuln defn)) ∧
    (∀ (root : oval.Root) (protoVuln : ovalutil.ProtoVulnFunc) (cris : List oval.Criterion)
        (s : State) (defn : oval.Definition),
      ovalutil.definitionBody root protoVuln cris s defn =
        ovalutil.definitionBody root protoVuln [] s defn) := by
  refine ⟨?_, ?_, ovalutil.definitionBody_cris⟩
  · intro heap heap' root f vulns err h
    obtain ⟨t, hrun, hheap, hvulns, _⟩ := ovalutil.RPMDefsToVulns_eq_some h
    simp only [Option.some.injEq] at hvulns
    subst hheap hvulns
    have hc : CacheOK heap t :=
      (ovalutil.run_step hrun).coherent heap ⟨Nat.le_refl _, fun _ _ hl => by simp at hl⟩
    obtain ⟨segments, hsegs, hforall⟩ :=
      ovalutil.definitionLoop_segments root.Definitions.Definitions _ t hrun
    simp only [List.nil_append] at hsegs
    refine ⟨segments, hsegs, hforall.imp ?_⟩
    intro seg defn hseg
    exact map_eq_of_forall₂ (fun ptr e he => he.load hc) hseg
  · intro root f cris s t defn h
    exact (ovalutil.definitionBody_step h).out

/-- Witness of C20 on the example document under the strategy that declines `def:B`: the
output is the stretch of `def:A`, the empty stretch of `def:B` and the stretch of `def:C`. -/
theorem output_is_concatenation_over_definitions_witness :
    ∃ segments : List (List VulnPtr),
      [1, 2, 3, 5] = segments.flatten ∧
      List.Forall₂ (fun seg defn =>
          seg.map exampleHeapB.load =
            (definitionEmissions exampleRoot exampleStrategyB defn).map
              (fun e => some e.record))
        segments exampleRoot.Definitions.Definitions :=
  output_is_concatenation_over_definitions.1 { packages := [], vulnerabilities := [] }
    exampleHeapB exampleRoot exampleStrategyB [1, 2, 3, 5] none (by decide)

/-- C22: after a successful `Opts.Parse`, `ScanLockRetry` is at least one second: a value of at
least one second is kept, and every smaller value, zero and negative ones included, is replaced
by `DefaultScanLockRetry`, which is five seconds; `LayerScanConcurrency` is replaced by
`DefaultLayerScanConcurrency`, which is 10, when it was 0, and is kept otherwise. -/
theorem opts_parse_defaults_retry_and_concurrency {F C E V : Type} (env : libindex.Env F C E)
    (o : libindex.Opts F C E V) (hOK : (libindex.Opts.Parse env o).2 = none) :
    libindex.Second ≤ (libindex.Opts.Parse env o).1.ScanLockRetry ∧
    (libindex.Second ≤ o.ScanLockRetry →
      (libindex.Opts.Parse env o).1.ScanLockRetry = o.ScanLockRetry) ∧
    (o.ScanLockRetry < libindex.Second →
      (libindex.Opts.Parse env o).1.ScanLockRetry = libindex.DefaultScanLockRetry) ∧
    libindex.DefaultScanLockRetry = 5 * 1000000000 ∧
    (o.LayerScanConcurrency = 0 →
      (libindex.Opts.Parse env o).1.LayerScanConcurrency = 10) ∧
    (o.LayerScanConcurrency ≠ 0 →
      (libindex.Opts.Parse env o).1.LayerScanConcurrency = o.LayerScanConcurrency) := by
  have hconn : ¬ o.ConnString = "" := by
    intro h
    simp [libindex.Opts.Parse, h] at hOK
  have hretry : (libindex.Opts.Parse env o).1.ScanLockRetry =
      if o.ScanLockRetry = 0 ∨ o.ScanLockRetry < libindex.Second
      then libindex.DefaultScanLockRetry else o.ScanLockRetry := by
    simp only [libindex.Opts.Parse, if_neg hconn]
    split <;> split <;> split <;> split <;> rfl
  have hconc : (libindex.Opts.Parse env o).1.LayerScanConcurrency =
      if o.LayerScanConcurrency = 0 then libindex.DefaultLayerScanConcurrency
      else o.LayerScanConcurrency := by
    simp only [libindex.Opts.Parse, if_neg hconn]
    split <;> split <;> split <;> split <;> rfl
  have hsec : libindex.Second = 1000000000 := rfl
  have hdef : libindex.DefaultScanLockRetry = 5 * 1000000000 := rfl
  refine ⟨?_, ?_, ?_, hdef, ?_, ?_⟩
  · rw [hretry]
    split
    · rw [hdef, hsec]; decide
    · next h =>
      have := not_or.mp h
      exact Int.not_lt.mp this.2
  · intro h
    rw [hretry, if_neg]
    intro hc
    rcases hc with h0 | hlt
    · rw [h0, hsec] at h
      exact absurd h (by decide)
    · exact absurd h (Int.not_le.mpr hlt)
  · intro h
    rw [hretry, if_pos (Or.inr h)]
  · intro h
    rw [hconc, if_pos h]
    rfl
  · intro h
    rw [hconc, if_neg h]

/-- Witness of C22: the example options have a zero retry and a zero concurrency, which become
five seconds and 10; a retry of two seconds and a concurrency of 4 are kept. -/
theorem opts_parse_defaults_retry_and_concurrency_witness :
    ((libindex.Opts.Parse libindex.exampleEnv libindex.exampleOpts).1.ScanLockRetry =
        5000000000 ∧
      (libindex.Opts.Parse libindex.exampleEnv libindex.exampleOpts).1.LayerScanConcurrency =
        10) ∧
    ((libindex.Opts.Parse libindex.exampleEnv
        { libindex.exampleOpts with ScanLockRetry := 2000000000,
                                    LayerScanConcurrency := 4 }).1.ScanLockRetry =
        2000000000 ∧
      (libindex.Opts.Parse libindex.exampleEnv
        { libindex.exampleOpts with ScanLockRetry := 2000000000,
                                    LayerScanConcurrency := 4 }).1.LayerScanConcurrency =
        4) :=
  ⟨⟨(opts_parse_defaults_retry_and_concurrency libindex.exampleEnv libindex.exampleOpts
        rfl).2.2.1 (by decide),
      (opts_parse_defaults_retry_and_concurrency libindex.exampleEnv libindex.exampleOpts
        rfl).2.2.2.2.1 rfl⟩,
    ⟨(opts_parse_defaults_retry_and_concurrency libindex.exampleEnv
        { libindex.exampleOpts with ScanLockRetry := 2000000000, LayerScanConcurrency := 4 }
        rfl).2.1 (by decide),
      (opts_parse_defaults_retry_and_concurrency libindex.exampleEnv
        { libindex.exampleOpts with ScanLockRetry := 2000000000, LayerScanConcurrency := 4 }
        rfl).2.2.2.2.2 (by decide)⟩⟩

/-- C23: after a successful `Opts.Parse`, `LayerFetchOpt` is `DefaultLayerFetchOpt`, which is
`OnDisk`, whatever the caller had set; and `Parse` on the result of a successful `Parse`
succeeds again and changes none of `ConnString`, `ScanLockRetry`, `LayerScanConcurrency`,
`LayerFetchOpt`, `NoLayerValidation` and `Migrations`. -/
theorem opts_parse_forces_on_disk_and_is_idempotent {F C E V : Type}
    (env : libindex.Env F C E) (o : libindex.Opts F C E V)
    (hOK : (libindex.Opts.Parse env o).2 = none) :
    (libindex.Opts.Parse env o).1.LayerFetchOpt = libindex.DefaultLayerFetchOpt env ∧
    libindex.DefaultLayerFetchOpt env = env.OnDisk ∧
    (libindex.Opts.Parse env (libindex.Opts.Parse env o).1).2 = none ∧
    (libindex.Opts.Parse env (libindex.Opts.Parse env o).1).1.ConnString =
      (libindex.Opts.Parse env o).1.ConnString ∧
    (libindex.Opts.Parse env (libindex.Opts.Parse env o).1).1.ScanLockRetry =
      (libindex.Opts.Parse env o).1.ScanLockRetry ∧
    (libindex.Opts.Parse env (libindex.Opts.Parse env o).1).1.LayerScanConcurrency =
      (libindex.Opts.Parse env o).1.LayerScanConcurrency ∧
    (libindex.Opts.Parse env (libindex.Opts.Parse env o).1).1.LayerFetchOpt =
      (libindex.Opts.Parse env o).1.LayerFetchOpt ∧
    (libindex.Opts.Parse env (libindex.Opts.Parse env o).1).1.NoLayerValidation =
      (libindex.Opts.Parse env o).1.NoLayerValidation ∧
    (libindex.Opts.Parse env (libindex.Opts.Parse env o).1).1.Migrations =
      (libindex.Opts.Parse env o).1.Migrations := by
  have hconn : ¬ o.ConnString = "" := by
    intro h
    simp [libindex.Opts.Parse, h] at hOK
  -- what one successful call computes, field by field
  have fields : ∀ p : libindex.Opts F C E V, ¬ p.ConnString = "" →
      (libindex.Opts.Parse env p).2 = none ∧
      (libindex.Opts.Parse env p).1.ConnString = p.ConnString ∧
      (libindex.Opts.Parse env p).1.ScanLockRetry =
        (if p.ScanLockRetry = 0 ∨ p.ScanLockRetry < libindex.Second
         then libindex.DefaultScanLockRetry else p.ScanLockRetry) ∧
      (libindex.Opts.Parse env p).1.LayerScanConcurrency =
        (if p.LayerScanConcurrency = 0 then libindex.DefaultLayerScanConcurrency
         else p.LayerScanConcurrency) ∧
      (libindex.Opts.Parse env p).1.LayerFetchOpt = libindex.DefaultLayerFetchOpt env ∧
      (libindex.Opts.Parse env p).1.NoLayerValidation = p.NoLayerValidation ∧
      (libindex.Opts.Parse env p).1.Migrations = p.Migrations := by
    intro p hp
    simp only [libindex.Opts.Parse, if_neg hp]
    refine ⟨?_, ?_, ?_, ?_, ?_, ?_, ?_⟩ <;>
    first
      | trivial
      | (split <;> split <;> split <;> split <;> rfl)
  obtain ⟨_, h1c, h1r, h1l, h1f, _, _⟩ := fields o hconn
  have hconn2 : ¬ (libindex.Opts.Parse env o).1.ConnString = "" := by
    rw [h1c]; exact hconn
  obtain ⟨h2e, h2c, h2r, h2l, h2f, h2n, h2m⟩ := fields (libindex.Opts.Parse env o).1 hconn2
  have hsec : libindex.Second = 1000000000 := rfl
  have hdef : libindex.DefaultScanLockRetry = 5 * 1000000000 := rfl
  refine ⟨h1f, rfl, h2e, h2c, ?_, ?_, ?_, h2n, h2m⟩
  · rw [h2r, if_neg]
    rw [h1r]
    split
    · rw [hdef, hsec]; decide
    · next h =>
      have h' := not_or.mp h
      intro hc
      rcases hc with h0 | hlt
      · exact h'.1 h0
      · exact h'.2 hlt
  · rw [h2l, if_neg]
    rw [h1l]
    split
    · show ¬ libindex.DefaultLayerScanConcurrency = 0
      decide
    · next h => exact h
  · rw [h2f, h1f]

/-- Witness of C23: the example options ask for in-memory layers, zero retry and zero
concurrency; the first call answers on-disk layers, and the second call changes nothing. -/
theorem opts_parse_forces_on_disk_and_is_idempotent_witness :
    libindex.exampleOpts.LayerFetchOpt = "inmem" ∧
    (libindex.Opts.Parse libindex.exampleEnv libindex.exampleOpts).1.LayerFetchOpt =
      "ondisk" ∧
    (libindex.Opts.Parse libindex.exampleEnv
      (libindex.Opts.Parse libindex.exampleEnv libindex.exampleOpts).1).2 = none ∧
    (libindex.Opts.Parse libindex.exampleEnv
      (libindex.Opts.Parse libindex.exampleEnv libindex.exampleOpts).1).1.ScanLockRetry =
      5000000000 :=
  ⟨rfl,
    (opts_parse_forces_on_disk_and_is_idempotent libindex.exampleEnv libindex.exampleOpts
      rfl).1,
    (opts_parse_forces_on_disk_and_is_idempotent libindex.exampleEnv libindex.exampleOpts
      rfl).2.2.1,
    (opts_parse_forces_on_disk_and_is_idempotent libindex.exampleEnv libindex.exampleOpts
      rfl).2.2.2.2.1.trans rfl⟩

/-- Counterexample to C21: in the example decoded document the RPMInfo test refers to the second
object of the dpkg family; the lookup succeeds with the index 1, the RPMInfo sub-collection
holds one object, and `RPMDefsToVulns` panics at `root.Objects.RPMInfoObjects[objIndex]`: the
call returns neither a sequence nor an error. -/
theorem foreign_object_index_aborts_the_call :
    foreignObjectRoot.Tests.Lookup "tst:1" = .ok ("rpminfo_test", 0) ∧
    foreignObjectRoot.Objects.Lookup "obj:dpkg:2" = .ok ("dpkginfo_object", 1) ∧
    foreignObjectRoot.Objects.RPMInfoObjects.length = 1 ∧
    ovalutil.RPMDefsToVulns { packages := [], vulnerabilities := [] } foreignObjectRoot
      exampleStrategy = none ∧
    ¬ ∃ (heap' : Heap) (vulns : List VulnPtr),
      ovalutil.RPMDefsToVulns { packages := [], vulnerabilities := [] } foreignObjectRoot
        exampleStrategy = some (heap', some vulns, none) := by
  refine ⟨rfl, rfl, rfl, rfl, ?_⟩
  rintro ⟨heap', vulns, h⟩
  have hnone : ovalutil.RPMDefsToVulns { packages := [], vulnerabilities := [] }
      foreignObjectRoot exampleStrategy = none := rfl
  rw [hnone] at h
  exact Option.noConfusion h

/-- C21, amended: whatever `RPMDefsToVulns` returns, on any document and under any strategy, is
a non-nil sequence with a nil error, and on every document whose successful lookups answer
with an index of the RPMInfo sub-collection it does return; a strategy error skips the
definition, an unresolved test reference or a test with unpaired reference lists skips the
criterion, an unresolved object or state reference or a state without EVR skips the pair, each
leaving the locals as they were, so none of them reaches the caller. -/
theorem resolution_failures_are_skipped_not_returned (heap : Heap) (root : oval.Root)
    (protoVuln : ovalutil.ProtoVulnFunc) :
    (∀ (heap' : Heap) (vulns : Option (List VulnPtr)) (err : Option Error),
      ovalutil.RPMDefsToVulns heap root protoVuln = some (heap', vulns, err) →
      (∃ l, vulns = some l) ∧ err = none) ∧
    (root.InRange →
      ∃ heap' vulns, ovalutil.RPMDefsToVulns heap root protoVuln =
        some (heap', some vulns, none)) ∧
    (∀ (cris : List oval.Criterion) (s : State) (defn : oval.Definition) (e : Error),
      protoVuln defn = .error e →
      ovalutil.definitionBody root protoVuln cris s defn = some s) ∧
    (∀ (pv : VulnPtr) (s : State) (criterion : oval.Criterion) (e : Error),
      root.Tests.Lookup criterion.TestRef = .error e →
      ovalutil.criterionBody root pv s criterion = some s) ∧
    (∀ (pv : VulnPtr) (s : State) (criterion : oval.Criterion) (kind : String) (index : Nat)
        (test : oval.RPMInfoTest),
      root.Tests.Lookup criterion.TestRef = .ok (kind, index) →
      root.Tests.RPMInfoTests[index]? = some test →
      test.ObjectRefs.length ≠ test.StateRefs.length →
      ovalutil.criterionBody root pv s criterion = some s) ∧
    (∀ (pv : VulnPtr) (test : oval.RPMInfoTest) (s : State) (i : Nat)
        (o : oval.ObjectRef) (st : oval.StateRef),
      test.ObjectRefs[i]? = some o → test.StateRefs[i]? = some st →
      ((∃ e, root.Objects.Lookup o.ObjectRef = .error e) ∨
        (∃ e, root.States.Lookup st.StateRef = .error e)) →
      ovalutil.pairBody root pv test s i = some s) ∧
    (∀ (pv : VulnPtr) (test : oval.RPMInfoTest) (s : State) (i : Nat)
        (o : oval.ObjectRef) (st : oval.StateRef) (kindO kindS : String)
        (objIndex stateIndex : Nat) (object : oval.RPMInfoObject) (state : oval.RPMInfoState),
      test.ObjectRefs[i]? = some o → test.StateRefs[i]? = some st →
      root.Objects.Lookup o.ObjectRef = .ok (kindO, objIndex) →
      root.States.Lookup st.StateRef = .ok (kindS, stateIndex) →
      root.Objects.RPMInfoObjects[objIndex]? = some object →
      root.States.RPMInfoStates[stateIndex]? = some state →
      state.EVR = none →
      ovalutil.pairBody root pv test s i = some s) := by
  refine ⟨?_, ?_, ?_, ?_, ?_, ?_, ?_⟩
  · intro heap' vulns err h
    obtain ⟨t, _, _, hv, he⟩ := ovalutil.RPMDefsToVulns_eq_some h
    exact ⟨⟨t.vulns, hv⟩, he⟩
  · intro hR
    exact ovalutil.RPMDefsToVulns_total heap protoVuln hR
  · intro cris s defn e hf
    simp only [ovalutil.definitionBody, hf]
  · intro pv s criterion e hl
    simp only [ovalutil.criterionBody, hl]
  · intro pv s criterion kind index test hl ht hlen
    simp only [ovalutil.criterionBody, hl, ht]
    rw [if_pos hlen]
  · intro pv test s i o st ho hst h
    rcases h with ⟨e, he⟩ | ⟨e, he⟩
    · simp only [ovalutil.pairBody, ho, hst, he]
    · cases hO : root.Objects.Lookup o.ObjectRef with
      | error e' => simp only [ovalutil.pairBody, ho, hst, hO]
      | ok r =>
        obtain ⟨kindO, objIndex⟩ := r
        simp only [ovalutil.pairBody, ho, hst, hO, he]
  · intro pv test s i o st kindO kindS objIndex stateIndex object state ho hst hO hS hobj
      hstate hevr
    simp only [ovalutil.pairBody, ho, hst, hO, hS, hobj, hstate, hevr]

/-- Witness of the amended C21 on the example document, whose lookups are in range: the
strategy declines the definition `def:B`, which is skipped, and the call returns a sequence
and no error. -/
theorem resolution_failures_are_skipped_not_returned_witness :
    exampleRoot.InRange ∧
    exampleStrategyB exampleDefinitionB = .error (.new "not applicable") ∧
    ovalutil.definitionBody exampleRoot exampleStrategyB [] exampleState exampleDefinitionB =
      some exampleState ∧
    ∃ heap' vulns, ovalutil.RPMDefsToVulns { packages := [], vulnerabilities := [] }
      exampleRoot exampleStrategyB = some (heap', some vulns, none) :=
  ⟨exampleRoot_inRange, rfl,
    (resolution_failures_are_skipped_not_returned { packages := [], vulnerabilities := [] }
      exampleRoot exampleStrategyB).2.2.1 [] exampleState exampleDefinitionB
      (.new "not applicable") rfl,
    (resolution_failures_are_skipped_not_returned { packages := [], vulnerabilities := [] }
      exampleRoot exampleStrategyB).2.1 exampleRoot_inRange⟩

end claircore
